import Mathlib

/-!
A verification development for the AsciiDoc conditional-preprocessing pipeline
(`line_types.py`, `parser.py`, `condmap.py`, `preprocess_conditionals.py`).

The Python sources are shallowly embedded: every function is translated into an
executable Lean definition, with Python exceptions modelled by an explicit error
type.  Comments cite the source file and line numbers each definition embeds.

Naming: source names are kept wherever possible.  A few identifiers are renamed
for technical reasons (e.g. the source's `BLOCK_PREFIX` becomes `BLOCK_PFX`,
`PARTIAL` becomes `PARTIAL_SPAN`); each such renaming is noted where it occurs.
-/

namespace AsciidocPP

/-- Abnormal outcomes of the embedded Python code.  Each constructor corresponds
to a Python exception class; `infiniteLoop` marks a loop that the source
re-enters with provably unchanged state (so CPython never terminates there), and
`outOfFuel` marks exhaustion of the explicit fuel given to loops whose progress
is not structurally evident. -/
inductive Err where
  | indexError
  | keyError
  | valueError
  | runtimeError
  | attributeError
  | typeError
  | unboundLocalError
  | infiniteLoop
  | outOfFuel
  deriving DecidableEq, Repr

/-- Python `str` whitespace for `strip`/`rstrip`/`isspace` (ASCII part; the
pipeline only ever meets ASCII whitespace). -/
def isPySpace (c : Char) : Bool :=
  c == ' ' || c == '\t' || c == '\n' || c == '\r' || c == Char.ofNat 11 || c == Char.ofNat 12

/-- Python `str.rstrip()`. -/
def rstrip (s : List Char) : List Char := (s.reverse.dropWhile isPySpace).reverse

/-- Python `str.lstrip()`. -/
def lstrip (s : List Char) : List Char := s.dropWhile isPySpace

/-- Python `str.strip()`. -/
def pyStrip (s : List Char) : List Char := lstrip (rstrip s)

/-! ## regexes.py -/

/-- Result of `regexes.CONDITIONAL.match` (groups 1-3; group 4 is unused by the
pipeline). -/
structure CondMatch where
  operator : List Char
  expression_before : List Char
  expression_inside : List Char
  deriving DecidableEq, Repr

/-- Semantics of `(.*)$` in `re.match`: the remaining text may not contain a
newline, except for a single newline as the very last character (which `$`
absorbs). -/
def tailOk (s : List Char) : Bool :=
  !(s.contains '\n') || (s.getLast? == some '\n' && !(s.dropLast.contains '\n'))

/-- The alternation `(ifdef|ifndef|endif|ifeval)::` at the start of the line,
tried in the regex's order. -/
def matchOperator (s : List Char) : Option (List Char × List Char) :=
  if ("ifdef::".toList).isPrefixOf s then some ("ifdef".toList, s.drop 7)
  else if ("ifndef::".toList).isPrefixOf s then some ("ifndef".toList, s.drop 8)
  else if ("endif::".toList).isPrefixOf s then some ("endif".toList, s.drop 7)
  else if ("ifeval::".toList).isPrefixOf s then some ("ifeval".toList, s.drop 8)
  else none

/-- regexes.py 4-14: `^(ifdef|ifndef|endif|ifeval)::([^\[\]]*)\[([^\]]*)\](.*)$`.
The character classes cannot cross `[`/`]`, so the greedy groups are
deterministic. -/
def CONDITIONAL (s : List Char) : Option CondMatch :=
  match matchOperator s with
  | none => none
  | some (op, rest) =>
    let before := rest.takeWhile (fun c => c != '[' && c != ']')
    match rest.dropWhile (fun c => c != '[' && c != ']') with
    | '[' :: rest3 =>
      let inside := rest3.takeWhile (fun c => c != ']')
      match rest3.dropWhile (fun c => c != ']') with
      | ']' :: rest4 => if tailOk rest4 then some ⟨op, before, inside⟩ else none
      | _ => none
    | _ => none

/-- regexes.py 36-44: four or more identical characters from `=*_-./+`
(applied to right-trimmed text, so the trailing `[ \t]*` is vacuous). -/
def FOUR_MORE_DELIM (s : List Char) : Bool :=
  match s with
  | c :: rest =>
    ['=', '*', '_', '-', '.', '/', '+'].contains c && rest.all (fun x => x == c)
      && decide (4 ≤ s.length)
  | [] => false

/-- regexes.py 47-53: one of `|!,:` followed by three or more `=`
(applied to right-trimmed text). -/
def TABLE_DELIM (s : List Char) : Bool :=
  match s with
  | c :: rest =>
    ['|', '!', ',', ':'].contains c && rest.all (fun x => x == '=')
      && decide (3 ≤ rest.length)
  | [] => false

/-- regexes.py 58-77: `is_delimiter`. -/
def is_delimiter (content : List Char) : Option (List Char) :=
  let stripped := rstrip content
  if stripped = ['-', '-'] then some stripped
  else if FOUR_MORE_DELIM stripped then some stripped
  else if TABLE_DELIM stripped then some stripped
  else none

/-- regexes.py 79-90: `is_delimiter_verbatim`.  The source indexes
`delimiter[0]`; it is only ever called on results of `is_delimiter`, which are
never empty, so the `[]` case is unreachable. -/
def is_delimiter_verbatim (d : List Char) : Bool :=
  if d = ['-', '-'] then false
  else
    match d with
    | c :: _ => ['-', '+', '/', '.'].contains c || ['!', ':', ',', '|'].contains c
    | [] => false

/-- regexes.py 92-103: `^(={1,6})[ \t]+(.+?)(?:[ \t]+=+)?[ \t]*$`, specialised
to the right-trimmed text the parser passes in.  The `={1,6}` group must absorb
the whole leading `=`-run (the following `[ \t]+` cannot match `=`); the lazy
title group makes the rest match exactly when something non-blank and
newline-free follows the run of `=` and at least one space/tab. -/
def SECTION_HEADER (s : List Char) : Bool :=
  let k := (s.takeWhile (fun c => c == '=')).length
  let rest := s.drop k
  decide (1 ≤ k) && decide (k ≤ 6) &&
    (match rest with
     | c :: _ =>
       (c == ' ' || c == '\t') && !(rest.dropWhile (fun x => x == ' ' || x == '\t')).isEmpty
         && !(rest.contains '\n')
     | [] => false)

/-- regexes.py 123-133: `^(\*+|\.+)[ \t]+(.*)$` on right-trimmed text; returns
group 1 (the marker). -/
def LIST_ITEM (s : List Char) : Option (List Char) :=
  match s with
  | c :: _ =>
    if c == '*' || c == '.' then
      let marker := s.takeWhile (fun x => x == c)
      match s.drop marker.length with
      | w :: _ =>
        if (w == ' ' || w == '\t') && !(s.contains '\n') then some marker else none
      | [] => none
    else none
  | [] => none

/-- regexes.py 162-170: character class `[a-zA-Z0-9_-]` (ASCII). -/
def isAttrNameChar (c : Char) : Bool :=
  c.isAlphanum || c == '_' || c == '-'

/-- regexes.py 162-170: `^:(!)?([a-zA-Z0-9_-]+):(.*)$` on right-trimmed text. -/
def ATTRIBUTE_DEFINITION (s : List Char) : Bool :=
  match s with
  | ':' :: rest₀ =>
    let rest₁ := if rest₀.head? == some '!' then rest₀.tail else rest₀
    let name := rest₁.takeWhile isAttrNameChar
    !name.isEmpty &&
      (match rest₁.drop name.length with
       | ':' :: v => !(v.contains '\n')
       | _ => false)
  | _ => false

/-! ## line_types.py : states, stacks and lines -/

/-- line_types.py 6-16.  `BLOCK_PFX` renders the source's block-prefix state
type (renamed for technical reasons). -/
inductive StateType where
  | DELIMITED_BLOCK
  | ROOT
  | PARAGRAPH
  | LIST_ITEM
  | CONDITIONAL
  | BLOCK_PFX
  | SECTION_HEADER
  | LINE_COMMENT
  | ATTRIBUTE_DEFINITION
  deriving DecidableEq, Repr

/-- line_types.py 19-46. -/
inductive StateSubtype where
  | START
  | END
  | SINGLE_LINE
  | VERBATIM
  | NORMAL
  | FIRST_LINE
  | JOINER
  | JOINED_FIRST_LINE
  | JOINED_NORMAL
  | TERMINATED
  | JOINED_DELIMITED_BLOCK
  | BLOCK_TITLE
  | BLOCK_ATTRIBUTES
  deriving DecidableEq, Repr

/-- line_types.py 90-136: a `State` is a (type, subtype) pair plus a dynamic
parameter dictionary.  The dictionary is embedded as one optional field per
parameter key the sources ever use (`none` = key absent; the sources never store
Python `None` as a value).  Structural record equality therefore coincides with
the source's `__eq__`. -/
structure State where
  type : StateType
  subtype : StateSubtype
  marker : Option (List Char) := none
  delimiter : Option (List Char) := none
  end_line : Option Int := none
  start_line : Option Int := none
  item_start_line : Option Int := none
  list_start_line : Option Int := none
  block_start_line : Option Int := none
  block_end_line : Option Int := none
  joined_start_line : Option Int := none
  first_line : Option Int := none
  expression : Option (List Char) := none
  operator : Option (List Char) := none
  deriving DecidableEq, Repr

/-- line_types.py 140-266: a `StateStack` is a list of `State`s.  The source
keeps the top at the END of a Python list; here the top is the HEAD. -/
abbrev StateStack := List State

/-- line_types.py 146-151: `top_by_type` (searched from the top). -/
def top_by_type (t : StateType) (st : StateStack) : Option State :=
  st.find? (fun s => s.type == t)

/-- line_types.py 160-165: `top_delimiter`. -/
def top_delimiter (st : StateStack) : Option (List Char) :=
  match top_by_type .DELIMITED_BLOCK st with
  | none => none
  | some s => s.delimiter

/-- line_types.py 218-224: `until_delim_or_root`.  The source pops until
`top()` is ROOT or DELIMITED_BLOCK; if the stack runs out, `top()` raises
IndexError — that case is `none`. -/
def until_delim_or_root (st : StateStack) : Option StateStack :=
  let r := st.dropWhile (fun s => !(s.type == .ROOT || s.type == .DELIMITED_BLOCK))
  if r.isEmpty then none else some r

/-- line_types.py 274-305: a `Line`.  `state_stack_after` exists in the source
but is never assigned by this pipeline. -/
structure Line where
  id : Int
  content : List Char
  state_stack : StateStack := []
  state_stack_after : StateStack := []
  deriving DecidableEq, Repr

/-! ## parser.py : the `Parsed` document and the structural parse -/

/-- parser.py 9-19: the document fields.  `lines` is the ordered line list;
`next_line_id` is the id generator (`_next_line_id`). -/
structure Parsed where
  lines : List Line
  next_line_id : Int
  last_original_id : Int
  updating_last_original_id : Bool
  deriving DecidableEq, Repr

/-- parser.py 17. -/
def ADDED_LINE_START : Int := 10000

/-- parser.py 93-98: `line_by_id` (first line with the id; KeyError = `none`). -/
def line_by_id? (p : Parsed) (i : Int) : Option Line :=
  p.lines.find? (fun l => l.id == i)

/-- Position of the first line with the given id.  Python's identity-based
`list.index` coincides with this whenever line ids are distinct, which the id
generator guarantees (claim C10). -/
def idx_by_id? (p : Parsed) (i : Int) : Option Nat :=
  p.lines.findIdx? (fun l => l.id == i)

/-- The branches of `_parse_line` return the (possibly mutated) earlier lines,
the state stack recorded on the new line, and the stack carried to the next
line. -/
abbrev PLRes := Except Err (List Line × StateStack × StateStack)

/-- parser.py 172-186: on `endif`, walk the already-processed lines backwards
for the nearest CONDITIONAL/START whose `end_line` is still -1 and seal it with
the endif's line id.  Returns the updated lines and the id of the sealed start
(`none` when no match was found: the source only logs a warning then). -/
def seal_endif (lines : List Line) (endId : Int) : Except Err (List Line × Option Int) :=
  match lines with
  | [] => pure ([], none)
  | l :: rest => do
    let (rest', found) ← seal_endif rest endId
    match found with
    | some sid => pure (l :: rest', some sid)
    | none =>
      match l.state_stack.head? with
      | none => throw .indexError   -- `state_stack.top()` on an empty stack
      | some s =>
        if s.type == .CONDITIONAL && s.subtype == .START && s.end_line == some (-1) then
          pure ({ l with state_stack := { s with end_line := some endId } :: l.state_stack.tail }
                  :: rest', some l.id)
        else
          pure (l :: rest', none)

/-- parser.py 218-219: record the block's end line on the state of the block's
start line (position `i`), overwriting any previous value, as the source's
dictionary assignment does. -/
def sealBlockEnd (lines : List Line) (i : Nat) (endId : Int) : Except Err (List Line) :=
  match lines.get? i with
  | none => throw .keyError
  | some tgt =>
    match tgt.state_stack.head? with
    | none => throw .indexError
    | some s =>
      pure (lines.set i
        { tgt with state_stack := { s with block_end_line := some endId } :: tgt.state_stack.tail })

/-- parser.py 501-509: open a new PARAGRAPH/FIRST_LINE, carried as NORMAL. -/
def newParagraph (lines : List Line) (lid : Int) (base : StateStack) :
    List Line × StateStack × StateStack :=
  let para : State := { type := .PARAGRAPH, subtype := .FIRST_LINE, first_line := some lid }
  (lines, para :: base, { para with subtype := .NORMAL } :: base)

/-- parser.py 468-509: ordinary content.  On the JOINED_FIRST_LINE path the
source stamps `joined_start_line` and then executes
`line.state_stack.push(line_item_state)` — but `line_item_state` is a local
bound only inside the block-title branch (parser.py 429), which always returns
before this point, so CPython raises UnboundLocalError here. -/
def pl_final (lines : List Line) (lid : Int) (starting : StateStack) (tops : State) : PLRes :=
  if tops.type == .PARAGRAPH then
    pure (lines, starting, starting)
  else if tops.type == .LIST_ITEM then
    if tops.subtype == .JOINED_DELIMITED_BLOCK || tops.subtype == .TERMINATED then
      let r := starting.dropWhile (fun s => s.type == .LIST_ITEM)
      match r.head? with
      | none => throw .indexError   -- `top()` after the loop emptied the stack
      | some _ => pure (newParagraph lines lid r)
    else if tops.subtype == .JOINED_FIRST_LINE then
      throw .unboundLocalError
    else
      pure (lines, starting, starting)
  else
    pure (newParagraph lines lid starting)

/-- parser.py 447-466: section header line. -/
def pl_section (lines : List Line) (lid : Int) (clean : List Char)
    (starting : StateStack) (tops : State) : PLRes :=
  let sec : State := { type := .SECTION_HEADER, subtype := .NORMAL }
  if SECTION_HEADER clean then
    if tops.type == .LIST_ITEM &&
        (tops.subtype == .TERMINATED || tops.subtype == .JOINED_DELIMITED_BLOCK) then
      let r := starting.dropWhile (fun s => s.type == .LIST_ITEM)
      match r.head? with
      | none => throw .indexError
      | some _ => pure (lines, sec :: r, r)
    else if tops.type == .ROOT || tops.type == .DELIMITED_BLOCK then
      pure (lines, sec :: starting, starting)
    else pl_final lines lid starting tops
  else pl_final lines lid starting tops

/-- parser.py 413-445: block title line (`.Title`). -/
def pl_title (lines : List Line) (lid : Int) (clean : List Char)
    (starting : StateStack) (tops : State) : PLRes :=
  let title : State := { type := .BLOCK_PFX, subtype := .BLOCK_TITLE }
  let isTitleShape :=
    match clean with
    | c0 :: c1 :: _ => c0 == '.' && !(isPySpace c1) && c1 != '.'
    | _ => false
  if isTitleShape then
    if tops.type == .ROOT || tops.type == .DELIMITED_BLOCK then
      pure (lines, title :: starting, starting)
    else if tops.type == .LIST_ITEM &&
        (tops.subtype == .JOINED_FIRST_LINE || tops.subtype == .JOINED_NORMAL) then
      match starting with
      | [] => throw .indexError
      | s :: rest =>
        let s' := { s with subtype := StateSubtype.JOINED_FIRST_LINE }
        pure (lines, title :: s' :: rest, s' :: rest)
    else if tops.type == .LIST_ITEM && tops.subtype == .TERMINATED then
      let r := starting.dropWhile (fun s => s.type == .LIST_ITEM)
      match r.head? with
      | none => throw .indexError
      | some _ => pure (lines, title :: r, r)
    else pl_section lines lid clean starting tops
  else pl_section lines lid clean starting tops

/-- parser.py 375-386: search the stack for an enclosing list with the same
marker, stopping at ROOT or a delimited block.  `pop()` on an exhausted stack
raises IndexError. -/
def findExistingList : StateStack → List Char → Except Err (Option (State × StateStack))
  | [], _ => throw .indexError
  | s :: rest, m =>
    if s.type == .ROOT || s.type == .DELIMITED_BLOCK then pure none
    else if s.type == .LIST_ITEM && s.marker == some m then pure (some (s, rest))
    else findExistingList rest m

/-- parser.py 369-411: list-item start. -/
def pl_list (lines : List Line) (lid : Int) (clean : List Char)
    (starting : StateStack) (tops : State) : PLRes := do
  match LIST_ITEM clean with
  | some list_marker =>
    if tops.type == .PARAGRAPH then pl_title lines lid clean starting tops
    else do
      let found ←
        if tops.type == .LIST_ITEM then findExistingList starting list_marker
        else pure none
      match found with
      | some (ex, base) =>
        let ex' := { ex with subtype := StateSubtype.FIRST_LINE, item_start_line := some lid }
        pure (lines, ex' :: base, { ex' with subtype := StateSubtype.NORMAL } :: base)
      | none =>
        let nl : State := { type := .LIST_ITEM, subtype := .FIRST_LINE,
                            list_start_line := some lid, item_start_line := some lid,
                            marker := some list_marker }
        pure (lines, nl :: starting, { nl with subtype := StateSubtype.NORMAL } :: starting)
  | none => pl_title lines lid clean starting tops

/-- parser.py 346-366: `[...]` block attribute line. -/
def pl_blockattr (lines : List Line) (lid : Int) (clean : List Char)
    (starting : StateStack) (tops : State) : PLRes :=
  let battr : State := { type := .BLOCK_PFX, subtype := .BLOCK_ATTRIBUTES }
  if clean.head? == some '[' && clean.getLast? == some ']' then
    let base :=
      if tops.type == .PARAGRAPH then starting.tail
      else if tops.type == .LIST_ITEM && tops.subtype == .JOINED_NORMAL then
        match starting with
        | s :: rest => { s with subtype := StateSubtype.JOINED_FIRST_LINE } :: rest
        | [] => []
      else starting
    pure (lines, battr :: base, base)
  else pl_list lines lid clean starting tops

/-- parser.py 317-344: lone `+` continuation marker.  Inside a non-terminated
list item the line becomes JOINER and the next line starts JOINED_FIRST_LINE;
when the top is already JOINED_FIRST_LINE the source logs a warning
(“+ continuation marker immediately after another +”) and still takes the same
path.  Anywhere else it warns and falls through to the remaining branches. -/
def pl_plus (lines : List Line) (lid : Int) (clean : List Char)
    (starting : StateStack) (tops : State) : PLRes :=
  if clean = ['+'] then
    if tops.type == .LIST_ITEM && !(tops.subtype == .TERMINATED) then
      match starting with
      | s :: rest =>
        pure (lines, { s with subtype := StateSubtype.JOINER } :: rest,
                     { s with subtype := StateSubtype.JOINED_FIRST_LINE } :: rest)
      | [] => throw .indexError
    else
      pl_blockattr lines lid clean starting tops
  else pl_blockattr lines lid clean starting tops

/-- parser.py 282-315: blank line. -/
def pl_blank (lines : List Line) (lid : Int) (clean : List Char)
    (starting : StateStack) (tops : State) : PLRes :=
  if clean.isEmpty then
    if tops.type == .PARAGRAPH then
      pure (lines, starting.tail, starting.tail)
    else if tops.type == .LIST_ITEM then
      match starting with
      | [] => throw .indexError
      | list_state :: rest =>
        if list_state.subtype == .JOINED_FIRST_LINE then
          match rest with
          | [] => throw .indexError   -- `new_state_stack.top()` on an empty stack
          | anc :: rest2 =>
            if anc.type == .LIST_ITEM then
              -- ancestor list continuation (parser.py 296-306)
              pure (lines, { anc with subtype := StateSubtype.JOINER } :: rest2,
                           { anc with subtype := StateSubtype.JOINED_FIRST_LINE } :: rest2)
            else
              pure (lines, { list_state with subtype := StateSubtype.TERMINATED } :: rest,
                           { list_state with subtype := StateSubtype.TERMINATED } :: rest)
        else
          pure (lines, { list_state with subtype := StateSubtype.TERMINATED } :: rest,
                       { list_state with subtype := StateSubtype.TERMINATED } :: rest)
    else
      pure (lines, starting, starting)
  else pl_plus lines lid clean starting tops

/-- parser.py 245-280: a delimiter line opens a new block. -/
def pl_delimopen (lines : List Line) (lid : Int) (clean : List Char)
    (starting : StateStack) (tops : State) : PLRes := do
  match is_delimiter clean with
  | some d =>
    -- close an open paragraph first (261-262)
    let st1 := if tops.type == .PARAGRAPH then starting.tail else starting
    -- list handling (265-274); `top()` on an empty stack raises IndexError
    let st2 ← (match st1 with
      | [] => throw Err.indexError
      | s :: rest =>
        if s.type == .LIST_ITEM then
          if s.subtype == .JOINED_FIRST_LINE then
            pure ({ s with subtype := StateSubtype.JOINED_DELIMITED_BLOCK } :: rest)
          else
            let r := (s :: rest).dropWhile (fun x => x.type == .LIST_ITEM)
            if r.isEmpty then throw Err.indexError else pure r
        else pure (s :: rest))
    let startSt : State := { type := .DELIMITED_BLOCK, subtype := .START,
                             delimiter := some d, block_start_line := some lid }
    let sub := if is_delimiter_verbatim d then StateSubtype.VERBATIM else StateSubtype.NORMAL
    pure (lines, startSt :: st2, { startSt with subtype := sub } :: st2)
  | none => pl_blank lines lid clean starting tops

/-- parser.py 239-242: attribute definition line. -/
def pl_attrdef (lines : List Line) (lid : Int) (clean : List Char)
    (starting : StateStack) (tops : State) : PLRes :=
  if ATTRIBUTE_DEFINITION clean then
    pure (lines, ({ type := .ATTRIBUTE_DEFINITION, subtype := .NORMAL } : State) :: starting,
          starting)
  else pl_delimopen lines lid clean starting tops

/-- parser.py 232-236: line comment (`//` not followed by a second `//`,
except on very short lines). -/
def pl_comment (lines : List Line) (lid : Int) (clean : List Char)
    (starting : StateStack) (tops : State) : PLRes :=
  if clean.take 2 == ['/', '/'] &&
      (decide (clean.length ≤ 4) || !((clean.drop 2).take 2 == ['/', '/'])) then
    pure (lines, ({ type := .LINE_COMMENT, subtype := .NORMAL } : State) :: starting, starting)
  else pl_attrdef lines lid clean starting tops

/-- parser.py 227-229: verbatim pass-through. -/
def pl_verbatim (lines : List Line) (lid : Int) (clean : List Char)
    (starting : StateStack) (tops : State) : PLRes :=
  if tops.subtype == .VERBATIM then
    pure (lines, starting, starting)
  else pl_comment lines lid clean starting tops

/-- parser.py 210-224: closing of the top delimited block.  The walrus guard
is on the truthiness of the delimiter, hence the emptiness test.  The source
looks the start line up in `self.lines` (which at that moment also contains the
in-flight line; immaterial, since ids are fresh). -/
def pl_close (lines : List Line) (lid : Int) (clean : List Char)
    (starting : StateStack) (tops : State) : PLRes :=
  let hit :=
    match top_delimiter starting with
    | some d => !d.isEmpty && clean == d
    | none => false
  if hit then do
    let stk := starting.dropWhile (fun s => !(s.type == .DELIMITED_BLOCK))
    match stk with
    | [] => throw .keyError    -- unreachable: `top_delimiter` found a block
    | delim_state :: under => do
      let bslv ← (match delim_state.block_start_line with
                  | some v => pure v
                  | none => throw Err.keyError)  -- `line_by_id(None)` finds nothing
      match lines.findIdx? (fun l => l.id == bslv) with
      | none => throw .keyError
      | some i => do
        let lines' ← sealBlockEnd lines i lid
        pure (lines', { delim_state with subtype := StateSubtype.END } :: under, under)
  else pl_verbatim lines lid clean starting tops

/-- parser.py 162-207: conditional directive lines (matched against the RAW
content, before right-trimming — parser.py 163). -/
def pl_cond (lines : List Line) (lid : Int) (content clean : List Char)
    (starting : StateStack) (tops : State) : PLRes := do
  match CONDITIONAL content with
  | some m =>
    if m.operator == "endif".toList then do
      let (lines', sid) ← seal_endif lines lid
      pure (lines',
            ({ type := .CONDITIONAL, subtype := .END, start_line := sid } : State) :: starting,
            starting)
    else if (m.operator == "ifdef".toList || m.operator == "ifndef".toList) &&
        !(pyStrip m.expression_before).isEmpty && !(pyStrip m.expression_inside).isEmpty then
      pure (lines,
            ({ type := .CONDITIONAL, subtype := .SINGLE_LINE, operator := some m.operator } : State)
              :: starting,
            starting)
    else
      let e := if m.operator == "ifdef".toList || m.operator == "ifndef".toList
               then m.expression_before else m.expression_inside
      pure (lines,
            ({ type := .CONDITIONAL, subtype := .START, expression := some e,
               operator := some m.operator, end_line := some (-1) } : State) :: starting,
            starting)
  | none => pl_close lines lid clean starting tops

/-- parser.py 143-509: `_parse_line`.  Appends exactly one line (with
right-trimmed content), possibly sealing parameters on earlier lines, and
returns the stack carried into the next line. -/
def parse_line (doc : Parsed) (content : List Char) (starting : StateStack) :
    Except Err (Parsed × StateStack) := do
  match starting.head? with
  | none => throw .indexError   -- `starting_state_stack.top()` on an empty stack
  | some tops =>
    -- parser.py 148-153: disallowed carried top states are fatal
    if tops.type == .CONDITIONAL || tops.type == .BLOCK_PFX || tops.type == .SECTION_HEADER
        || tops.subtype == .JOINER then
      throw .valueError
    else do
      let clean := rstrip content
      let lid := doc.next_line_id
      let (lines', lstack, carry) ← pl_cond doc.lines lid content clean starting tops
      pure ({ lines := lines' ++ [{ id := lid, content := clean, state_stack := lstack }],
              next_line_id := lid + 1,
              last_original_id :=
                if doc.updating_last_original_id then lid else doc.last_original_id,
              updating_last_original_id := doc.updating_last_original_id },
            carry)

/-- parser.py 519-522: the parse loop. -/
def parse_go : List (List Char) → Parsed → StateStack → Except Err (Parsed × StateStack)
  | [], doc, st => pure (doc, st)
  | c :: rest, doc, st => do
    let (doc', st') ← parse_line doc c st
    parse_go rest doc' st'

/-- parser.py 27-32: `_original_text_processed`. -/
def original_text_processed (doc : Parsed) : Parsed :=
  { doc with
    updating_last_original_id := false,
    next_line_id :=
      if doc.next_line_id > ADDED_LINE_START then doc.next_line_id else ADDED_LINE_START }

/-- parser.py 511-518: the freshly initialised document and root stack. -/
def Parsed.empty : Parsed :=
  { lines := [], next_line_id := 1, last_original_id := -1, updating_last_original_id := true }

def rootStack : StateStack := [{ type := .ROOT, subtype := .NORMAL }]

/-- parser.py 511-532: `Parsed.__init__` — parse all lines, jump the id
generator, then validate that no line ended with an empty stack. -/
def parse (inputs : List (List Char)) : Except Err Parsed := do
  let (doc, _) ← parse_go inputs Parsed.empty rootStack
  let doc := original_text_processed doc
  if doc.lines.any (fun l => l.state_stack.isEmpty) then throw .runtimeError
  else pure doc

/-! ## condmap.py : the conditional classifier -/

/-- condmap.py 11-18.  `PARTIAL_SPAN` renders the source's partial-span
conditional type (renamed for technical reasons). -/
inductive ConditionalType where
  | PARTIAL_SPAN
  | PART_START_LIST_ITEM
  | SINGLE_LIST_ITEM
  | GROUP_START_LIST_ITEM
  | BLOCKS
  deriving DecidableEq, Repr

/-- condmap.py 20-25. -/
structure Conditional where
  type : ConditionalType
  start_id : Int
  end_id : Int
  values : List (List Char)
  deriving DecidableEq, Repr

/-- Python `set(...)` built from a list: an order-preserving de-duplicated
list stands for the set.  Subsets, differences and the singleton sets used by
the theorems below are insensitive to the representation order. -/
def pySetOfList (l : List (List Char)) : List (List Char) :=
  l.foldl (fun acc x => if acc.contains x then acc else acc ++ [x]) []

/-- condmap.py 51-66: `_warn_about_nested` only logs, but it can raise: a
RuntimeError when `end_idx < start_idx`, and IndexError from `lines[idx]` /
`top()` on an empty stack. -/
def warn_about_nested (p : Parsed) (start_idx end_idx : Nat) : Except Err Unit :=
  if end_idx < start_idx then throw .runtimeError
  else if decide (p.lines.length ≤ end_idx) then throw .indexError
  else if ((p.lines.drop start_idx).take (end_idx - start_idx + 1)).any
      (fun l => l.state_stack.isEmpty) then throw .indexError
  else pure ()

/-- condmap.py 190-199: walk upwards from `last` for the last non-blank
content line.  When the walk reaches `first` and it is still blank, the source
logs a warning, assigns `idx`, and `continue`s — re-testing the unchanged loop
condition, so CPython never leaves the loop: that is `Err.infiniteLoop`. -/
def last_non_blank (p : Parsed) (first_idx : Nat) : Nat → Except Err Line
  | 0 =>
    match p.lines.get? 0 with
    | none => throw .indexError
    | some l =>
      if (pyStrip l.content).isEmpty then
        if 0 = first_idx then throw .infiniteLoop
        else throw .attributeError   -- previous_line gave None; `.content` on None
      else pure l
  | j + 1 =>
    match p.lines.get? (j + 1) with
    | none => throw .indexError
    | some l =>
      if (pyStrip l.content).isEmpty then
        if j + 1 = first_idx then throw .infiniteLoop
        else last_non_blank p first_idx j
      else pure l

/-- condmap.py 204-209 / 258-263: scan the tail of the document (the lines
from position `i` on) for the next line that is not blank and not CONDITIONAL /
LINE_COMMENT / ATTRIBUTE_DEFINITION.  The blank test short-circuits before
`top()` is read, exactly as the source's `or` does. -/
def next_nonskippable_from (i : Nat) : List Line → Except Err (Option Nat)
  | [] => pure none
  | l :: rest =>
    if (pyStrip l.content).isEmpty then next_nonskippable_from (i + 1) rest
    else
      match l.state_stack.head? with
      | none => throw .indexError
      | some s =>
        if [StateType.CONDITIONAL, .LINE_COMMENT, .ATTRIBUTE_DEFINITION].contains s.type then
          next_nonskippable_from (i + 1) rest
        else pure (some i)

/-- The index of the next non-skippable line at or after `i` (`none` = ran off
the document). -/
def next_nonskippable (p : Parsed) (i : Nat) : Except Err (Option Nat) :=
  next_nonskippable_from i (p.lines.drop i)

/-- condmap.py 289-297: the backward pass over the recorded conditionals that
retags SINGLE_LIST_ITEM conditionals ending at `pot` (the line directly above
the new span) as GROUP_START_LIST_ITEM.  The source never updates
`potential_last_line_id` inside the loop, so only conditionals whose `end_id`
equals the ORIGINAL `pot` are retagged.  Returns the updated list and the
`group` flag. -/
def retag_group_rev : List Conditional → Int → List Conditional × Bool
  | [], _ => ([], false)
  | c :: earlier, pot =>
    if c.end_id == pot && c.type == ConditionalType.SINGLE_LIST_ITEM then
      let r := retag_group_rev earlier pot
      ({ c with type := ConditionalType.GROUP_START_LIST_ITEM } :: r.1, true)
    else (c :: earlier, false)

def retag_group (conds : List Conditional) (pot : Int) : List Conditional × Bool :=
  let r := retag_group_rev conds.reverse pot
  (r.1.reverse, r.2)

/-- condmap.py 265-274 / 324-330: pop the (possibly delimited-block-topped)
stack of the next line and test whether what is under is the same list item. -/
def same_item_test (stk : StateStack) (ft : State) : Except Err Bool :=
  match stk with
  | [] => throw .indexError
  | t0 :: rest =>
    if t0.type == .DELIMITED_BLOCK then
      match rest with
      | [] => throw .indexError
      | t1 :: _ => pure (t1.type == .LIST_ITEM && t1.item_start_line == ft.item_start_line)
    else pure (t0.type == .LIST_ITEM && t0.item_start_line == ft.item_start_line)

/-- The classification branches of `_make_map` (condmap.py 217-365), run once
the span's context lines are in hand.  `k` continues the outer loop (it is
`make_map_go` applied to the remaining fuel). -/
def classify_core (p : Parsed)
    (k : Nat → List Int → List Conditional → Except Err (List Conditional))
    (idx : Nat) (ends : List Int) (conds : List Conditional)
    (start_line : Line) (e : Int) (end_idx : Nat) (condition_values : List (List Char))
    (ft lt : State) (hitp : Bool) (next? : Option Nat) :
    Except Err (List Conditional) := do
  -- condmap.py 217-242: partial from the start side
  if (ft.type == .PARAGRAPH && ft.subtype == .NORMAL) ||
     (ft.type == .LIST_ITEM &&
      !([StateSubtype.FIRST_LINE, .TERMINATED,
         .JOINED_DELIMITED_BLOCK].contains ft.subtype)) then
    if hitp then do
      let cond : Conditional :=
        { type := .PARTIAL_SPAN, start_id := start_line.id,
          end_id := e, values := condition_values }
      warn_about_nested p (idx + 1) (end_idx - 1)
      k (end_idx + 1) ends (conds ++ [cond])
    else
      k (idx + 1) (ends ++ [e]) conds
  -- condmap.py 244-311: spans starting on a list item start
  else if (ft.type == .LIST_ITEM && ft.subtype == .FIRST_LINE) && lt == ft then do
    -- (the source recomputes the identical scan at 258-263)
    let part_start ←
      match next? with
      | none => pure false
      | some ni =>
        match p.lines.get? ni with
        | none => throw Err.keyError
        | some nl => same_item_test nl.state_stack ft
    if !part_start then do
      let cond : Conditional :=
        { type := .SINGLE_LIST_ITEM, start_id := start_line.id,
          end_id := e, values := condition_values }
      warn_about_nested p (idx + 1) (end_idx - 1)
      k (end_idx + 1) ends (conds ++ [cond])
    else
      match idx with
      | 0 => throw Err.attributeError -- previous_line(start).id on None
      | j + 1 =>
        match p.lines.get? j with
        | none => throw Err.keyError
        | some prevl => do
          let r := retag_group conds prevl.id
          let ty := if r.2 then ConditionalType.GROUP_START_LIST_ITEM
            else ConditionalType.PART_START_LIST_ITEM
          let cond : Conditional :=
            { type := ty, start_id := start_line.id,
              end_id := e, values := condition_values }
          warn_about_nested p (idx + 1) (end_idx - 1)
          k (end_idx + 1) ends (r.1 ++ [cond])
  else do
    -- condmap.py 313-341: clean boundary → BLOCKS
    let breaking ←
      if lt.type == .PARAGRAPH then
        match next? with
        | none => pure false
        | some ni =>
          match p.lines.get? ni with
          | none => throw Err.keyError
          | some nl =>
            match nl.state_stack.head? with
            | none => throw Err.indexError
            | some nt => pure (nt.type == .PARAGRAPH && !(nt.subtype == .FIRST_LINE))
      else if lt.type == .LIST_ITEM then
        match next? with
        | none => pure false
        | some ni =>
          match p.lines.get? ni with
          | none => throw Err.keyError
          | some nl => same_item_test nl.state_stack ft
      else pure false
    if !breaking then do
      let cond : Conditional :=
        { type := .BLOCKS, start_id := start_line.id,
          end_id := e, values := condition_values }
      warn_about_nested p (idx + 1) (end_idx - 1)
      k (end_idx + 1) ends (conds ++ [cond])
    -- condmap.py 344-358: partial at a paragraph start
    else if ft.type == .PARAGRAPH && lt.type == .PARAGRAPH
        && lt.start_line == ft.start_line then do
      let cond : Conditional :=
        { type := .PARTIAL_SPAN, start_id := start_line.id,
          end_id := e, values := condition_values }
      warn_about_nested p (idx + 1) (end_idx - 1)
      k (end_idx + 1) ends (conds ++ [cond])
    else
      k (idx + 1) (ends ++ [e]) conds

/-- condmap.py 186-213: fetch the span's context lines (the first and last
line of the span, their top states, the last non-blank line, the next
non-skippable line) and hand over to `classify_core`. -/
def classify_ctx (p : Parsed)
    (k : Nat → List Int → List Conditional → Except Err (List Conditional))
    (idx : Nat) (ends : List Int) (conds : List Conditional)
    (start_line : Line) (e : Int) (end_idx : Nat)
    (condition_values : List (List Char)) : Except Err (List Conditional) :=
  match p.lines.get? (idx + 1) with
  | none => throw Err.attributeError   -- first_line is None
  | some first_line =>
    if end_idx == 0 then throw Err.attributeError -- last_line is None
    else
      match p.lines.get? (end_idx - 1) with
      | none => throw Err.keyError
      | some last_line =>
        match first_line.state_stack.head?, last_line.state_stack.head? with
        | some ft, some lt => do
          let lnb_line ← last_non_blank p (idx + 1) (end_idx - 1)
          let next? ← next_nonskippable p (end_idx + 1)
          classify_core p k idx ends conds start_line e end_idx condition_values
            ft lt (first_line.state_stack == lnb_line.state_stack) next?
        | _, _ => throw Err.indexError

/-- The structural checks of `_make_map` for a surviving span (condmap.py
149-184): the delimited-block position comparison, the previous-line checks
and the empty-span check, before `classify_ctx` collects the context lines. -/
def classify_span (p : Parsed)
    (k : Nat → List Int → List Conditional → Except Err (List Conditional))
    (idx : Nat) (ends : List Int) (conds : List Conditional)
    (start_line : Line) (e : Int) (end_line : Line) (end_idx : Nat)
    (condition_values : List (List Char)) : Except Err (List Conditional) := do
  -- condmap.py 149-155: delimited-block position comparison
  match until_delim_or_root start_line.state_stack,
        until_delim_or_root end_line.state_stack with
  | some t1, some t2 =>
    if !(t1 == t2) then
      k (idx + 1) (ends ++ [e]) conds
    else do
      -- condmap.py 158-176: the previous line
      let prevSkip ←
        match idx with
        | 0 => pure false
        | j + 1 =>
          match p.lines.get? j with
          | none => throw Err.keyError
          | some prev_line =>
            match prev_line.state_stack.head? with
            | none => throw Err.indexError
            | some pt =>
              if pt.type == .BLOCK_PFX && pt.subtype == .BLOCK_ATTRIBUTES then
                pure true
              else if pt.type == .BLOCK_PFX && pt.subtype == .BLOCK_TITLE then
                match p.lines.get? (idx + 1) with
                | none => throw Err.attributeError
                | some nl =>
                  match nl.state_stack.head? with
                  | none => throw Err.indexError
                  | some nt => pure (nt.type == .DELIMITED_BLOCK)
              else pure false
      if prevSkip then
        k (idx + 1) (ends ++ [e]) conds
      else if idx + 1 == end_idx then
        -- condmap.py 180-184: empty conditional, skip past the end
        k (end_idx + 1) ends conds
      else
        classify_ctx p k idx ends conds start_line e end_idx condition_values
  | _, _ => throw Err.indexError

/-- condmap.py 69-365: `_make_map`.  The loop state is the line index `idx`
(which starts at 1: condmap.py 70), the `end_ids_unsupported` list, and the
recorded conditionals.  One unit of fuel per outer iteration. -/
def make_map_go (p : Parsed) (values : List (List Char)) :
    Nat → Nat → List Int → List Conditional → Except Err (List Conditional)
  | 0, _, _, _ => throw .outOfFuel
  | fuel + 1, idx, ends, conds =>
    match p.lines.get? idx with
    | none => pure conds
    | some start_line =>
      match start_line.state_stack.head? with
      | none => throw .indexError
      | some top_state =>
        if !(top_state.type == .CONDITIONAL) then
          make_map_go p values fuel (idx + 1) ends conds
        else if top_state.subtype == .SINGLE_LINE then
          -- condmap.py 87-91: warned and skipped
          make_map_go p values fuel (idx + 1) ends conds
        else if top_state.subtype == .END then
          -- condmap.py 95-102: warned (unless in end_ids_unsupported) and skipped
          make_map_go p values fuel (idx + 1) ends conds
        else
          -- subtype is START
          match top_state.end_line with
          | none => make_map_go p values fuel (idx + 1) ends conds
          | some e =>
            if e == -1 then make_map_go p values fuel (idx + 1) ends conds
            else
              match line_by_id? p e, idx_by_id? p e with
              | some end_line, some end_idx =>
                if top_state.operator == some ("ifeval".toList) then
                  make_map_go p values fuel (idx + 1) (ends ++ [e]) conds
                else
                  -- condmap.py 122-128: truthiness of the expression
                  let exprOk := match top_state.expression with
                                | none => false
                                | some ex => !ex.isEmpty
                  if !exprOk then
                    make_map_go p values fuel (idx + 1) (ends ++ [e]) conds
                  else
                    let ex := top_state.expression.getD []
                    if ex.contains '+' then
                      make_map_go p values fuel (idx + 1) (ends ++ [e]) conds
                    else
                      let condition_values :=
                        pySetOfList (((ex.splitOn ',').map pyStrip).filter (fun a => !a.isEmpty))
                      if !(condition_values.all (fun v => values.contains v)) then
                        make_map_go p values fuel (idx + 1) (ends ++ [e]) conds
                      else
                        let condition_values :=
                          if top_state.operator == some ("ifndef".toList) then
                            values.filter (fun v => !(condition_values.contains v))
                          else condition_values
                        classify_span p (make_map_go p values fuel) idx ends conds
                          start_line e end_line end_idx condition_values
              | _, _ => throw .keyError

/-- condmap.py 28-34: `ConditionalsMap.__init__` (the classifier entry point).
`values` is the recognized-token set. -/
def make_map (p : Parsed) (values : List (List Char)) (fuel : Nat) :
    Except Err (List Conditional) :=
  make_map_go p values fuel 1 [] []

/-! ## preprocess_conditionals.py : the conditional transformer -/

/-- preprocess_conditionals.py 16. -/
def ATTRIBUTE : List Char := "otherprops".toList

/-- `' '.join`. -/
def joinSep (sep : Char) : List (List Char) → List Char
  | [] => []
  | [x] => x
  | x :: xs => x ++ sep :: joinSep sep xs

/-- preprocess_conditionals.py 18-19: `dotroles`.  The source joins over a
Python set (iteration order unspecified); the embedding joins in the list's
insertion order — all concrete evaluations below use singleton sets, where the
order is immaterial. -/
def dotroles (values : List (List Char)) : List Char :=
  joinSep ' ' (values.map (fun x => '.' :: (ATTRIBUTE ++ ':' :: x)))

/-- preprocess_conditionals.py 21-22: `attroles` (same order remark). -/
def attroles (values : List (List Char)) : List Char :=
  "role=\"".toList ++ joinSep ' ' (values.map (fun x => ATTRIBUTE ++ ':' :: x)) ++ ['"']

/-- parser.py 21-25 with 58-59: `create_line` — a fresh line with the next id
(not yet inserted anywhere). -/
def create_line (doc : Parsed) (content : List Char) : Parsed × Line :=
  ({ doc with next_line_id := doc.next_line_id + 1 },
   { id := doc.next_line_id, content := content })

/-- parser.py 66-69 and 76-80: `create_line_before`.  The target is located as
Python's identity-based `list.index` does — the first position holding the
target (line ids are unique, claim C10); `list.index` raises ValueError when
the target is absent. -/
def create_line_before (doc : Parsed) (targetId : Int) (content : List Char) :
    Except Err Parsed :=
  let r := create_line doc content
  match idx_by_id? r.1 targetId with
  | none => throw .valueError
  | some i => pure { r.1 with lines := r.1.lines.take i ++ r.2 :: r.1.lines.drop i }

/-- `Line.prepend` (line_types.py 299-301) applied to the line at position `k`;
an absent line means the source called it on `None` (AttributeError). -/
def prepend_at (p : Parsed) (k : Nat) (pre : List Char) : Except Err Parsed :=
  match p.lines.get? k with
  | none => throw .attributeError
  | some l => pure { p with lines := p.lines.set k { l with content := pre ++ l.content } }

/-- `Line.append` (line_types.py 303-305) applied to the line at position `k`. -/
def append_at (p : Parsed) (k : Nat) (suf : List Char) : Except Err Parsed :=
  match p.lines.get? k with
  | none => throw .attributeError
  | some l => pure { p with lines := p.lines.set k { l with content := l.content ++ suf } }

/-- preprocess_conditionals.py 41-44 / 50-54 / 210-213: fetch the list marker
from the top state of the line at position `k` and rewrite the item's first
line.  `keepMarker` distinguishes the group-leader form (marker kept) from the
later-group-member form (marker absorbed). -/
def splice_item_role (p : Parsed) (k : Nat) (vals : List (List Char)) (keepMarker : Bool) :
    Except Err Parsed :=
  match p.lines.get? k with
  | none => throw .attributeError
  | some fl =>
    match fl.state_stack.head? with
    | none => throw .indexError
    | some s =>
      match s.marker with
      | none => throw .runtimeError
      | some marker =>
        if marker.isEmpty then throw .runtimeError
        else
          let after := fl.content.drop (marker.length + 1)
          let newc :=
            if keepMarker then marker ++ " [".toList ++ dotroles vals ++ "]#".toList ++ after
            else "[".toList ++ dotroles vals ++ "]#".toList ++ after
          pure { p with lines := p.lines.set k { fl with content := newc } }

/-- preprocess_conditionals.py 157-196: walk the lines of a list (started at
line id `listStart`) to decide whether the whole list sits inside the
conditional.  Returns `some id` of the first line after the list
(`complete_list = True`) or `none` when the walk hit the endif first. -/
def list_walk (endId listStart : Int) (p : Parsed) :
    Nat → Option Int → Except Err (Option Int)
  | 0, _ => throw .outOfFuel
  | fuel + 1, w? =>
    match w? with
    | none => throw .attributeError   -- the while guard reads `walking_line.id` on None
    | some wid =>
      if wid == endId then pure none
      else
        match idx_by_id? p wid with
        | none => throw .keyError
        | some wk =>
          match p.lines.get? wk with
          | none => throw .keyError
          | some wl =>
            match wl.state_stack.head? with
            | none => throw .indexError
            | some ws =>
              if ws.type == .LIST_ITEM && ws.list_start_line == some listStart then
                list_walk endId listStart p fuel ((p.lines.get? (wk + 1)).map Line.id)
              else if ws.type == .DELIMITED_BLOCK then
                match wl.state_stack.tail.head? with
                | none => throw Err.indexError   -- analysis `top()` after the pop
                | some under =>
                  if under.type == .LIST_ITEM && under.list_start_line == some listStart then
                    match ws.block_end_line with
                    | none =>     -- falsy: warned, move to the next line
                      list_walk endId listStart p fuel ((p.lines.get? (wk + 1)).map Line.id)
                    | some be =>
                      if be == 0 then   -- falsy 0 (ids are never 0)
                        list_walk endId listStart p fuel ((p.lines.get? (wk + 1)).map Line.id)
                      else
                        match idx_by_id? p be with
                        | none => throw Err.keyError
                        | some bk =>
                          list_walk endId listStart p fuel ((p.lines.get? (bk + 1)).map Line.id)
                  else
                    -- not `continue`d: falls to the break below (DELIMITED_BLOCK
                    -- is not one of the skipped types)
                    pure (some wid)
              else if [StateType.CONDITIONAL, .ATTRIBUTE_DEFINITION,
                       .LINE_COMMENT].contains ws.type then
                list_walk endId listStart p fuel ((p.lines.get? (wk + 1)).map Line.id)
              else pure (some wid)

/-- preprocess_conditionals.py 209-214: the inline item role used inside the
block-based processing (with the `#{empty}#` slug). -/
def splice_item_role_blocks (p : Parsed) (k : Nat) (vals : List (List Char)) :
    Except Err Parsed :=
  match p.lines.get? k with
  | none => throw .keyError
  | some cur =>
    match cur.state_stack.head? with
    | none => throw .indexError
    | some s =>
      match s.marker with
      | none => throw .runtimeError
      | some marker =>
        if marker.isEmpty then throw .runtimeError
        else
          let newc := marker ++ " [".toList ++ dotroles vals ++ "]#{empty}# ".toList
            ++ cur.content.drop (marker.length + 1)
          pure { p with lines := p.lines.set k { cur with content := newc } }

/-- preprocess_conditionals.py 96-233: the block-based processing used for the
BLOCKS and SINGLE_LIST_ITEM variants.  The loop state is the current line
(tracked by id; identity ≙ id, ids being unique) and the
`block_attributes_set` flag.  When the walk runs off the document the source
raises via an f-string reading `cond.id` — an attribute `Conditional` does not
have, so the observable error is AttributeError. -/
def bw_attrs (bw : Parsed → Option Int → Bool → Except Err Parsed)
    (p : Parsed) (k : Nat) (cur : Line) (vals : List (List Char)) :
    Except Err Parsed :=
  -- 101-109: add the role to the existing block attributes line
  let clean := rstrip cur.content
  if !(clean.getLast? == some ']') then throw .runtimeError
  else
    let cur' := { cur with content := clean.dropLast ++ ',' :: (attroles vals ++ [']']) }
    let p := { p with lines := p.lines.set k cur' }
    bw p ((p.lines.get? (k + 1)).map Line.id) true

/-- preprocess_conditionals.py 104-107 and friends: insert the role attribute
line before the current line unless a block-attributes line was already
amended (`block_attributes_set`). -/
def bw_maybe_role (p : Parsed) (cid : Int) (vals : List (List Char)) (flag : Bool) :
    Except Err Parsed :=
  if !flag then create_line_before p cid ('[' :: (attroles vals ++ [']']))
  else pure p

def bw_title (bw : Parsed → Option Int → Bool → Except Err Parsed)
    (p : Parsed) (cid : Int) (vals : List (List Char)) (flag : Bool) :
    Except Err Parsed := do
  -- 110-117
  let p ← bw_maybe_role p cid vals flag
  match idx_by_id? p cid with
  | none => throw Err.keyError
  | some k2 => bw p ((p.lines.get? (k2 + 1)).map Line.id) true

def bw_para (bw : Parsed → Option Int → Bool → Except Err Parsed)
    (p : Parsed) (cid : Int) (vals : List (List Char)) (flag : Bool) :
    Except Err Parsed := do
  -- 118-124
  let p ← bw_maybe_role p cid vals flag
  match idx_by_id? p cid with
  | none => throw Err.keyError
  | some k2 => bw p ((p.lines.get? (k2 + 1)).map Line.id) false

def bw_delim (bw : Parsed → Option Int → Bool → Except Err Parsed)
    (p : Parsed) (cid : Int) (s : State) (vals : List (List Char)) (flag : Bool) :
    Except Err Parsed := do
  -- 125-141
  let d ← match s.delimiter with
          | none => throw Err.typeError    -- `None[0]`
          | some d => pure d
  let c0 ← match d.head? with
           | none => throw Err.indexError  -- `""[0]`
           | some c0 => pure c0
  let pf ←
    if !(c0 == '/') then do
      let p ← bw_maybe_role p cid vals flag
      pure (p, false)
    else pure (p, flag)
  let p := pf.1
  let flag := pf.2
  match s.block_end_line with
  | none =>   -- falsy: warned, fall through to the plain advance
    match idx_by_id? p cid with
    | none => throw Err.keyError
    | some k2 => bw p ((p.lines.get? (k2 + 1)).map Line.id) flag
  | some be =>
    if be == 0 then
      match idx_by_id? p cid with
      | none => throw Err.keyError
      | some k2 => bw p ((p.lines.get? (k2 + 1)).map Line.id) flag
    else
      match idx_by_id? p be with
      | none => throw Err.keyError
      | some bk => bw p ((p.lines.get? (bk + 1)).map Line.id) flag

def bw_list (bw : Parsed → Option Int → Bool → Except Err Parsed)
    (endId : Int) (fuel : Nat) (p : Parsed) (cid : Int) (k : Nat) (s : State)
    (vals : List (List Char)) (flag : Bool) : Except Err Parsed := do
  -- 142-214
  if s.list_start_line == some cid then do
    match p.lines.get? (k + 1) with
    | none => throw Err.runtimeError   -- 160-161
    | some w0 => do
      let res ← list_walk endId cid p fuel (some w0.id)
      match res with
      | some afterId => do
        -- 198-205: the entire list is conditioned
        let p ← bw_maybe_role p cid vals flag
        bw p (some afterId) false
      | none => do
        -- 206-214: conditionalize just this item
        let p ← splice_item_role_blocks p k vals
        bw p ((p.lines.get? (k + 1)).map Line.id) flag
  else do
    let p ← splice_item_role_blocks p k vals
    bw p ((p.lines.get? (k + 1)).map Line.id) flag

def bw_section (bw : Parsed → Option Int → Bool → Except Err Parsed)
    (p : Parsed) (cid : Int) (vals : List (List Char)) (flag : Bool) :
    Except Err Parsed := do
  -- 215-219: unconditional insertion, flag untouched
  let p ← create_line_before p cid ('[' :: (attroles vals ++ [']']))
  match idx_by_id? p cid with
  | none => throw Err.keyError
  | some k2 => bw p ((p.lines.get? (k2 + 1)).map Line.id) flag

def blocks_walk (endId : Int) (vals : List (List Char)) :
    Nat → Parsed → Option Int → Bool → Except Err Parsed
  | 0, _, _, _ => throw .outOfFuel
  | fuel + 1, p, curId?, flag =>
    match curId? with
    | none => throw .attributeError
    | some cid =>
      if cid == endId then pure p
      else
        match idx_by_id? p cid with
        | none => throw .keyError
        | some k =>
          match p.lines.get? k with
          | none => throw .keyError
          | some cur =>
            match cur.state_stack.head? with
            | none => throw .indexError
            | some s =>
              if s.type == .BLOCK_PFX && s.subtype == .BLOCK_ATTRIBUTES then
                bw_attrs (blocks_walk endId vals fuel) p k cur vals
              else if s.type == .BLOCK_PFX && s.subtype == .BLOCK_TITLE then
                bw_title (blocks_walk endId vals fuel) p cid vals flag
              else if s.type == .PARAGRAPH && s.subtype == .FIRST_LINE then
                bw_para (blocks_walk endId vals fuel) p cid vals flag
              else if s.type == .DELIMITED_BLOCK && s.subtype == .START then
                bw_delim (blocks_walk endId vals fuel) p cid s vals flag
              else if s.type == .LIST_ITEM && s.subtype == .FIRST_LINE then
                bw_list (blocks_walk endId vals fuel) endId fuel p cid k s vals flag
              else if s.type == .SECTION_HEADER then
                bw_section (blocks_walk endId vals fuel) p cid vals flag
              else
                -- 220-227: any other line consumes the pending flag if textual
                let flag' :=
                  if !((pyStrip cur.content).isEmpty ||
                      [StateType.CONDITIONAL, .LINE_COMMENT,
                       .ATTRIBUTE_DEFINITION].contains s.type) then false
                  else flag
                blocks_walk endId vals fuel p ((p.lines.get? (k + 1)).map Line.id) flag'

/-- preprocess_conditionals.py 62-84: the inner loop of the
GROUP_START_LIST_ITEM branch — absorb the later adjacent group members.  The
first argument is the suffix `conds.drop k` of the full conditional list; `k`
is the corresponding index.  Returns the updated document and the index at
which the outer loop resumes. -/
def group_walk (marker : List Char) :
    List Conditional → Parsed → Nat → Int → Except Err (Parsed × Nat)
  | [], p, k, _ => pure (p, k)
  | c :: rest, p, k, next_line_id =>
    if c.type == .GROUP_START_LIST_ITEM && c.start_id == next_line_id then do
      let si ← match idx_by_id? p c.start_id with
               | some i => pure i | none => throw Err.keyError
      let ei ← match idx_by_id? p c.end_id with
               | some i => pure i | none => throw Err.keyError
      -- marker equality check (72-74)
      let mk ← match p.lines.get? (si + 1) with
               | none => throw Err.attributeError
               | some fl =>
                 match fl.state_stack.head? with
                 | none => throw Err.indexError
                 | some s => pure s.marker
      if !(mk == some marker) then throw Err.runtimeError
      else do
        let p ← splice_item_role p (si + 1) c.values false
        let p ← if ei == 0 then throw Err.attributeError else append_at p (ei - 1) ['#']
        match p.lines.get? (ei + 1) with
        | none => throw Err.attributeError   -- next_line is None; `.id` (re-raised: 86-89)
        | some nl => group_walk marker rest p (k + 1) nl.id
    else pure (p, k)

/-- preprocess_conditionals.py 26-234: `process_conditionals`.  One unit of
fuel per outer iteration (the index also strictly increases; the
`blocks_walk`/`list_walk` jumps are the genuinely fuel-bounded parts). -/
def process_go (conds : List Conditional) :
    Nat → Parsed → Nat → Except Err Parsed
  | 0, p, idx =>
    match conds.get? idx with
    | none => pure p
    | some _ => throw .outOfFuel
  | fuel + 1, p, idx =>
    match conds.get? idx with
    | none => pure p
    | some cond => do
        -- preprocess_conditionals.py 32-33
        let si ← match idx_by_id? p cond.start_id with
                 | some i => pure i | none => throw Err.keyError
        let ei ← match idx_by_id? p cond.end_id with
                 | some i => pure i | none => throw Err.keyError
        if cond.type == .PARTIAL_SPAN then do
          -- 35-38
          let p ← prepend_at p (si + 1) ('[' :: (dotroles cond.values ++ "]#".toList))
          let p ← if ei == 0 then throw Err.attributeError else append_at p (ei - 1) ['#']
          process_go conds fuel p (idx + 1)
        else if cond.type == .PART_START_LIST_ITEM then do
          -- 39-46
          let p ← splice_item_role p (si + 1) cond.values true
          let p ← if ei == 0 then throw Err.attributeError else append_at p (ei - 1) ['#']
          process_go conds fuel p (idx + 1)
        else if cond.type == .GROUP_START_LIST_ITEM then do
          -- 47-91: the leader keeps its marker, the later adjacent members are
          -- absorbed by `group_walk`
          let marker ← match p.lines.get? (si + 1) with
                       | none => throw Err.attributeError
                       | some fl =>
                         match fl.state_stack.head? with
                         | none => throw Err.indexError
                         | some s =>
                           match s.marker with
                           | none => throw Err.runtimeError
                           | some m => if m.isEmpty then throw Err.runtimeError else pure m
          let p ← splice_item_role p (si + 1) cond.values true
          let p ← if ei == 0 then throw Err.attributeError else append_at p (ei - 1) ['#']
          match p.lines.get? (ei + 1) with
          | none => throw Err.attributeError   -- next_line is None; `.id` (re-raised: 86-89)
          | some nl => do
            let r ← group_walk marker (conds.drop (idx + 1)) p (idx + 1) nl.id
            process_go conds fuel r.1 r.2
        else do
          -- 92-233: BLOCKS / SINGLE_LIST_ITEM are block-based
          let p ← blocks_walk cond.end_id cond.values fuel p
            ((p.lines.get? (si + 1)).map Line.id) false
          process_go conds fuel p (idx + 1)

/-- preprocess_conditionals.py 26-234. -/
def process_conditionals (p : Parsed) (conds : List Conditional) (fuel : Nat) :
    Except Err Parsed :=
  process_go conds fuel p 0

/-- parser.py 100-102: `remove_by_id` (first line with the id; absent →
KeyError). -/
def remove_by_id (p : Parsed) (i : Int) : Except Err Parsed :=
  match idx_by_id? p i with
  | none => throw .keyError
  | some k => pure { p with lines := p.lines.eraseIdx k }

/-- preprocess_conditionals.py 236-239: delete the directive lines of every
recorded conditional. -/
def remove_conditionals (p : Parsed) : List Conditional → Except Err Parsed
  | [] => pure p
  | c :: rest => do
    let p ← remove_by_id p c.start_id
    let p ← remove_by_id p c.end_id
    remove_conditionals p rest

/-- preprocess_conditionals.py 242-325 (`main`), minus the file I/O: parse,
classify, transform, delete the directive lines, and return the line
contents. -/
def pipeline (inputs : List (List Char)) (values : List (List Char)) (cfuel tfuel : Nat) :
    Except Err (List (List Char)) := do
  let doc ← parse inputs
  let conds ← make_map doc values cfuel
  let doc ← process_conditionals doc conds tfuel
  let doc ← remove_conditionals doc conds
  pure (doc.lines.map Line.content)

/-! ## Concrete documents used by the claims -/

/-- Spec §8, Scenario A input. -/
def scenarioA_inputs : List (List Char) :=
  ["Some intro text.", "", "ifdef::azure[]", "This is conditional content.",
   "endif::[]", "", "More text after."].map String.toList

/-- The recognized token set `{azure, aws}`. -/
def azure_aws : List (List Char) := ["azure".toList, "aws".toList]

/-- Substring test (Python `in` on strings). -/
def isSubstringB (needle hay : List Char) : Bool :=
  (List.range (hay.length + 1)).any (fun i => needle.isPrefixOf (hay.drop i))

/-- The output property claimed in C1, parametrised by the role substring the
content line's predecessor must contain: no output line contains `ifdef::` or
`endif::`, and some position holds `This is conditional content.` with its
immediate predecessor containing the role substring. -/
def C1_out_ok (role : List Char) (out : List (List Char)) : Bool :=
  out.all (fun l => !(isSubstringB "ifdef::".toList l) && !(isSubstringB "endif::".toList l)) &&
  (List.range out.length).any (fun i =>
    out.get? (i + 1) == some ("This is conditional content.".toList) &&
    (match out.get? i with
     | some prev => isSubstringB role prev
     | none => false))

/-- The pipeline's Scenario A output. -/
def scenarioA_out : List (List Char) :=
  ["Some intro text.", "", "[role=\"otherprops:azure\"]",
   "This is conditional content.", "", "More text after."].map String.toList

/-- C1, counterexample: on Scenario A the pipeline succeeds, but the role line
it inserts reads `role="otherprops:azure"` (preprocess_conditionals.py 16-22
hard-codes the attribute name `otherprops`), so no line containing
`role="platform:azure"` exists and the claimed output property fails. -/
theorem C1_counterexample :
    pipeline scenarioA_inputs azure_aws 100 100 = Except.ok scenarioA_out ∧
    C1_out_ok ("role=\"platform:azure\"".toList) scenarioA_out = false := by
  constructor
  · rfl
  · decide

/-- C1 (amended): for the Scenario A input with recognized tokens
`{azure, aws}`, the pipeline yields an output with no `ifdef::`/`endif::`
text in which `This is conditional content.` is immediately preceded by a line
containing `role="otherprops:azure"`. -/
theorem C1_theorem :
    pipeline scenarioA_inputs azure_aws 100 100 = Except.ok scenarioA_out ∧
    C1_out_ok ("role=\"otherprops:azure\"".toList) scenarioA_out = true := by
  constructor
  · rfl
  · decide

/-- C2 input: a span whose sole content is exactly one blank line. -/
def C2_inputs : List (List Char) :=
  ["x", "ifdef::azure[]", "", "endif::[]"].map String.toList

/-- C2: on a span whose sole content is one blank line, the classifier never
terminates.  The last-non-blank scan (condmap.py 192-199) reaches the first
content line, which is blank, and `continue`s with unchanged state, so for
every fuel the embedded classifier reports divergence (never a result): the
span is not "rejected with classification continuing", as the claim states. -/
theorem C2_classifier_diverges :
    ∀ fuel : Nat,
      (parse C2_inputs).bind (fun d => make_map d azure_aws fuel) =
        Except.error (if fuel = 0 then Err.outOfFuel else Err.infiniteLoop) := by
  intro fuel
  cases fuel with
  | zero => rfl
  | succ n => rfl

/-- C3 input: two conditionals each covering exactly one `*` list item,
immediately followed by a third conditional covering a list-item start whose
item continues past the closer. -/
def C3_inputs : List (List Char) :=
  ["text", "", "ifdef::azure[]", "* item1", "endif::[]",
   "ifdef::azure[]", "* item2", "endif::[]",
   "ifdef::azure[]", "* item3", "endif::[]", "more item3"].map String.toList

/-- The parsed form of `C3_inputs` (checked below against `parse`). -/
def C3_doc : Parsed :=
{ lines := [
  { id := 1, content := "text".toList,
    state_stack := [{ type := .PARAGRAPH, subtype := .FIRST_LINE, first_line := some 1 },
      { type := .ROOT, subtype := .NORMAL }] },
  { id := 2, content := "".toList,
    state_stack := [{ type := .ROOT, subtype := .NORMAL }] },
  { id := 3, content := "ifdef::azure[]".toList,
    state_stack := [{ type := .CONDITIONAL, subtype := .START, end_line := some 5, expression := some "azure".toList, operator := some "ifdef".toList },
      { type := .ROOT, subtype := .NORMAL }] },
  { id := 4, content := "* item1".toList,
    state_stack := [{ type := .LIST_ITEM, subtype := .FIRST_LINE, marker := some "*".toList, item_start_line := some 4, list_start_line := some 4 },
      { type := .ROOT, subtype := .NORMAL }] },
  { id := 5, content := "endif::[]".toList,
    state_stack := [{ type := .CONDITIONAL, subtype := .END, start_line := some 3 },
      { type := .LIST_ITEM, subtype := .NORMAL, marker := some "*".toList, item_start_line := some 4, list_start_line := some 4 },
      { type := .ROOT, subtype := .NORMAL }] },
  { id := 6, content := "ifdef::azure[]".toList,
    state_stack := [{ type := .CONDITIONAL, subtype := .START, end_line := some 8, expression := some "azure".toList, operator := some "ifdef".toList },
      { type := .LIST_ITEM, subtype := .NORMAL, marker := some "*".toList, item_start_line := some 4, list_start_line := some 4 },
      { type := .ROOT, subtype := .NORMAL }] },
  { id := 7, content := "* item2".toList,
    state_stack := [{ type := .LIST_ITEM, subtype := .FIRST_LINE, marker := some "*".toList, item_start_line := some 7, list_start_line := some 4 },
      { type := .ROOT, subtype := .NORMAL }] },
  { id := 8, content := "endif::[]".toList,
    state_stack := [{ type := .CONDITIONAL, subtype := .END, start_line := some 6 },
      { type := .LIST_ITEM, subtype := .NORMAL, marker := some "*".toList, item_start_line := some 7, list_start_line := some 4 },
      { type := .ROOT, subtype := .NORMAL }] },
  { id := 9, content := "ifdef::azure[]".toList,
    state_stack := [{ type := .CONDITIONAL, subtype := .START, end_line := some 11, expression := some "azure".toList, operator := some "ifdef".toList },
      { type := .LIST_ITEM, subtype := .NORMAL, marker := some "*".toList, item_start_line := some 7, list_start_line := some 4 },
      { type := .ROOT, subtype := .NORMAL }] },
  { id := 10, content := "* item3".toList,
    state_stack := [{ type := .LIST_ITEM, subtype := .FIRST_LINE, marker := some "*".toList, item_start_line := some 10, list_start_line := some 4 },
      { type := .ROOT, subtype := .NORMAL }] },
  { id := 11, content := "endif::[]".toList,
    state_stack := [{ type := .CONDITIONAL, subtype := .END, start_line := some 9 },
      { type := .LIST_ITEM, subtype := .NORMAL, marker := some "*".toList, item_start_line := some 10, list_start_line := some 4 },
      { type := .ROOT, subtype := .NORMAL }] },
  { id := 12, content := "more item3".toList,
    state_stack := [{ type := .LIST_ITEM, subtype := .NORMAL, marker := some "*".toList, item_start_line := some 10, list_start_line := some 4 },
      { type := .ROOT, subtype := .NORMAL }] }],
  next_line_id := 10000, last_original_id := 12, updating_last_original_id := false }

/-- C3: the three spans (lines 3-5, 6-8, 9-11) form an unbroken adjacent chain
ending exactly where the list-start span (9-11) starts, so the claim requires
all three to be retagged GROUP_START_LIST_ITEM.  The code leaves the first one
SINGLE_LIST_ITEM: the backward pass (condmap.py 290-297) never updates
`potential_last_line_id`, so only the span ending directly above line 9 is
retagged. -/
theorem C3_chain_not_retagged :
    parse C3_inputs = Except.ok C3_doc ∧
    make_map C3_doc azure_aws 100 =
      Except.ok [ { type := .SINGLE_LIST_ITEM, start_id := 3, end_id := 5,
                    values := ["azure".toList] },
                  { type := .GROUP_START_LIST_ITEM, start_id := 6, end_id := 8,
                    values := ["azure".toList] },
                  { type := .GROUP_START_LIST_ITEM, start_id := 9, end_id := 11,
                    values := ["azure".toList] } ] := by
  exact ⟨by rfl, by rfl⟩

/-- C4: parsing an ordinary content line while the carried top state is
LIST_ITEM/JOINED_FIRST_LINE crashes: parser.py 493 pushes `line_item_state`,
a local that is never bound on this path (it is bound only in the block-title
branch, parser.py 429, which always returns), so CPython raises
UnboundLocalError instead of recording the line and continuing JOINED_NORMAL. -/
theorem C4_parser_crashes :
    parse (["* item", "+", "content"].map String.toList) =
      Except.error Err.unboundLocalError := by
  rfl

/-- C5 input: a lone `+` parsed immediately after another `+`. -/
def C5_inputs : List (List Char) := ["* a", "+", "+"].map String.toList

/-- C5, counterexample: the claim says a `+` right after another `+` is treated
as plain content and does not become a JOINER; but the parser (parser.py
321-341) logs the warning and still takes the joiner path, so the third line's
top state is LIST_ITEM/JOINER (and the carried state is JOINED_FIRST_LINE). -/
theorem C5_counterexample :
    (parse C5_inputs).map (fun d =>
        d.lines.map (fun l =>
          (l.content, l.state_stack.head?.map (fun s => (s.type, s.subtype))))) =
      Except.ok
        [("* a".toList, some (StateType.LIST_ITEM, StateSubtype.FIRST_LINE)),
         (['+'], some (StateType.LIST_ITEM, StateSubtype.JOINER)),
         (['+'], some (StateType.LIST_ITEM, StateSubtype.JOINER))] := by
  rfl

/-! ## C5: the amended behaviour of a `+` after another `+` -/


theorem rstrip_append (c : List Char) : ∃ t, c = rstrip c ++ t ∧ t.all isPySpace = true := by
  refine ⟨(c.reverse.takeWhile isPySpace).reverse, ?_, ?_⟩
  · conv_lhs => rw [← c.reverse_reverse, ← List.takeWhile_append_dropWhile isPySpace c.reverse]
    rw [List.reverse_append, rstrip]
  · rw [List.all_eq_true]
    intro a ha
    exact List.mem_takeWhile_imp (List.mem_reverse.mp ha)

theorem matchOperator_plus (t : List Char) : matchOperator ('+' :: t) = none := by
  simp [matchOperator, List.isPrefixOf]

theorem state_eta_sub (s : State) (h : s.subtype = .JOINED_FIRST_LINE) :
    ({ s with subtype := .JOINED_FIRST_LINE } : State) = s := by
  cases s
  simp_all

/-- The line that a lone `+` records on the joiner path (parser.py 329-336):
the item state retagged JOINER on top of the remaining stack. -/
def joiner_line (lid : Int) (s : State) (rest : StateStack) : Line :=
  { id := lid, content := ['+'], state_stack := ({ s with subtype := .JOINER }) :: rest }

theorem C5_amended (doc : Parsed) (content : List Char) (s : State) (rest : StateStack)
    (hty : s.type = .LIST_ITEM) (hsub : s.subtype = .JOINED_FIRST_LINE)
    (hc : rstrip content = ['+'])
    (hd : top_delimiter (s :: rest) ≠ some ['+']) :
    parse_line doc content (s :: rest) =
      Except.ok ({ lines := doc.lines ++ [joiner_line doc.next_line_id s rest],
                   next_line_id := doc.next_line_id + 1,
                   last_original_id := if doc.updating_last_original_id then doc.next_line_id
                     else doc.last_original_id,
                   updating_last_original_id := doc.updating_last_original_id },
                 ({ s with subtype := .JOINED_FIRST_LINE }) :: rest) := by
  obtain ⟨t, hct, hts⟩ := rstrip_append content
  rw [hc] at hct
  have hcond : CONDITIONAL content = none := by
    rw [hct]
    simp [CONDITIONAL, matchOperator_plus]
  have hhit : (match top_delimiter (s :: rest) with
      | some d => !d.isEmpty && ['+'] == d
      | none => false) = false := by
    cases htd : top_delimiter (s :: rest) with
    | none => rfl
    | some d =>
      have hne : d ≠ ['+'] := fun h => hd (htd.trans (congrArg some h))
      simp only [Bool.and_eq_false_iff, beq_eq_false_iff_ne]
      exact Or.inr fun hh => hne hh.symm
  have h1 : ATTRIBUTE_DEFINITION ['+'] = false := rfl
  have h2 : is_delimiter ['+'] = none := rfl
  simp [parse_line, List.head?, pl_cond, hcond, hc, pl_close, pl_verbatim, pl_comment,
    pl_attrdef, pl_delimopen, pl_blank, pl_plus, joiner_line, hhit, hty, hsub, h1, h2]
  rfl

/-- A concrete LIST_ITEM/JOINED_FIRST_LINE state (an item of a `*` list whose
first line is line 1). -/
def C5_item_state : State :=
  { type := .LIST_ITEM, subtype := .JOINED_FIRST_LINE, marker := some "*".toList,
    item_start_line := some 1, list_start_line := some 1 }

/-- Witness for `C5_amended` at a concrete input. -/
theorem C5_amended_witness :
    C5_item_state.type = .LIST_ITEM ∧ C5_item_state.subtype = .JOINED_FIRST_LINE ∧
    rstrip ['+'] = ['+'] ∧ top_delimiter (C5_item_state :: rootStack) ≠ some ['+'] ∧
    parse_line Parsed.empty ['+'] (C5_item_state :: rootStack) =
      Except.ok ({ lines := [joiner_line 1 C5_item_state rootStack],
                   next_line_id := 2, last_original_id := 1,
                   updating_last_original_id := true },
                 ({ C5_item_state with subtype := .JOINED_FIRST_LINE }) :: rootStack) :=
  ⟨rfl, rfl, by decide, by decide,
   C5_amended Parsed.empty ['+'] C5_item_state rootStack rfl rfl (by decide) (by decide)⟩

/-! ## Parse-shape lemmas (claims C7 and C10) -/
/-- The id and content of a line (the parts of a line no branch of
`_parse_line` ever mutates on already-stored lines). -/
def line_key (l : Line) : Int × List Char := (l.id, l.content)

theorem set_same {α} (l : List α) (i : Nat) (a : α) (h : l.get? i = some a) :
    l.set i a = l := by
  induction l generalizing i with
  | nil => rfl
  | cons x xs ih =>
    cases i with
    | zero => simp_all
    | succ j =>
      simp only [List.get?] at h
      simp [List.set, ih j h]

theorem sealBlockEnd_key {lines : List Line} {i : Nat} {e : Int} {lines' : List Line}
    (h : sealBlockEnd lines i e = Except.ok lines') :
    lines'.map line_key = lines.map line_key := by
  unfold sealBlockEnd at h
  cases hget : lines.get? i with
  | none => simp only [hget] at h; exact Except.noConfusion h
  | some tgt =>
    simp only [hget] at h
    cases hhead : tgt.state_stack.head? with
    | none => simp only [hhead] at h; exact Except.noConfusion h
    | some s =>
      simp only [hhead, pure, Except.pure, Except.ok.injEq] at h
      subst h
      rw [List.map_set]
      apply set_same
      simp only [List.get?_eq_getElem?, List.getElem?_map]
      rw [← List.get?_eq_getElem?, hget]
      rfl

theorem seal_endif_key {lines : List Line} {e : Int} {r : List Line × Option Int}
    (h : seal_endif lines e = Except.ok r) :
    r.1.map line_key = lines.map line_key := by
  induction lines generalizing r with
  | nil =>
    simp only [seal_endif, pure, Except.pure] at h
    cases h; rfl
  | cons l rest ih =>
    simp only [seal_endif, bind, Except.bind] at h
    split at h
    · exact Except.noConfusion h
    · rename_i r' hr'
      repeat' split at h
      all_goals first
        | exact Except.noConfusion h
        | (cases h; simp [line_key, ih hr'])

theorem pl_final_lines {lines : List Line} {lid : Int} {starting : StateStack} {tops : State}
    {r : List Line × StateStack × StateStack}
    (h : pl_final lines lid starting tops = Except.ok r) : r.1 = lines := by
  simp only [pl_final, newParagraph] at h
  repeat' split at h
  all_goals first
    | (cases h; rfl)
    | exact Except.noConfusion h

theorem pl_section_lines {lines : List Line} {lid : Int} {clean : List Char}
    {starting : StateStack} {tops : State} {r : List Line × StateStack × StateStack}
    (h : pl_section lines lid clean starting tops = Except.ok r) : r.1 = lines := by
  simp only [pl_section] at h
  repeat' split at h
  all_goals first
    | (cases h; rfl)
    | exact Except.noConfusion h
    | exact pl_final_lines h

theorem pl_title_lines {lines : List Line} {lid : Int} {clean : List Char}
    {starting : StateStack} {tops : State} {r : List Line × StateStack × StateStack}
    (h : pl_title lines lid clean starting tops = Except.ok r) : r.1 = lines := by
  simp only [pl_title] at h
  repeat' split at h
  all_goals first
    | (cases h; rfl)
    | exact Except.noConfusion h
    | exact pl_section_lines h

theorem pl_list_lines {lines : List Line} {lid : Int} {clean : List Char}
    {starting : StateStack} {tops : State} {r : List Line × StateStack × StateStack}
    (h : pl_list lines lid clean starting tops = Except.ok r) : r.1 = lines := by
  simp only [pl_list, bind, Except.bind] at h
  repeat' split at h
  all_goals first
    | (cases h; rfl)
    | exact Except.noConfusion h
    | exact pl_title_lines h

theorem pl_blockattr_lines {lines : List Line} {lid : Int} {clean : List Char}
    {starting : StateStack} {tops : State} {r : List Line × StateStack × StateStack}
    (h : pl_blockattr lines lid clean starting tops = Except.ok r) : r.1 = lines := by
  simp only [pl_blockattr] at h
  repeat' split at h
  all_goals first
    | (cases h; rfl)
    | exact Except.noConfusion h
    | exact pl_list_lines h

theorem pl_plus_lines {lines : List Line} {lid : Int} {clean : List Char}
    {starting : StateStack} {tops : State} {r : List Line × StateStack × StateStack}
    (h : pl_plus lines lid clean starting tops = Except.ok r) : r.1 = lines := by
  simp only [pl_plus] at h
  repeat' split at h
  all_goals first
    | (cases h; rfl)
    | exact Except.noConfusion h
    | exact pl_blockattr_lines h

theorem pl_blank_lines {lines : List Line} {lid : Int} {clean : List Char}
    {starting : StateStack} {tops : State} {r : List Line × StateStack × StateStack}
    (h : pl_blank lines lid clean starting tops = Except.ok r) : r.1 = lines := by
  simp only [pl_blank] at h
  repeat' split at h
  all_goals first
    | (cases h; rfl)
    | exact Except.noConfusion h
    | exact pl_plus_lines h

theorem pl_delimopen_lines {lines : List Line} {lid : Int} {clean : List Char}
    {starting : StateStack} {tops : State} {r : List Line × StateStack × StateStack}
    (h : pl_delimopen lines lid clean starting tops = Except.ok r) : r.1 = lines := by
  simp only [pl_delimopen, bind, Except.bind] at h
  repeat' split at h
  all_goals first
    | (cases h; rfl)
    | exact Except.noConfusion h
    | exact pl_blank_lines h

theorem pl_attrdef_lines {lines : List Line} {lid : Int} {clean : List Char}
    {starting : StateStack} {tops : State} {r : List Line × StateStack × StateStack}
    (h : pl_attrdef lines lid clean starting tops = Except.ok r) : r.1 = lines := by
  simp only [pl_attrdef] at h
  repeat' split at h
  all_goals first
    | (cases h; rfl)
    | exact Except.noConfusion h
    | exact pl_delimopen_lines h

theorem pl_comment_lines {lines : List Line} {lid : Int} {clean : List Char}
    {starting : StateStack} {tops : State} {r : List Line × StateStack × StateStack}
    (h : pl_comment lines lid clean starting tops = Except.ok r) : r.1 = lines := by
  simp only [pl_comment] at h
  repeat' split at h
  all_goals first
    | (cases h; rfl)
    | exact Except.noConfusion h
    | exact pl_attrdef_lines h

theorem pl_verbatim_lines {lines : List Line} {lid : Int} {clean : List Char}
    {starting : StateStack} {tops : State} {r : List Line × StateStack × StateStack}
    (h : pl_verbatim lines lid clean starting tops = Except.ok r) : r.1 = lines := by
  simp only [pl_verbatim] at h
  repeat' split at h
  all_goals first
    | (cases h; rfl)
    | exact Except.noConfusion h
    | exact pl_comment_lines h

theorem pl_close_key {lines : List Line} {lid : Int} {clean : List Char}
    {starting : StateStack} {tops : State} {r : List Line × StateStack × StateStack}
    (h : pl_close lines lid clean starting tops = Except.ok r) :
    r.1.map line_key = lines.map line_key := by
  simp only [pl_close, bind, Except.bind] at h
  repeat' split at h
  all_goals first
    | exact Except.noConfusion h
    | (cases h; rfl)
    | exact congrArg (List.map line_key) (pl_verbatim_lines h)
    | (cases h
       apply sealBlockEnd_key
       assumption)

theorem pl_cond_key {lines : List Line} {lid : Int} {content clean : List Char}
    {starting : StateStack} {tops : State} {r : List Line × StateStack × StateStack}
    (h : pl_cond lines lid content clean starting tops = Except.ok r) :
    r.1.map line_key = lines.map line_key := by
  simp only [pl_cond, bind, Except.bind] at h
  repeat' split at h
  all_goals first
    | exact Except.noConfusion h
    | (cases h; rfl)
    | exact pl_close_key h
    | (cases h
       apply seal_endif_key
       assumption)



/-- `_parse_line` appends exactly one line, with right-trimmed content and the
next fresh id; earlier lines keep their ids and contents. -/
theorem parse_line_shape {doc : Parsed} {content : List Char} {st : StateStack}
    {doc' : Parsed} {carry : StateStack}
    (h : parse_line doc content st = Except.ok (doc', carry)) :
    doc'.lines.map line_key = doc.lines.map line_key ++ [(doc.next_line_id, rstrip content)] ∧
    doc'.next_line_id = doc.next_line_id + 1 ∧
    doc'.updating_last_original_id = doc.updating_last_original_id := by
  simp only [parse_line, bind, Except.bind] at h
  split at h
  · exact Except.noConfusion h
  · split at h
    · exact Except.noConfusion h
    · split at h
      · exact Except.noConfusion h
      · rename_i r hcond
        cases h
        refine ⟨?_, rfl, rfl⟩
        simp [line_key, pl_cond_key hcond]

/-- The parse loop appends one line per input, in order, with right-trimmed
contents. -/
theorem parse_go_contents : ∀ (inputs : List (List Char)) (doc : Parsed) (st : StateStack)
    {doc' : Parsed} {st' : StateStack},
    parse_go inputs doc st = Except.ok (doc', st') →
    doc'.lines.map Line.content = doc.lines.map Line.content ++ inputs.map rstrip
  | [], doc, st, doc', st', h => by
    simp only [parse_go, pure, Except.pure, Except.ok.injEq] at h
    cases h
    simp
  | c :: rest, doc, st, doc', st', h => by
    simp only [parse_go, bind, Except.bind] at h
    split at h
    · exact Except.noConfusion h
    · rename_i r hline
      obtain ⟨hk, -, -⟩ := @parse_line_shape _ _ _ r.1 r.2 (by rw [hline])
      have hk' : r.1.lines.map Line.content = doc.lines.map Line.content ++ [rstrip c] := by
        have h2 := congrArg (List.map Prod.snd) hk
        simpa [List.map_map, Function.comp] using h2
      rw [parse_go_contents rest r.1 r.2 h, hk']
      simp

/-- parser.py 21-32: line ids are pairwise distinct and below the generator. -/
def idsOk (doc : Parsed) : Prop :=
  (doc.lines.map Line.id).Nodup ∧ ∀ l ∈ doc.lines, l.id < doc.next_line_id

theorem parse_line_idsOk {doc : Parsed} {content : List Char} {st : StateStack}
    {doc' : Parsed} {carry : StateStack}
    (h : parse_line doc content st = Except.ok (doc', carry)) (hok : idsOk doc) :
    idsOk doc' := by
  obtain ⟨hk, hn, -⟩ := parse_line_shape h
  have hid : doc'.lines.map Line.id = doc.lines.map Line.id ++ [doc.next_line_id] := by
    have h2 := congrArg (List.map Prod.fst) hk
    simpa [List.map_map, Function.comp] using h2
  constructor
  · rw [hid]
    rw [List.nodup_append]
    refine ⟨hok.1, List.nodup_singleton _, ?_⟩
    intro a ha hb
    simp only [List.mem_singleton] at hb
    obtain ⟨l, hl, hla⟩ := List.mem_map.mp ha
    have := hok.2 l hl
    omega
  · intro l hl
    have hmem : l.id ∈ doc'.lines.map Line.id := List.mem_map_of_mem Line.id hl
    rw [hid] at hmem
    rcases List.mem_append.mp hmem with hmem | hmem
    · obtain ⟨l0, hl0, hla⟩ := List.mem_map.mp hmem
      have := hok.2 l0 hl0
      omega
    · simp only [List.mem_singleton] at hmem
      omega

theorem parse_go_idsOk : ∀ (inputs : List (List Char)) (doc : Parsed) (st : StateStack)
    {doc' : Parsed} {st' : StateStack},
    parse_go inputs doc st = Except.ok (doc', st') → idsOk doc → idsOk doc'
  | [], doc, st, doc', st', h, hok => by
    simp only [parse_go, pure, Except.pure, Except.ok.injEq] at h
    cases h
    exact hok
  | c :: rest, doc, st, doc', st', h, hok => by
    simp only [parse_go, bind, Except.bind] at h
    split at h
    · exact Except.noConfusion h
    · rename_i r hline
      exact parse_go_idsOk rest r.1 r.2 h
        (@parse_line_idsOk _ _ _ r.1 r.2 (by rw [hline]) hok)

theorem parse_idsOk {inputs : List (List Char)} {doc : Parsed}
    (h : parse inputs = Except.ok doc) : idsOk doc := by
  simp only [parse, bind, Except.bind] at h
  split at h
  · exact Except.noConfusion h
  · rename_i r hgo
    split at h
    · exact Except.noConfusion h
    · cases h
      have hok := @parse_go_idsOk inputs Parsed.empty rootStack r.1 r.2
        (by rw [hgo]) (by constructor <;> simp [Parsed.empty])
      constructor
      · exact hok.1
      · intro l hl
        have := hok.2 l hl
        simp only [original_text_processed, ADDED_LINE_START]
        split <;> omega

theorem parse_contents {inputs : List (List Char)} {doc : Parsed}
    (h : parse inputs = Except.ok doc) :
    doc.lines.map Line.content = inputs.map rstrip := by
  simp only [parse, bind, Except.bind] at h
  split at h
  · exact Except.noConfusion h
  · rename_i r hgo
    split at h
    · exact Except.noConfusion h
    · cases h
      have := @parse_go_contents inputs Parsed.empty rootStack r.1 r.2
        (by rw [hgo])
      simpa [Parsed.empty, original_text_processed] using this



/-- C7: a document on which the classifier records zero conditionals passes
through the transformer and the deletion phase unchanged, and the pipeline's
output is exactly the right-trimmed input lines. -/
theorem C7_no_conditionals_idempotent (inputs values : List (List Char))
    (cfuel tfuel : Nat) (doc : Parsed)
    (hp : parse inputs = Except.ok doc)
    (hm : make_map doc values cfuel = Except.ok []) :
    process_conditionals doc [] tfuel = Except.ok doc ∧
    remove_conditionals doc [] = Except.ok doc ∧
    pipeline inputs values cfuel tfuel = Except.ok (inputs.map rstrip) := by
  have hproc : process_conditionals doc [] tfuel = Except.ok doc := by
    cases tfuel <;> rfl
  have hrem : remove_conditionals doc [] = Except.ok doc := rfl
  refine ⟨hproc, hrem, ?_⟩
  simp only [pipeline, bind, Except.bind, hp, hm, hproc, hrem, pure, Except.pure]
  rw [parse_contents hp]

def C7w_inputs : List (List Char) := ["hello ", "world"].map String.toList

/-- Witness for C7 at a concrete two-line document. -/
theorem C7_witness :
    ∃ doc, parse C7w_inputs = Except.ok doc ∧ make_map doc azure_aws 10 = Except.ok [] ∧
      (process_conditionals doc [] 10 = Except.ok doc ∧
       remove_conditionals doc [] = Except.ok doc ∧
       pipeline C7w_inputs azure_aws 10 10 = Except.ok (C7w_inputs.map rstrip)) :=
  ⟨_, rfl, rfl, C7_no_conditionals_idempotent C7w_inputs azure_aws 10 10 _ rfl rfl⟩



/-- parser.py 82-86: `create_line_after`. -/
def create_line_after (doc : Parsed) (targetId : Int) (content : List Char) :
    Except Err Parsed :=
  let r := create_line doc content
  match idx_by_id? r.1 targetId with
  | none => throw .valueError
  | some i => pure { r.1 with lines := r.1.lines.take (i + 1) ++ r.2 :: r.1.lines.drop (i + 1) }

/-- The document-level operations of claim C10: creating-and-inserting a fresh
line before/after a target, and removing a line by id (parser.py 58-102). -/
inductive DocOp where
  | createBefore (targetId : Int) (content : List Char)
  | createAfter (targetId : Int) (content : List Char)
  | removeById (id : Int)

def applyOp (doc : Parsed) : DocOp → Except Err Parsed
  | .createBefore t c => create_line_before doc t c
  | .createAfter t c => create_line_after doc t c
  | .removeById i => remove_by_id doc i

def applyOps : Parsed → List DocOp → Except Err Parsed
  | doc, [] => pure doc
  | doc, op :: rest => do applyOps (← applyOp doc op) rest

theorem insert_fresh_idsOk {doc : Parsed} {i : Nat} {nl : Line}
    (hnl : nl.id = doc.next_line_id) (hok : idsOk doc) :
    idsOk { lines := doc.lines.take i ++ nl :: doc.lines.drop i,
            next_line_id := doc.next_line_id + 1,
            last_original_id := doc.last_original_id,
            updating_last_original_id := doc.updating_last_original_id } := by
  have hperm : ((doc.lines.take i ++ nl :: doc.lines.drop i).map Line.id).Perm
      (nl.id :: doc.lines.map Line.id) := by
    rw [List.map_append, List.map_cons]
    refine (List.perm_middle).trans ?_
    rw [← List.map_append, List.take_append_drop]
  constructor
  · refine hperm.nodup_iff.mpr ?_
    rw [List.nodup_cons]
    refine ⟨?_, hok.1⟩
    intro hmem
    obtain ⟨l, hl, hla⟩ := List.mem_map.mp hmem
    have := hok.2 l hl
    omega
  · intro l hl
    rcases List.mem_append.mp hl with hmem | hmem
    · have := hok.2 l (List.mem_of_mem_take hmem)
      simp only
      omega
    · rcases List.mem_cons.mp hmem with hmem | hmem
      · subst hmem
        simp only
        omega
      · have := hok.2 l (List.mem_of_mem_drop hmem)
        simp only
        omega

theorem applyOp_idsOk {doc : Parsed} {op : DocOp} {doc' : Parsed}
    (h : applyOp doc op = Except.ok doc') (hok : idsOk doc) : idsOk doc' := by
  cases op with
  | createBefore t c =>
    simp only [applyOp, create_line_before, create_line] at h
    split at h
    · exact Except.noConfusion h
    · cases h
      exact insert_fresh_idsOk rfl hok
  | createAfter t c =>
    simp only [applyOp, create_line_after, create_line] at h
    split at h
    · exact Except.noConfusion h
    · cases h
      exact insert_fresh_idsOk rfl hok
  | removeById i =>
    simp only [applyOp, remove_by_id] at h
    split at h
    · exact Except.noConfusion h
    · cases h
      rename_i k hk
      have hsub : (doc.lines.eraseIdx k).Sublist doc.lines := List.eraseIdx_sublist doc.lines k
      exact ⟨hok.1.sublist (hsub.map Line.id), fun l hl => hok.2 l (hsub.subset hl)⟩

theorem applyOps_idsOk : ∀ (ops : List DocOp) (doc : Parsed) {doc' : Parsed},
    applyOps doc ops = Except.ok doc' → idsOk doc → idsOk doc'
  | [], doc, doc', h, hok => by
    simp only [applyOps, pure, Except.pure, Except.ok.injEq] at h
    cases h
    exact hok
  | op :: rest, doc, doc', h, hok => by
    simp only [applyOps, bind, Except.bind] at h
    split at h
    · exact Except.noConfusion h
    · rename_i r hop
      exact applyOps_idsOk rest r h (applyOp_idsOk hop hok)

/-- C10: after parsing and an arbitrary sequence of create-before/after and
remove-by-id operations, every line id is below the generator (so any line
created later receives a strictly greater id), the ids are pairwise distinct,
and `line_by_id` resolves an id to at most one line. -/
theorem C10_ids_fresh_and_distinct (inputs : List (List Char)) (ops : List DocOp)
    (doc doc' : Parsed)
    (hp : parse inputs = Except.ok doc) (ha : applyOps doc ops = Except.ok doc') :
    (doc'.lines.map Line.id).Nodup ∧
    (∀ l ∈ doc'.lines, ∀ c, l.id < (create_line doc' c).2.id) ∧
    (∀ l1 ∈ doc'.lines, ∀ l2 ∈ doc'.lines, l1.id = l2.id → l1 = l2) ∧
    (∀ i l, line_by_id? doc' i = some l → l ∈ doc'.lines ∧ l.id = i ∧
      ∀ l' ∈ doc'.lines, l'.id = i → l' = l) := by
  have hok : idsOk doc' := applyOps_idsOk ops doc ha (parse_idsOk hp)
  have hinj : ∀ l1 ∈ doc'.lines, ∀ l2 ∈ doc'.lines, l1.id = l2.id → l1 = l2 :=
    fun l1 h1 l2 h2 he => List.inj_on_of_nodup_map hok.1 h1 h2 he
  refine ⟨hok.1, fun l hl c => hok.2 l hl, hinj, ?_⟩
  intro i l hfind
  have hmem : l ∈ doc'.lines := List.mem_of_find?_eq_some hfind
  have hid : l.id = i := by
    have := List.find?_some hfind
    simpa using this
  exact ⟨hmem, hid, fun l' hl' he' => hinj l' hl' l hmem (by rw [he', hid])⟩


/-- The parsed form of `C7w_inputs`. -/
def C7w_doc : Parsed :=
{ lines := [
  { id := 1, content := "hello".toList,
    state_stack := [{ type := .PARAGRAPH, subtype := .FIRST_LINE, first_line := some 1 },
      { type := .ROOT, subtype := .NORMAL }] },
  { id := 2, content := "world".toList,
    state_stack := [{ type := .PARAGRAPH, subtype := .NORMAL, first_line := some 1 },
      { type := .ROOT, subtype := .NORMAL }] }],
  next_line_id := 10000, last_original_id := 2, updating_last_original_id := false }

/-- `C7w_doc` after inserting before line 1, inserting after line 2, and
removing line 1. -/
def C10w_doc : Parsed :=
{ lines := [
  { id := 10000, content := "a".toList,
    state_stack := [] },
  { id := 2, content := "world".toList,
    state_stack := [{ type := .PARAGRAPH, subtype := .NORMAL, first_line := some 1 },
      { type := .ROOT, subtype := .NORMAL }] },
  { id := 10001, content := "b".toList,
    state_stack := [] }],
  next_line_id := 10002, last_original_id := 2, updating_last_original_id := false }

/-- Witness for C10: a parsed two-line document with an insertion before line
1, an insertion after line 2, and a deletion of line 1. -/
theorem C10_witness :
    parse C7w_inputs = Except.ok C7w_doc ∧
    applyOps C7w_doc [DocOp.createBefore 1 "a".toList, DocOp.createAfter 2 "b".toList,
                      DocOp.removeById 1] = Except.ok C10w_doc ∧
    (C10w_doc.lines.map Line.id).Nodup :=
  ⟨rfl, rfl,
   (C10_ids_fresh_and_distinct C7w_inputs
      [DocOp.createBefore 1 "a".toList, DocOp.createAfter 2 "b".toList, DocOp.removeById 1]
      C7w_doc C10w_doc rfl rfl).1⟩

/-! ## C6 : spans crossing a delimited-block boundary are rejected -/

/-- Any line of `p` carrying id `sid` and any line carrying id `eid` have equal
state stacks after truncation to the nearest ROOT/DELIMITED_BLOCK ancestor. -/
def trunc_ids (p : Parsed) (sid eid : Int) : Prop :=
  ∀ ls ∈ p.lines, ls.id = sid →
    ∀ le ∈ p.lines, le.id = eid →
      until_delim_or_root ls.state_stack = until_delim_or_root le.state_stack

/-- The truncation property at a recorded conditional's start/end ids. -/
def trunc_eq (p : Parsed) (c : Conditional) : Prop :=
  trunc_ids p c.start_id c.end_id

/-- The guard of condmap.py 149-155: when it does NOT fire, the two truncated
stacks are literally equal, and (given distinct line ids) so are those of any
lines resolving the span's ids. -/
theorem trunc_ids_of_branch {p : Parsed} (hn : (p.lines.map Line.id).Nodup)
    {idx : Nat} {start_line : Line} {e : Int} {end_line : Line} {t1 t2 : StateStack}
    (hget : p.lines.get? idx = some start_line)
    (hfind : line_by_id? p e = some end_line)
    (hu1 : until_delim_or_root start_line.state_stack = some t1)
    (hu2 : until_delim_or_root end_line.state_stack = some t2)
    (hne : ¬((!(t1 == t2)) = true)) :
    trunc_ids p start_line.id e := by
  have hsmem : start_line ∈ p.lines := List.get?_mem hget
  have hemem : end_line ∈ p.lines := List.mem_of_find?_eq_some hfind
  have heid : end_line.id = e := by
    have := List.find?_some hfind
    simpa using this
  have ht : t1 = t2 := by
    simpa using hne
  intro ls hls hid le hle hid2
  have h1 : ls = start_line := List.inj_on_of_nodup_map hn hls hsmem (by simpa using hid)
  have h2 : le = end_line := List.inj_on_of_nodup_map hn hle hemem (by rw [hid2, heid])
  rw [h1, h2, hu1, hu2, ht]

theorem inv_append {p : Parsed} {conds : List Conditional} {cond : Conditional}
    (hc : ∀ c ∈ conds, trunc_eq p c) (hcond : trunc_eq p cond) :
    ∀ c ∈ conds ++ [cond], trunc_eq p c := by
  intro c hm
  rcases List.mem_append.mp hm with hm | hm
  · exact hc c hm
  · rw [List.mem_singleton.mp hm]
    exact hcond

/-- The backward retag pass only changes `type` flags: every output
conditional keeps the start/end ids of some input conditional. -/
theorem retag_group_rev_mem : ∀ {conds : List Conditional} {pot : Int} {c' : Conditional},
    c' ∈ (retag_group_rev conds pot).1 →
    ∃ c ∈ conds, c'.start_id = c.start_id ∧ c'.end_id = c.end_id := by
  intro conds
  induction conds with
  | nil => intro pot c' h; simp [retag_group_rev] at h
  | cons a rest ih =>
    intro pot c' h
    simp only [retag_group_rev] at h
    split at h
    · rcases List.mem_cons.mp h with h | h
      · subst h
        exact ⟨a, List.mem_cons_self _ _, rfl, rfl⟩
      · obtain ⟨c, hc, h1, h2⟩ := ih h
        exact ⟨c, List.mem_cons_of_mem _ hc, h1, h2⟩
    · exact ⟨c', h, rfl, rfl⟩

theorem inv_retag {p : Parsed} {conds : List Conditional} {pot : Int}
    (hc : ∀ c ∈ conds, trunc_eq p c) :
    ∀ c' ∈ (retag_group conds pot).1, trunc_eq p c' := by
  intro c' h
  simp only [retag_group] at h
  rw [List.mem_reverse] at h
  obtain ⟨c, hcm, h1, h2⟩ := retag_group_rev_mem h
  rw [List.mem_reverse] at hcm
  intro ls hls hid le hle hid2
  exact hc c hcm ls hls (hid.trans h1) le hle (hid2.trans h2)

/-- Every conditional `classify_core` records carries the span's own
start/end ids, so the truncation property is preserved. -/
theorem classify_core_trunc {p : Parsed}
    {k : Nat → List Int → List Conditional → Except Err (List Conditional)}
    (hk : ∀ i es cs cs', k i es cs = Except.ok cs' →
      (∀ c ∈ cs, trunc_eq p c) → ∀ c ∈ cs', trunc_eq p c)
    {idx : Nat} {ends : List Int} {conds : List Conditional}
    {start_line : Line} {e : Int} {end_idx : Nat} {cv : List (List Char)}
    {ft lt : State} {hp : Bool} {nx : Option Nat} {conds' : List Conditional}
    (htr : trunc_ids p start_line.id e)
    (h : classify_core p k idx ends conds start_line e end_idx cv ft lt hp nx
      = Except.ok conds')
    (hc : ∀ c ∈ conds, trunc_eq p c) :
    ∀ c ∈ conds', trunc_eq p c := by
  simp only [classify_core, bind, Except.bind, pure, Except.pure] at h
  repeat' first
    | (simp only [bind, Except.bind, pure, Except.pure] at h)
    | split at h
  all_goals first
    | exact Except.noConfusion h
    | exact hk _ _ _ _ h hc
    | exact hk _ _ _ _ h (inv_append hc htr)
    | exact hk _ _ _ _ h (inv_append (inv_retag hc) htr)

/-- `classify_ctx` passes the truncation fact through to `classify_core`. -/
theorem classify_ctx_trunc {p : Parsed}
    {k : Nat → List Int → List Conditional → Except Err (List Conditional)}
    (hk : ∀ i es cs cs', k i es cs = Except.ok cs' →
      (∀ c ∈ cs, trunc_eq p c) → ∀ c ∈ cs', trunc_eq p c)
    {idx : Nat} {ends : List Int} {conds : List Conditional}
    {start_line : Line} {e : Int} {end_idx : Nat}
    {cv : List (List Char)} {conds' : List Conditional}
    (htr : trunc_ids p start_line.id e)
    (h : classify_ctx p k idx ends conds start_line e end_idx cv
      = Except.ok conds')
    (hc : ∀ c ∈ conds, trunc_eq p c) :
    ∀ c ∈ conds', trunc_eq p c := by
  simp only [classify_ctx, bind, Except.bind, pure, Except.pure] at h
  repeat' first
    | (simp only [bind, Except.bind, pure, Except.pure] at h)
    | split at h
  all_goals first
    | exact Except.noConfusion h
    | exact classify_core_trunc hk htr h hc

/-- `classify_span` records a conditional only after the condmap.py 149-155
comparison of the two truncated stacks has passed. -/
theorem classify_span_trunc {p : Parsed}
    {k : Nat → List Int → List Conditional → Except Err (List Conditional)}
    (hn : (p.lines.map Line.id).Nodup)
    (hk : ∀ i es cs cs', k i es cs = Except.ok cs' →
      (∀ c ∈ cs, trunc_eq p c) → ∀ c ∈ cs', trunc_eq p c)
    {idx : Nat} {ends : List Int} {conds : List Conditional}
    {start_line : Line} {e : Int} {end_line : Line} {end_idx : Nat}
    {cv : List (List Char)} {conds' : List Conditional}
    (hget : p.lines.get? idx = some start_line)
    (hfind : line_by_id? p e = some end_line)
    (h : classify_span p k idx ends conds start_line e end_line end_idx cv
      = Except.ok conds')
    (hc : ∀ c ∈ conds, trunc_eq p c) :
    ∀ c ∈ conds', trunc_eq p c := by
  simp only [classify_span, bind, Except.bind, pure, Except.pure] at h
  repeat' first
    | (simp only [bind, Except.bind, pure, Except.pure] at h)
    | split at h
  all_goals first
    | exact Except.noConfusion h
    | exact hk _ _ _ _ h hc
    | exact classify_ctx_trunc hk (trunc_ids_of_branch hn hget hfind ‹_› ‹_› ‹_›) h hc

/-- The classifier loop preserves the truncation property of the recorded
conditionals. -/
theorem make_map_go_trunc (p : Parsed) (values : List (List Char))
    (hn : (p.lines.map Line.id).Nodup) :
    ∀ (fuel idx : Nat) (ends : List Int) (conds conds' : List Conditional),
    make_map_go p values fuel idx ends conds = Except.ok conds' →
    (∀ c ∈ conds, trunc_eq p c) → ∀ c ∈ conds', trunc_eq p c := by
  intro fuel
  induction fuel with
  | zero =>
    intro idx ends conds conds' h
    exact absurd h (by simp [make_map_go])
  | succ n ih =>
    intro idx ends conds conds' h hc
    simp only [make_map_go, pure, Except.pure] at h
    repeat' split at h
    all_goals first
      | exact Except.noConfusion h
      | (cases h; exact hc)
      | exact ih _ _ _ _ h hc
      | exact classify_span_trunc hn ih ‹_› ‹_› h hc

/-- C6: every Conditional the classifier records has its opening and closing
lines' state stacks equal after truncation to the nearest
ROOT/DELIMITED_BLOCK ancestor (`until_delim_or_root`).  Equivalently, a span
whose two directive lines have unequal truncated stacks — in particular one
crossing a delimited-block boundary — is never recorded, regardless of its
expression. -/
theorem C6_cross_block_rejected (p : Parsed) (values : List (List Char))
    (fuel : Nat) (conds : List Conditional)
    (hn : (p.lines.map Line.id).Nodup)
    (hm : make_map p values fuel = Except.ok conds) :
    ∀ c ∈ conds, ∀ ls ∈ p.lines, ls.id = c.start_id →
      ∀ le ∈ p.lines, le.id = c.end_id →
        until_delim_or_root ls.state_stack = until_delim_or_root le.state_stack :=
  fun c hcm => make_map_go_trunc p values hn fuel 1 [] [] conds hm
    (fun c h => absurd h (List.not_mem_nil c)) c hcm

/-- A document with one span crossing an open-block (`--`) boundary and one
clean span: the crossing span ids 2→5 must not be recorded. -/
def C6w_inputs : List (List Char) :=
  ["--", "ifdef::azure[]", "inside the open block", "--", "endif::[]", "",
   "ifdef::aws[]", "Only on AWS.", "endif::[]"].map String.toList

def C6w_doc : Parsed :=
{ lines := [
  { id := 1, content := "--".toList,
    state_stack := [{ type := .DELIMITED_BLOCK, subtype := .START, delimiter := some "--".toList, block_start_line := some 1, block_end_line := some 4 },
      { type := .ROOT, subtype := .NORMAL }] },
  { id := 2, content := "ifdef::azure[]".toList,
    state_stack := [{ type := .CONDITIONAL, subtype := .START, end_line := some 5, expression := some "azure".toList, operator := some "ifdef".toList },
      { type := .DELIMITED_BLOCK, subtype := .NORMAL, delimiter := some "--".toList, block_start_line := some 1 },
      { type := .ROOT, subtype := .NORMAL }] },
  { id := 3, content := "inside the open block".toList,
    state_stack := [{ type := .PARAGRAPH, subtype := .FIRST_LINE, first_line := some 3 },
      { type := .DELIMITED_BLOCK, subtype := .NORMAL, delimiter := some "--".toList, block_start_line := some 1 },
      { type := .ROOT, subtype := .NORMAL }] },
  { id := 4, content := "--".toList,
    state_stack := [{ type := .DELIMITED_BLOCK, subtype := .END, delimiter := some "--".toList, block_start_line := some 1 },
      { type := .ROOT, subtype := .NORMAL }] },
  { id := 5, content := "endif::[]".toList,
    state_stack := [{ type := .CONDITIONAL, subtype := .END, start_line := some 2 },
      { type := .ROOT, subtype := .NORMAL }] },
  { id := 6, content := "".toList,
    state_stack := [{ type := .ROOT, subtype := .NORMAL }] },
  { id := 7, content := "ifdef::aws[]".toList,
    state_stack := [{ type := .CONDITIONAL, subtype := .START, end_line := some 9, expression := some "aws".toList, operator := some "ifdef".toList },
      { type := .ROOT, subtype := .NORMAL }] },
  { id := 8, content := "Only on AWS.".toList,
    state_stack := [{ type := .PARAGRAPH, subtype := .FIRST_LINE, first_line := some 8 },
      { type := .ROOT, subtype := .NORMAL }] },
  { id := 9, content := "endif::[]".toList,
    state_stack := [{ type := .CONDITIONAL, subtype := .END, start_line := some 7 },
      { type := .PARAGRAPH, subtype := .NORMAL, first_line := some 8 },
      { type := .ROOT, subtype := .NORMAL }] }],
  next_line_id := 10000, last_original_id := 9, updating_last_original_id := false }

/-- What the classifier records on `C6w_doc`: only the clean aws span; the
crossing span (ids 2→5) is rejected. -/
def C6w_conds : List Conditional :=
  [{ type := .BLOCKS, start_id := 7, end_id := 9, values := ["aws".toList] }]

/-- Witness for C6 on the open-block document: the crossing span is absent
from the recorded conditionals, and the recorded span's two directive lines
have equal truncated stacks. -/
theorem C6_witness :
    parse C6w_inputs = Except.ok C6w_doc ∧
    make_map C6w_doc azure_aws 100 = Except.ok C6w_conds ∧
    (∀ c ∈ C6w_conds, ∀ ls ∈ C6w_doc.lines, ls.id = c.start_id →
      ∀ le ∈ C6w_doc.lines, le.id = c.end_id →
        until_delim_or_root ls.state_stack = until_delim_or_root le.state_stack) :=
  ⟨rfl, rfl,
   C6_cross_block_rejected C6w_doc azure_aws 100 C6w_conds (by decide) rfl⟩

/-! ## C9 : block_end_line correctness and immutability -/

/-- The line `_parse_line` appends for id `lid`: right-trimmed content and the
branch's line stack. -/
def newL (lid : Int) (clean : List Char) (stk : StateStack) : Line :=
  { id := lid, content := clean, state_stack := stk }

/-- A carried DELIMITED_BLOCK state is sound for `(lines, next)`: it is the
NORMAL/VERBATIM continuation of a still-open block whose recorded start id is
below the id generator and resolves (if at all) to a line whose top is the
matching open START. -/
def db_ok (lines : List Line) (next : Int) (st : State) : Prop :=
  (st.subtype = .NORMAL ∨ st.subtype = .VERBATIM) ∧
  ∃ b, st.block_start_line = some b ∧ b < next ∧
    ∀ l ∈ lines, l.id = b → ∃ s, l.state_stack.head? = some s ∧
      s.type = .DELIMITED_BLOCK ∧ s.subtype = .START ∧
      s.delimiter = st.delimiter ∧ s.block_end_line = none

/-- The recorded block-start ids of the DELIMITED_BLOCK states of a stack. -/
def dbs (stk : StateStack) : List Int :=
  stk.filterMap (fun s => if s.type == .DELIMITED_BLOCK then s.block_start_line else none)

def stack_ok (lines : List Line) (next : Int) (stk : StateStack) : Prop :=
  (∀ st ∈ stk, st.type = .DELIMITED_BLOCK → db_ok lines next st) ∧ (dbs stk).Nodup

/-- The C9 correspondence at one closed START line: the recorded end id
resolves to a matching END line. -/
def closedAt (lines : List Line) (ls : Line) (s : State) (e : Int) : Prop :=
  ∃ le ∈ lines, le.id = e ∧
    ∃ t, le.state_stack.head? = some t ∧ t.type = .DELIMITED_BLOCK ∧
      t.subtype = .END ∧ t.delimiter = s.delimiter ∧
      t.block_start_line = some ls.id ∧
      ∃ d, s.delimiter = some d ∧ le.content = d

def lclosed_ok (lines : List Line) : Prop :=
  ∀ ls ∈ lines, ∀ s, ls.state_stack.head? = some s →
    s.type = .DELIMITED_BLOCK → s.subtype = .START →
    ∀ e, s.block_end_line = some e → closedAt lines ls s e

/-- Every END line points back at a START line that records precisely this
END line's id — the source of uniqueness of the closer. -/
def endptr_ok (lines : List Line) (next : Int) : Prop :=
  ∀ le ∈ lines, ∀ t, le.state_stack.head? = some t →
    t.type = .DELIMITED_BLOCK → t.subtype = .END →
    ∃ b, t.block_start_line = some b ∧ b < next ∧
      ∀ l ∈ lines, l.id = b → ∃ s, l.state_stack.head? = some s ∧
        s.type = .DELIMITED_BLOCK ∧ s.subtype = .START ∧
        s.block_end_line = some le.id

/-- A line whose top is a DELIMITED_BLOCK START with `block_end_line` set. -/
def closedStart (l : Line) : Prop :=
  ∃ s, l.state_stack.head? = some s ∧ s.type = .DELIMITED_BLOCK ∧
    s.subtype = .START ∧ ∃ e, s.block_end_line = some e

/-- The stack recorded on a freshly appended line never carries a top that
would break the correspondence: a DELIMITED_BLOCK top is either the fresh open
START or a NORMAL/VERBATIM continuation. -/
def top_fresh_ok (stk : StateStack) : Prop :=
  ∀ s, stk.head? = some s → s.type = .DELIMITED_BLOCK →
    (s.subtype = .START ∧ s.block_end_line = none) ∨
    s.subtype = .NORMAL ∨ s.subtype = .VERBATIM

/-- What one `_parse_line` branch must establish about its result `r` (lines,
line stack, carry) for the C9 invariant to carry over the appended document. -/
def plC9 (lines : List Line) (lid : Int) (clean : List Char)
    (r : List Line × StateStack × StateStack) : Prop :=
  stack_ok (r.1 ++ [newL lid clean r.2.1]) (lid + 1) r.2.2 ∧
  lclosed_ok (r.1 ++ [newL lid clean r.2.1]) ∧
  endptr_ok (r.1 ++ [newL lid clean r.2.1]) (lid + 1) ∧
  ∀ l ∈ lines, closedStart l → l ∈ r.1

theorem head?_mem {α} {l : List α} {a : α} (h : l.head? = some a) : a ∈ l := by
  cases l with
  | nil => exact Option.noConfusion h
  | cons x xs => cases h; exact List.mem_cons_self _ _

theorem top_fresh_of_stack_ok {lines : List Line} {next : Int} {stk : StateStack}
    (hs : stack_ok lines next stk) : top_fresh_ok stk := by
  intro s hh ht
  exact Or.inr (hs.1 s (head?_mem hh) ht).1

theorem top_fresh_cons {s : State} {stk : StateStack}
    (h : ¬(s.type = .DELIMITED_BLOCK)) : top_fresh_ok (s :: stk) := by
  intro t hh ht
  cases hh
  exact absurd ht h

theorem dbs_cons_nondb {s : State} {stk : StateStack}
    (h : ¬(s.type = .DELIMITED_BLOCK)) : dbs (s :: stk) = dbs stk := by
  simp only [dbs, List.filterMap_cons]
  rw [if_neg (by simpa using h)]

theorem stack_ok_cons {lines : List Line} {next : Int} {s : State} {stk : StateStack}
    (h : ¬(s.type = .DELIMITED_BLOCK)) (hs : stack_ok lines next stk) :
    stack_ok lines next (s :: stk) := by
  refine ⟨?_, by rw [dbs_cons_nondb h]; exact hs.2⟩
  intro st hm ht
  rcases List.mem_cons.mp hm with rfl | hm
  · exact absurd ht h
  · exact hs.1 st hm ht

theorem stack_ok_sublist {lines : List Line} {next : Int} {a b : StateStack}
    (hsub : a.Sublist b) (hs : stack_ok lines next b) : stack_ok lines next a :=
  ⟨fun st hm ht => hs.1 st (hsub.subset hm) ht,
   hs.2.sublist (List.Sublist.filterMap _ hsub)⟩

theorem dbs_mem_intro {stk : StateStack} {st : State} {b : Int}
    (hm : st ∈ stk) (ht : st.type = .DELIMITED_BLOCK)
    (hb : st.block_start_line = some b) : b ∈ dbs stk := by
  refine List.mem_filterMap.mpr ⟨st, hm, ?_⟩
  rw [if_pos (by simp [ht]), hb]

theorem dbs_lt {lines : List Line} {next : Int} {stk : StateStack}
    (hs : stack_ok lines next stk) : ∀ b ∈ dbs stk, b < next := by
  intro b hb
  obtain ⟨st, hm, hcond⟩ := List.mem_filterMap.mp hb
  by_cases ht : st.type = .DELIMITED_BLOCK
  · obtain ⟨-, b', hb', hlt, -⟩ := hs.1 st hm ht
    rw [if_pos (by simp [ht]), hb'] at hcond
    cases hcond
    exact hlt
  · rw [if_neg (by simpa using ht)] at hcond
    exact Option.noConfusion hcond

theorem mem_set_of_ne {α} {l : List α} {j : Nat} {b c a : α}
    (ha : a ∈ l) (hj : l.get? j = some b) (hne : a ≠ b) : a ∈ l.set j c := by
  obtain ⟨i, hi⟩ := List.mem_iff_get?.mp ha
  have hij : i ≠ j := by
    intro h
    rw [h, hj] at hi
    exact hne (Option.some.inj hi).symm
  exact List.mem_iff_get?.mpr ⟨i, by rw [List.get?_set_ne _ _ (Ne.symm hij), hi]⟩

theorem mem_set_id {lines : List Line} (hn : (lines.map Line.id).Nodup)
    {i : Nat} {tgt tgt' l : Line}
    (hi : lines.get? i = some tgt) (hid : tgt'.id = tgt.id)
    (hl : l ∈ lines.set i tgt') (h : l.id = tgt.id) : l = tgt' := by
  obtain ⟨j, hj⟩ := List.mem_iff_get?.mp hl
  by_cases hij : j = i
  · subst hij
    rw [List.get?_set_eq, hi] at hj
    exact (Option.some.inj hj).symm
  · rw [List.get?_set_ne _ _ (Ne.symm hij)] at hj
    have hmem : l ∈ lines := List.get?_mem hj
    have heq : l = tgt :=
      List.inj_on_of_nodup_map hn hmem (List.get?_mem hi) (by simpa using h)
    subst heq
    have h1 : (lines.map Line.id).get? j = some l.id := by
      rw [List.get?_map, hj]
      rfl
    have h2 : (lines.map Line.id).get? i = some l.id := by
      rw [List.get?_map, hi]
      rfl
    have hlen : j < (lines.map Line.id).length := by
      rw [List.length_map]
      exact (List.get?_eq_some.mp hj).1
    exact absurd (List.get?_inj hlen hn (h1.trans h2.symm)) hij

/-- Pure branches: lines untouched, carry a combinator-checked stack, line
stack with a harmless top. -/
theorem plC9_simple {lines : List Line} {lid : Int} {clean : List Char}
    {lstack carry : StateStack}
    (hb : ∀ l ∈ lines, l.id < lid)
    (hs : stack_ok lines lid carry)
    (hcl : lclosed_ok lines) (hep : endptr_ok lines lid)
    (hfr : top_fresh_ok lstack) :
    plC9 lines lid clean (lines, lstack, carry) := by
  refine ⟨⟨?_, hs.2⟩, ?_, ?_, fun l hl _ => hl⟩
  · intro st hm ht
    obtain ⟨hsub, b, hbsl, hblt, hpt⟩ := hs.1 st hm ht
    refine ⟨hsub, b, hbsl, by omega, ?_⟩
    intro l hl hid
    rcases List.mem_append.mp hl with hl | hl
    · exact hpt l hl hid
    · exfalso
      rw [List.mem_singleton.mp hl] at hid
      simp only [newL] at hid
      omega
  · intro ls hls s hh hty hsubty e he
    rcases List.mem_append.mp hls with hls | hls
    · obtain ⟨le, hle, hq⟩ := hcl ls hls s hh hty hsubty e he
      exact ⟨le, List.mem_append_left _ hle, hq⟩
    · rw [List.mem_singleton.mp hls] at hh
      rcases hfr s hh hty with ⟨-, hnone⟩ | hor
      · rw [hnone] at he
        exact Option.noConfusion he
      · rcases hor with h1 | h1 <;> rw [hsubty] at h1 <;> exact StateSubtype.noConfusion h1
  · intro le hle t hh hty hsubty
    rcases List.mem_append.mp hle with hle | hle
    · obtain ⟨b, hptr, hlt, hpt⟩ := hep le hle t hh hty hsubty
      refine ⟨b, hptr, by omega, ?_⟩
      intro l hl hid
      rcases List.mem_append.mp hl with hl | hl
      · exact hpt l hl hid
      · exfalso
        rw [List.mem_singleton.mp hl] at hid
        simp only [newL] at hid
        omega
    · rw [List.mem_singleton.mp hle] at hh
      exfalso
      rcases hfr t hh hty with ⟨h1, -⟩ | h1 | h1 <;> rw [hsubty] at h1 <;>
        exact StateSubtype.noConfusion h1

/-- The `pl_delimopen` hit: a fresh open block is pushed; the appended line is
its START. -/
theorem plC9_open {lines : List Line} {lid : Int} {clean : List Char}
    {st2 : StateStack} {d : List Char} {sub : StateSubtype}
    (hb : ∀ l ∈ lines, l.id < lid)
    (hs2 : stack_ok lines lid st2)
    (hcl : lclosed_ok lines) (hep : endptr_ok lines lid)
    (hsub : sub = .NORMAL ∨ sub = .VERBATIM) :
    plC9 lines lid clean (lines,
      ({ type := .DELIMITED_BLOCK, subtype := .START, delimiter := some d,
         block_start_line := some lid } : State) :: st2,
      ({ type := .DELIMITED_BLOCK, subtype := sub, delimiter := some d,
         block_start_line := some lid } : State) :: st2) := by
  refine ⟨⟨?_, ?_⟩, ?_, ?_, fun l hl _ => hl⟩
  · intro st hm ht
    rcases List.mem_cons.mp hm with rfl | hm
    · refine ⟨hsub, lid, rfl, by omega, ?_⟩
      intro l hl hid
      rcases List.mem_append.mp hl with hl | hl
      · exact absurd hid (by have := hb l hl; omega)
      · rw [List.mem_singleton.mp hl]
        exact ⟨_, rfl, rfl, rfl, rfl, rfl⟩
    · obtain ⟨hsu, b, hbsl, hblt, hpt⟩ := hs2.1 st hm ht
      refine ⟨hsu, b, hbsl, by omega, ?_⟩
      intro l hl hid
      rcases List.mem_append.mp hl with hl | hl
      · exact hpt l hl hid
      · exfalso
        rw [List.mem_singleton.mp hl] at hid
        simp only [newL] at hid
        omega
  · have hd : dbs (({ type := .DELIMITED_BLOCK, subtype := sub, delimiter := some d,
                      block_start_line := some lid } : State) :: st2) = lid :: dbs st2 := by
      simp [dbs, List.filterMap_cons]
    rw [hd]
    refine List.nodup_cons.mpr ⟨?_, hs2.2⟩
    intro hmem
    have := dbs_lt hs2 lid hmem
    omega
  · intro ls hls s hh hty hsubty e he
    rcases List.mem_append.mp hls with hls | hls
    · obtain ⟨le, hle, hq⟩ := hcl ls hls s hh hty hsubty e he
      exact ⟨le, List.mem_append_left _ hle, hq⟩
    · rw [List.mem_singleton.mp hls] at hh
      cases hh
      exact Option.noConfusion he
  · intro le hle t hh hty hsubty
    rcases List.mem_append.mp hle with hle | hle
    · obtain ⟨b, hptr, hlt, hpt⟩ := hep le hle t hh hty hsubty
      refine ⟨b, hptr, by omega, ?_⟩
      intro l hl hid
      rcases List.mem_append.mp hl with hl | hl
      · exact hpt l hl hid
      · exfalso
        rw [List.mem_singleton.mp hl] at hid
        simp only [newL] at hid
        omega
    · rw [List.mem_singleton.mp hle] at hh
      cases hh
      exact StateSubtype.noConfusion hsubty

theorem dropWhile_head_false {α} {p : α → Bool} :
    ∀ {l t : List α} {a : α}, l.dropWhile p = a :: t → p a = false := by
  intro l
  induction l with
  | nil => intro t a h; exact List.noConfusion h
  | cons x xs ih =>
    intro t a h
    rw [List.dropWhile_cons] at h
    split at h
    · exact ih h
    · cases h
      rename_i hpx
      simpa using hpx

theorem find?_eq_head?_dropWhile {α} (p : α → Bool) :
    ∀ l : List α, l.find? p = (l.dropWhile (fun a => !(p a))).head? := by
  intro l
  induction l with
  | nil => rfl
  | cons x xs ih =>
    rw [List.find?_cons, List.dropWhile_cons]
    cases hpx : p x <;> simp [hpx, ih]

theorem findIdx?_get? {α} {p : α → Bool} :
    ∀ {l : List α} {i j : Nat}, l.findIdx? p i = some j →
      ∃ k a, j = i + k ∧ l.get? k = some a ∧ p a = true := by
  intro l
  induction l with
  | nil => intro i j h; exact Option.noConfusion h
  | cons x xs ih =>
    intro i j h
    rw [List.findIdx?_cons] at h
    split at h
    · cases h
      exact ⟨0, x, by omega, rfl, by assumption⟩
    · obtain ⟨k, a, hj, hget, hp⟩ := ih h
      exact ⟨k + 1, a, by omega, hget, hp⟩

/-- `seal_endif` that found nothing changed nothing. -/
theorem seal_endif_none {endId : Int} :
    ∀ {lines lines' : List Line},
      seal_endif lines endId = Except.ok (lines', none) → lines' = lines := by
  intro lines
  induction lines with
  | nil =>
    intro lines' h
    simp only [seal_endif, pure, Except.pure] at h
    cases h
    rfl
  | cons l rest ih =>
    intro lines' h
    simp only [seal_endif, bind, Except.bind, pure, Except.pure] at h
    split at h
    · exact Except.noConfusion h
    · rename_i v hrec
      split at h
      · simp at h
      · rename_i hfound
        split at h
        · exact Except.noConfusion h
        · rename_i s hh
          split at h
          · simp at h
          · have hv : seal_endif rest endId = Except.ok (v.1, none) := by
              rw [hrec, ← hfound]
            cases h
            rw [ih hv]

/-- `seal_endif` that sealed a start modified exactly one line: a CONDITIONAL
top got its `end_line` stamped. -/
theorem seal_endif_some {endId : Int} :
    ∀ {lines lines' : List Line} {sid : Int},
      seal_endif lines endId = Except.ok (lines', some sid) →
      ∃ j l0 s0, lines.get? j = some l0 ∧ l0.state_stack.head? = some s0 ∧
        s0.type = .CONDITIONAL ∧
        lines' = lines.set j { l0 with state_stack :=
          { s0 with end_line := some endId } :: l0.state_stack.tail } := by
  intro lines
  induction lines with
  | nil =>
    intro lines' sid h
    simp only [seal_endif, pure, Except.pure] at h
    cases h
  | cons l rest ih =>
    intro lines' sid h
    simp only [seal_endif, bind, Except.bind, pure, Except.pure] at h
    split at h
    · exact Except.noConfusion h
    · rename_i v hrec
      split at h
      · rename_i sid0 hfound
        have hv : seal_endif rest endId = Except.ok (v.1, some sid0) := by
          rw [hrec, ← hfound]
        cases h
        obtain ⟨j, l0, s0, hget, hh, hty, hset⟩ := ih hv
        exact ⟨j + 1, l0, s0, hget, hh, hty, by rw [hset]; rfl⟩
      · rename_i hfound
        split at h
        · exact Except.noConfusion h
        · rename_i s hh
          split at h
          · rename_i hcond
            have hv : seal_endif rest endId = Except.ok (v.1, none) := by
              rw [hrec, ← hfound]
            cases h
            refine ⟨0, l, s, rfl, hh, ?_, ?_⟩
            · simp only [Bool.and_eq_true, beq_iff_eq] at hcond
              exact hcond.1.1
            · rw [seal_endif_none hv]
              rfl
          · simp at h

/-- The `endif` seal: one CONDITIONAL top is stamped; blocks are unaffected. -/
theorem plC9_sealend {lines : List Line} {lid endId : Int} {clean : List Char}
    {starting lstack : StateStack} {j : Nat} {l0 : Line} {s0 : State}
    (hb : ∀ l ∈ lines, l.id < lid)
    (hs : stack_ok lines lid starting)
    (hcl : lclosed_ok lines) (hep : endptr_ok lines lid)
    (hget : lines.get? j = some l0) (hh : l0.state_stack.head? = some s0)
    (hty : s0.type = .CONDITIONAL)
    (hfr : top_fresh_ok lstack) :
    plC9 lines lid clean
      (lines.set j { l0 with state_stack :=
         { s0 with end_line := some endId } :: l0.state_stack.tail },
       lstack, starting) := by
  have hl0 : l0 ∈ lines := List.get?_mem hget
  have hml : ∀ {l : Line}, l ∈ lines.set j { l0 with state_stack :=
      { s0 with end_line := some endId } :: l0.state_stack.tail } →
      l ∈ lines ∨ l = { l0 with state_stack :=
        { s0 with end_line := some endId } :: l0.state_stack.tail } := by
    intro l hl
    exact List.mem_or_eq_of_mem_set hl
  have hnotdb : ∀ {P : Prop}, ¬(StateType.CONDITIONAL = StateType.DELIMITED_BLOCK) := by
    intro P h
    exact StateType.noConfusion h
  refine ⟨⟨?_, hs.2⟩, ?_, ?_, ?_⟩
  · intro st hm ht
    obtain ⟨hsub, b, hbsl, hblt, hpt⟩ := hs.1 st hm ht
    refine ⟨hsub, b, hbsl, by omega, ?_⟩
    intro l hl hid
    rcases List.mem_append.mp hl with hl | hl
    · rcases hml hl with hl | rfl
      · exact hpt l hl hid
      · exfalso
        obtain ⟨s, hsh, hsty, -⟩ := hpt l0 hl0 (by simpa using hid)
        rw [hh] at hsh
        cases hsh
        rw [hty] at hsty
        exact StateType.noConfusion hsty
    · exfalso
      rw [List.mem_singleton.mp hl] at hid
      simp only [newL] at hid
      omega
  · intro ls hls s hsh hsty hssub e he
    rcases List.mem_append.mp hls with hls | hls
    · rcases hml hls with hls | rfl
      · obtain ⟨le, hle, hid, t, hth, htty, htsub, htd, htb, hdd⟩ :=
          hcl ls hls s hsh hsty hssub e he
        have hlene : le ≠ l0 := by
          intro hcontra
          rw [hcontra, hh] at hth
          cases hth
          rw [hty] at htty
          exact StateType.noConfusion htty
        exact ⟨le, List.mem_append_left _
          (mem_set_of_ne hle hget hlene), hid, t, hth, htty, htsub, htd, htb, hdd⟩
      · exfalso
        cases hsh
        rw [hty] at hsty
        exact StateType.noConfusion hsty
    · exfalso
      rw [List.mem_singleton.mp hls] at hsh
      rcases hfr s hsh hsty with ⟨-, hnone⟩ | hor
      · rw [hnone] at he
        exact Option.noConfusion he
      · rcases hor with h1 | h1 <;> rw [hssub] at h1 <;> exact StateSubtype.noConfusion h1
  · intro le hle t hth htty htsub
    rcases List.mem_append.mp hle with hle | hle
    · rcases hml hle with hle | rfl
      · obtain ⟨b, hptr, hlt, hpt⟩ := hep le hle t hth htty htsub
        refine ⟨b, hptr, by omega, ?_⟩
        intro l hl hid
        rcases List.mem_append.mp hl with hl | hl
        · rcases hml hl with hl | rfl
          · exact hpt l hl hid
          · exfalso
            obtain ⟨s, hsh, hsty, -⟩ := hpt l0 hl0 (by simpa using hid)
            rw [hh] at hsh
            cases hsh
            rw [hty] at hsty
            exact StateType.noConfusion hsty
        · exfalso
          rw [List.mem_singleton.mp hl] at hid
          simp only [newL] at hid
          omega
      · exfalso
        cases hth
        rw [hty] at htty
        exact StateType.noConfusion htty
    · exfalso
      rw [List.mem_singleton.mp hle] at hth
      rcases hfr t hth htty with ⟨h1, -⟩ | h1 | h1 <;> rw [htsub] at h1 <;>
        exact StateSubtype.noConfusion h1
  · intro l hl hcs
    obtain ⟨s, hsh, hsty, -⟩ := hcs
    have hne : l ≠ l0 := by
      intro hcontra
      rw [hcontra, hh] at hsh
      cases hsh
      rw [hty] at hsty
      exact StateType.noConfusion hsty
    exact mem_set_of_ne hl hget hne

/-- The `pl_close` hit (parser.py 210-224): the first carried DELIMITED_BLOCK
state is popped, the corresponding START line gets `block_end_line := lid`, and
the appended line is the block's END. -/
theorem plC9_seal {lines : List Line} {lid : Int} {clean d : List Char}
    {starting under : StateStack} {delim_state s1 : State} {tgt : Line}
    {bslv : Int} {i : Nat}
    (hn : (lines.map Line.id).Nodup)
    (hb : ∀ l ∈ lines, l.id < lid)
    (hs : stack_ok lines lid starting)
    (hcl : lclosed_ok lines) (hep : endptr_ok lines lid)
    (hdw : starting.dropWhile (fun s => !(s.type == .DELIMITED_BLOCK))
      = delim_state :: under)
    (hbsl : delim_state.block_start_line = some bslv)
    (hd : delim_state.delimiter = some d)
    (hclean : clean = d)
    (hget : lines.get? i = some tgt)
    (htgtid : tgt.id = bslv)
    (hh : tgt.state_stack.head? = some s1) :
    plC9 lines lid clean
      (lines.set i { tgt with state_stack :=
         { s1 with block_end_line := some lid } :: tgt.state_stack.tail },
       { delim_state with subtype := StateSubtype.END } :: under,
       under) := by
  have hsuffix : (delim_state :: under).Sublist starting := by
    rw [← hdw]
    exact List.dropWhile_sublist _
  have hdsmem : delim_state ∈ starting := hsuffix.subset (List.mem_cons_self _ _)
  have hdsty : delim_state.type = .DELIMITED_BLOCK := by
    have := dropWhile_head_false hdw
    simpa using this
  obtain ⟨hdssub, b0, hb0, hb0lt, hopen⟩ := hs.1 delim_state hdsmem hdsty
  have hb0e : b0 = bslv := by
    rw [hbsl] at hb0
    exact (Option.some.inj hb0).symm
  rw [hb0e] at hb0lt hopen
  have htgt_mem : tgt ∈ lines := List.get?_mem hget
  obtain ⟨s1x, hs1h, hs1ty, hs1sub, hs1d, hs1none⟩ := hopen tgt htgt_mem htgtid
  have hse : s1x = s1 := by
    rw [hh] at hs1h
    exact (Option.some.inj hs1h).symm
  rw [hse] at hs1ty hs1sub hs1d hs1none
  have hnodup_under : bslv ∉ dbs under ∧ (dbs under).Nodup := by
    have hsub2 : (dbs (delim_state :: under)).Sublist (dbs starting) :=
      List.Sublist.filterMap _ hsuffix
    have hnd : (dbs (delim_state :: under)).Nodup := hs.2.sublist hsub2
    have hcons : dbs (delim_state :: under) = bslv :: dbs under := by
      simp only [dbs, List.filterMap_cons]
      rw [if_pos (by simp [hdsty]), hbsl]
    rw [hcons] at hnd
    exact ⟨(List.nodup_cons.mp hnd).1, (List.nodup_cons.mp hnd).2⟩
  have hunder_ok : stack_ok lines lid under :=
    stack_ok_sublist ((List.sublist_cons_self delim_state under).trans hsuffix) hs
  generalize htgt'e : ({ tgt with state_stack :=
    { s1 with block_end_line := some lid } :: tgt.state_stack.tail } : Line) = tgt'
  have htgt'id : tgt'.id = tgt.id := by rw [← htgt'e]
  have htgt'h : tgt'.state_stack.head? = some { s1 with block_end_line := some lid } := by
    rw [← htgt'e]
    rfl
  have hmemset : ∀ {l : Line}, l ∈ lines.set i tgt' → l ∈ lines ∨ l = tgt' :=
    fun hl => List.mem_or_eq_of_mem_set hl
  have htgtne : ∀ {l : Line} {t : State}, l.state_stack.head? = some t →
      t.subtype = .END → l ≠ tgt := by
    intro l t hth htsub hcontra
    rw [hcontra, hh] at hth
    cases hth
    rw [htsub] at hs1sub
    exact StateSubtype.noConfusion hs1sub
  have hclosedne : ∀ {l : Line}, closedStart l → l ≠ tgt := by
    intro l hcs hcontra
    obtain ⟨s, hsh, hsty2, hssub2, e, he⟩ := hcs
    rw [hcontra, hh] at hsh
    cases hsh
    rw [hs1none] at he
    exact Option.noConfusion he
  refine ⟨⟨?_, hnodup_under.2⟩, ?_, ?_, ?_⟩
  · intro st hm ht
    obtain ⟨hsub, b, hbsl2, hblt, hpt⟩ := hunder_ok.1 st hm ht
    have hbne : b ≠ bslv := by
      intro hcontra
      exact hnodup_under.1 (hcontra ▸ dbs_mem_intro hm ht hbsl2)
    refine ⟨hsub, b, hbsl2, by omega, ?_⟩
    intro l hl hid
    rcases List.mem_append.mp hl with hl | hl
    · rcases hmemset hl with hl | rfl
      · exact hpt l hl hid
      · exfalso
        have hid2 : tgt.id = b := by rw [← htgt'id]; exact hid
        exact hbne (hid2.symm.trans htgtid)
    · exfalso
      rw [List.mem_singleton.mp hl] at hid
      simp only [newL] at hid
      omega
  · intro ls hls s hsh hsty hssub e he
    rcases List.mem_append.mp hls with hls | hls
    · rcases hmemset hls with hls | rfl
      · obtain ⟨le, hle, hid, t, hth, htty, htsub, htd, htb, hdd⟩ :=
          hcl ls hls s hsh hsty hssub e he
        exact ⟨le, List.mem_append_left _
          (mem_set_of_ne hle hget (htgtne hth htsub)), hid, t, hth, htty, htsub, htd, htb, hdd⟩
      · have hse2 : s = { s1 with block_end_line := some lid } := by
          rw [htgt'h] at hsh
          exact (Option.some.inj hsh).symm
        subst hse2
        have helid : e = lid := by
          simpa using he.symm
        subst helid
        refine ⟨newL e clean ({ delim_state with subtype := StateSubtype.END } :: under),
          List.mem_append_right _ (List.mem_singleton_self _), rfl,
          { delim_state with subtype := StateSubtype.END }, rfl, by simpa using hdsty, rfl,
          ?_, ?_, ?_⟩
        · simpa using hs1d.symm
        · rw [htgt'id, htgtid]
          exact hbsl
        · exact ⟨d, by simpa using hs1d.trans hd, by simp [newL, hclean]⟩
    · exfalso
      rw [List.mem_singleton.mp hls] at hsh
      simp only [newL] at hsh
      cases hsh
      exact StateSubtype.noConfusion hssub
  · intro le hle t hth htty htsub
    rcases List.mem_append.mp hle with hle | hle
    · rcases hmemset hle with hle | rfl
      · obtain ⟨b, hptr, hlt, hpt⟩ := hep le hle t hth htty htsub
        have hbne : b ≠ bslv := by
          intro hcontra
          obtain ⟨s, hsh2, hsty2, hssub2, hbe⟩ := hpt tgt htgt_mem (hcontra ▸ htgtid)
          rw [hh] at hsh2
          cases hsh2
          rw [hs1none] at hbe
          exact Option.noConfusion hbe
        refine ⟨b, hptr, by omega, ?_⟩
        intro l hl hid
        rcases List.mem_append.mp hl with hl | hl
        · rcases hmemset hl with hl | rfl
          · exact hpt l hl hid
          · exfalso
            have hid2 : tgt.id = b := by rw [← htgt'id]; exact hid
            exact hbne (hid2.symm.trans htgtid)
        · exfalso
          rw [List.mem_singleton.mp hl] at hid
          simp only [newL] at hid
          omega
      · exfalso
        have hte : t = { s1 with block_end_line := some lid } := by
          rw [htgt'h] at hth
          exact (Option.some.inj hth).symm
        subst hte
        have hcontra : s1.subtype = StateSubtype.END := htsub
        rw [hs1sub] at hcontra
        exact StateSubtype.noConfusion hcontra
    · have hle' : le = newL lid clean ({ delim_state with subtype := StateSubtype.END } :: under) :=
        List.mem_singleton.mp hle
      subst hle'
      have hte : t = { delim_state with subtype := StateSubtype.END } := by
        simpa [newL] using hth.symm
      subst hte
      refine ⟨bslv, hbsl, by omega, ?_⟩
      intro l hl hid
      rcases List.mem_append.mp hl with hl | hl
      · have hl' : l = tgt' := mem_set_id hn hget htgt'id hl (hid.trans htgtid.symm)
        subst hl'
        exact ⟨{ s1 with block_end_line := some lid }, htgt'h,
          by simpa using hs1ty, by simpa using hs1sub, rfl⟩
      · exfalso
        rw [List.mem_singleton.mp hl] at hid
        simp only [newL] at hid
        omega
  · intro l hl hcs
    exact mem_set_of_ne hl hget (hclosedne hcs)

theorem stack_ok_nil {lines : List Line} {next : Int} : stack_ok lines next [] :=
  ⟨fun st hm => absurd hm (List.not_mem_nil st), by simp [dbs]⟩

theorem stack_ok_tail {lines : List Line} {next : Int} {stk : StateStack}
    (hs : stack_ok lines next stk) : stack_ok lines next stk.tail :=
  stack_ok_sublist (List.tail_sublist _) hs

theorem pl_final_c9 {lines : List Line} {lid : Int} {clean : List Char}
    {starting : StateStack} {tops : State} {r : List Line × StateStack × StateStack}
    (h : pl_final lines lid starting tops = Except.ok r)
    (hb : ∀ l ∈ lines, l.id < lid)
    (hs : stack_ok lines lid starting)
    (hcl : lclosed_ok lines) (hep : endptr_ok lines lid) :
    plC9 lines lid clean r := by
  simp only [pl_final, newParagraph, pure, Except.pure] at h
  repeat' split at h
  all_goals first
    | exact Except.noConfusion h
    | (cases h; exact plC9_simple hb hs hcl hep (top_fresh_of_stack_ok hs))
    | (cases h; exact plC9_simple hb
        (stack_ok_cons (fun hx => StateType.noConfusion hx)
          (stack_ok_sublist (List.dropWhile_sublist _) hs))
        hcl hep (top_fresh_cons (fun hx => StateType.noConfusion hx)))
    | (cases h; exact plC9_simple hb
        (stack_ok_cons (fun hx => StateType.noConfusion hx) hs)
        hcl hep (top_fresh_cons (fun hx => StateType.noConfusion hx)))

theorem pl_section_c9 {lines : List Line} {lid : Int} {clean : List Char}
    {starting : StateStack} {tops : State} {r : List Line × StateStack × StateStack}
    (h : pl_section lines lid clean starting tops = Except.ok r)
    (hb : ∀ l ∈ lines, l.id < lid)
    (hs : stack_ok lines lid starting)
    (hcl : lclosed_ok lines) (hep : endptr_ok lines lid) :
    plC9 lines lid clean r := by
  simp only [pl_section, pure, Except.pure] at h
  repeat' split at h
  all_goals first
    | exact Except.noConfusion h
    | exact pl_final_c9 h hb hs hcl hep
    | (cases h; exact plC9_simple hb
        (stack_ok_sublist (List.dropWhile_sublist _) hs)
        hcl hep (top_fresh_cons (fun hx => StateType.noConfusion hx)))
    | (cases h; exact plC9_simple hb hs hcl hep
        (top_fresh_cons (fun hx => StateType.noConfusion hx)))

theorem pl_title_c9 {lines : List Line} {lid : Int} {clean : List Char}
    {starting : StateStack} {tops : State} {r : List Line × StateStack × StateStack}
    (h : pl_title lines lid clean starting tops = Except.ok r)
    (htops : starting.head? = some tops)
    (hb : ∀ l ∈ lines, l.id < lid)
    (hs : stack_ok lines lid starting)
    (hcl : lclosed_ok lines) (hep : endptr_ok lines lid) :
    plC9 lines lid clean r := by
  simp only [pl_title, pure, Except.pure] at h
  split at h
  · split at h
    · cases h
      exact plC9_simple hb hs hcl hep (top_fresh_cons (fun hx => StateType.noConfusion hx))
    · split at h
      · rename_i hty
        split at h
        · exact Except.noConfusion h
        · rename_i x xs
          cases h
          have hse : x = tops := by simpa using htops
          have hsty : x.type = StateType.LIST_ITEM := by
            rw [hse]
            simp only [Bool.and_eq_true, beq_iff_eq] at hty
            exact hty.1
          have hrest : stack_ok lines lid xs :=
            stack_ok_sublist (List.sublist_cons_self x xs) hs
          refine plC9_simple hb (stack_ok_cons (fun hx => ?_) hrest) hcl hep
            (top_fresh_cons (fun hx => StateType.noConfusion hx))
          have hx2 : x.type = StateType.DELIMITED_BLOCK := hx
          rw [hsty] at hx2
          exact StateType.noConfusion hx2
      · split at h
        · split at h
          · exact Except.noConfusion h
          · cases h
            exact plC9_simple hb
              (stack_ok_sublist (List.dropWhile_sublist _) hs) hcl hep
              (top_fresh_cons (fun hx => StateType.noConfusion hx))
        · exact pl_section_c9 h hb hs hcl hep
  · exact pl_section_c9 h hb hs hcl hep

theorem findExistingList_spec : ∀ {stk : StateStack} {m : List Char} {ex : State}
    {base : StateStack},
    findExistingList stk m = Except.ok (some (ex, base)) →
    ex.type = .LIST_ITEM ∧ (ex :: base).Sublist stk := by
  intro stk
  induction stk with
  | nil => intro m ex base h; exact Except.noConfusion h
  | cons s rest ih =>
    intro m ex base h
    simp only [findExistingList, pure, Except.pure] at h
    split at h
    · simp at h
    · split at h
      · rename_i hcond
        cases h
        simp only [Bool.and_eq_true, beq_iff_eq] at hcond
        exact ⟨hcond.1, List.Sublist.refl _⟩
      · obtain ⟨hty, hsub⟩ := ih h
        exact ⟨hty, hsub.trans (List.sublist_cons_self _ _)⟩

theorem pl_list_c9 {lines : List Line} {lid : Int} {clean : List Char}
    {starting : StateStack} {tops : State} {r : List Line × StateStack × StateStack}
    (h : pl_list lines lid clean starting tops = Except.ok r)
    (htops : starting.head? = some tops)
    (hb : ∀ l ∈ lines, l.id < lid)
    (hs : stack_ok lines lid starting)
    (hcl : lclosed_ok lines) (hep : endptr_ok lines lid) :
    plC9 lines lid clean r := by
  have hnone : ∀ hx : pl_title lines lid clean starting tops = Except.ok r,
      plC9 lines lid clean r := fun hx => pl_title_c9 hx htops hb hs hcl hep
  have hfresh : plC9 lines lid clean (lines,
      ({ type := StateType.LIST_ITEM, subtype := StateSubtype.FIRST_LINE,
         list_start_line := some lid, item_start_line := some lid,
         marker := some (LIST_ITEM clean).iget } : State) :: starting,
      ({ type := StateType.LIST_ITEM, subtype := StateSubtype.NORMAL,
         list_start_line := some lid, item_start_line := some lid,
         marker := some (LIST_ITEM clean).iget } : State) :: starting) :=
    plC9_simple hb (stack_ok_cons (fun hx => StateType.noConfusion hx) hs)
      hcl hep (top_fresh_cons (fun hx => StateType.noConfusion hx))
  simp only [pl_list, bind, Except.bind, pure, Except.pure] at h
  split at h
  · split at h
    · exact pl_title_c9 h htops hb hs hcl hep
    · split at h
      · -- searched for an existing list
        split at h
        · exact Except.noConfusion h
        · rename_i found hfound
          split at h
          · -- found = some (ex, base)
            rename_i ex base
            cases h
            obtain ⟨hexty, hexsub⟩ := findExistingList_spec hfound
            have hnd : ∀ {P : Prop} {sub : StateSubtype} {isl : Option Int},
                ({ ex with subtype := sub, item_start_line := isl } : State).type
                  = StateType.DELIMITED_BLOCK → P := by
              intro P sub isl hx
              have hx2 : ex.type = StateType.DELIMITED_BLOCK := hx
              rw [hexty] at hx2
              exact StateType.noConfusion hx2
            exact plC9_simple hb
              (stack_ok_cons (fun hx => hnd hx)
                (stack_ok_sublist ((List.sublist_cons_self ex base).trans hexsub) hs))
              hcl hep (top_fresh_cons (fun hx => hnd hx))
          · -- found = none: fresh list item pushed over starting
            cases h
            exact plC9_simple hb
              (stack_ok_cons (fun hx => StateType.noConfusion hx) hs)
              hcl hep (top_fresh_cons (fun hx => StateType.noConfusion hx))
      · -- tops is not a list item: found = none
        cases h
        exact plC9_simple hb
          (stack_ok_cons (fun hx => StateType.noConfusion hx) hs)
          hcl hep (top_fresh_cons (fun hx => StateType.noConfusion hx))
  · exact pl_title_c9 h htops hb hs hcl hep

theorem pl_blockattr_c9 {lines : List Line} {lid : Int} {clean : List Char}
    {starting : StateStack} {tops : State} {r : List Line × StateStack × StateStack}
    (h : pl_blockattr lines lid clean starting tops = Except.ok r)
    (htops : starting.head? = some tops)
    (hb : ∀ l ∈ lines, l.id < lid)
    (hs : stack_ok lines lid starting)
    (hcl : lclosed_ok lines) (hep : endptr_ok lines lid) :
    plC9 lines lid clean r := by
  have hbase : ∀ {base : StateStack}, stack_ok lines lid base →
      plC9 lines lid clean (lines,
        ({ type := StateType.BLOCK_PFX, subtype := StateSubtype.BLOCK_ATTRIBUTES } : State)
          :: base, base) := by
    intro base hbok
    exact plC9_simple hb hbok hcl hep (top_fresh_cons (fun hx => StateType.noConfusion hx))
  simp only [pl_blockattr, pure, Except.pure] at h
  split at h
  · split at h
    · cases h
      exact hbase (stack_ok_tail hs)
    · split at h
      · rename_i hty
        split at h
        · rename_i x xs
          cases h
          have hse : x = tops := by simpa using htops
          have hsty : x.type = StateType.LIST_ITEM := by
            rw [hse]
            simp only [Bool.and_eq_true, beq_iff_eq] at hty
            exact hty.1
          have hrest : stack_ok lines lid xs :=
            stack_ok_sublist (List.sublist_cons_self x xs) hs
          refine hbase (stack_ok_cons (fun hx => ?_) hrest)
          have hx2 : x.type = StateType.DELIMITED_BLOCK := hx
          rw [hsty] at hx2
          exact StateType.noConfusion hx2
        · cases h
          exact hbase stack_ok_nil
      · cases h
        exact hbase hs
  · exact pl_list_c9 h htops hb hs hcl hep

theorem pl_plus_c9 {lines : List Line} {lid : Int} {clean : List Char}
    {starting : StateStack} {tops : State} {r : List Line × StateStack × StateStack}
    (h : pl_plus lines lid clean starting tops = Except.ok r)
    (htops : starting.head? = some tops)
    (hb : ∀ l ∈ lines, l.id < lid)
    (hs : stack_ok lines lid starting)
    (hcl : lclosed_ok lines) (hep : endptr_ok lines lid) :
    plC9 lines lid clean r := by
  simp only [pl_plus, pure, Except.pure] at h
  split at h
  · split at h
    · rename_i hty
      split at h
      · rename_i x xs
        cases h
        have hse : x = tops := by simpa using htops
        have hsty : x.type = StateType.LIST_ITEM := by
          rw [hse]
          simp only [Bool.and_eq_true, beq_iff_eq] at hty
          exact hty.1
        have hrest : stack_ok lines lid xs :=
          stack_ok_sublist (List.sublist_cons_self x xs) hs
        have hnd : ∀ {P : Prop} {sub : StateSubtype},
            ({ x with subtype := sub } : State).type = StateType.DELIMITED_BLOCK → P := by
          intro P sub hx
          have hx2 : x.type = StateType.DELIMITED_BLOCK := hx
          rw [hsty] at hx2
          exact StateType.noConfusion hx2
        exact plC9_simple hb (stack_ok_cons (fun hx => hnd hx) hrest) hcl hep
          (top_fresh_cons (fun hx => hnd hx))
      · exact Except.noConfusion h
    · exact pl_blockattr_c9 h htops hb hs hcl hep
  · exact pl_blockattr_c9 h htops hb hs hcl hep

theorem pl_blank_c9 {lines : List Line} {lid : Int} {clean : List Char}
    {starting : StateStack} {tops : State} {r : List Line × StateStack × StateStack}
    (h : pl_blank lines lid clean starting tops = Except.ok r)
    (htops : starting.head? = some tops)
    (hb : ∀ l ∈ lines, l.id < lid)
    (hs : stack_ok lines lid starting)
    (hcl : lclosed_ok lines) (hep : endptr_ok lines lid) :
    plC9 lines lid clean r := by
  simp only [pl_blank, pure, Except.pure] at h
  split at h
  · split at h
    · cases h
      exact plC9_simple hb (stack_ok_tail hs) hcl hep
        (top_fresh_of_stack_ok (stack_ok_tail hs))
    · split at h
      · rename_i hty
        split at h
        · exact Except.noConfusion h
        · rename_i x xs
          have hse : x = tops := by simpa using htops
          have hsty : x.type = StateType.LIST_ITEM := by
            rw [hse]
            simpa using hty
          have hrest : stack_ok lines lid xs :=
            stack_ok_sublist (List.sublist_cons_self x xs) hs
          have hndl : ∀ {P : Prop} {sub : StateSubtype},
              ({ x with subtype := sub } : State).type = StateType.DELIMITED_BLOCK → P := by
            intro P sub hx
            have hx2 : x.type = StateType.DELIMITED_BLOCK := hx
            rw [hsty] at hx2
            exact StateType.noConfusion hx2
          split at h
          · split at h
            · exact Except.noConfusion h
            · rename_i anc rest2
              have hrest2 : stack_ok lines lid rest2 :=
                stack_ok_sublist (List.sublist_cons_self anc rest2) hrest
              split at h
              · rename_i hanc
                cases h
                have hancty : anc.type = StateType.LIST_ITEM := by simpa using hanc
                have hnda : ∀ {P : Prop} {sub : StateSubtype},
                    ({ anc with subtype := sub } : State).type
                      = StateType.DELIMITED_BLOCK → P := by
                  intro P sub hx
                  have hx2 : anc.type = StateType.DELIMITED_BLOCK := hx
                  rw [hancty] at hx2
                  exact StateType.noConfusion hx2
                exact plC9_simple hb
                  (stack_ok_cons (fun hx => hnda hx) hrest2) hcl hep
                  (top_fresh_cons (fun hx => hnda hx))
              · cases h
                exact plC9_simple hb
                  (stack_ok_cons (fun hx => hndl hx) hrest) hcl hep
                  (top_fresh_cons (fun hx => hndl hx))
          · cases h
            exact plC9_simple hb
              (stack_ok_cons (fun hx => hndl hx) hrest) hcl hep
              (top_fresh_cons (fun hx => hndl hx))
      · cases h
        exact plC9_simple hb hs hcl hep (top_fresh_of_stack_ok hs)
  · exact pl_plus_c9 h htops hb hs hcl hep

theorem pl_delimopen_c9 {lines : List Line} {lid : Int} {clean : List Char}
    {starting : StateStack} {tops : State} {r : List Line × StateStack × StateStack}
    (h : pl_delimopen lines lid clean starting tops = Except.ok r)
    (htops : starting.head? = some tops)
    (hb : ∀ l ∈ lines, l.id < lid)
    (hs : stack_ok lines lid starting)
    (hcl : lclosed_ok lines) (hep : endptr_ok lines lid) :
    plC9 lines lid clean r := by
  simp only [pl_delimopen, bind, Except.bind, pure, Except.pure] at h
  split at h
  · rename_i d hd
    generalize hst1e : (if tops.type == StateType.PARAGRAPH
      then starting.tail else starting) = st1 at h
    have hok1 : stack_ok lines lid st1 := by
      rw [← hst1e]
      split
      · exact stack_ok_tail hs
      · exact hs
    clear hst1e
    split at h
    · exact Except.noConfusion h
    · rename_i st2 hst2
      have hok2 : stack_ok lines lid st2 := by
        split at hst2
        · exact absurd hst2 (fun hx => Except.noConfusion hx)
        · rename_i x xs
          have hrest : stack_ok lines lid xs :=
            stack_ok_sublist (List.sublist_cons_self x xs) hok1
          split at hst2
          · rename_i hxty
            have hxty2 : x.type = StateType.LIST_ITEM := by simpa using hxty
            have hnd : ∀ {P : Prop} {sub : StateSubtype},
                ({ x with subtype := sub } : State).type
                  = StateType.DELIMITED_BLOCK → P := by
              intro P sub hx2
              have hx3 : x.type = StateType.DELIMITED_BLOCK := hx2
              rw [hxty2] at hx3
              exact StateType.noConfusion hx3
            split at hst2
            · cases hst2
              exact stack_ok_cons (fun hx => hnd hx) hrest
            · split at hst2
              · exact absurd hst2 (fun hx => Except.noConfusion hx)
              · cases hst2
                exact stack_ok_sublist (List.dropWhile_sublist _) hok1
          · cases hst2
            exact hok1
      cases h
      exact plC9_open hb hok2 hcl hep (by split <;> simp)
  · exact pl_blank_c9 h htops hb hs hcl hep

theorem pl_attrdef_c9 {lines : List Line} {lid : Int} {clean : List Char}
    {starting : StateStack} {tops : State} {r : List Line × StateStack × StateStack}
    (h : pl_attrdef lines lid clean starting tops = Except.ok r)
    (htops : starting.head? = some tops)
    (hb : ∀ l ∈ lines, l.id < lid)
    (hs : stack_ok lines lid starting)
    (hcl : lclosed_ok lines) (hep : endptr_ok lines lid) :
    plC9 lines lid clean r := by
  simp only [pl_attrdef, pure, Except.pure] at h
  split at h
  · cases h
    exact plC9_simple hb hs hcl hep (top_fresh_cons (fun hx => StateType.noConfusion hx))
  · exact pl_delimopen_c9 h htops hb hs hcl hep

theorem pl_comment_c9 {lines : List Line} {lid : Int} {clean : List Char}
    {starting : StateStack} {tops : State} {r : List Line × StateStack × StateStack}
    (h : pl_comment lines lid clean starting tops = Except.ok r)
    (htops : starting.head? = some tops)
    (hb : ∀ l ∈ lines, l.id < lid)
    (hs : stack_ok lines lid starting)
    (hcl : lclosed_ok lines) (hep : endptr_ok lines lid) :
    plC9 lines lid clean r := by
  simp only [pl_comment, pure, Except.pure] at h
  split at h
  · cases h
    exact plC9_simple hb hs hcl hep (top_fresh_cons (fun hx => StateType.noConfusion hx))
  · exact pl_attrdef_c9 h htops hb hs hcl hep

theorem pl_verbatim_c9 {lines : List Line} {lid : Int} {clean : List Char}
    {starting : StateStack} {tops : State} {r : List Line × StateStack × StateStack}
    (h : pl_verbatim lines lid clean starting tops = Except.ok r)
    (htops : starting.head? = some tops)
    (hb : ∀ l ∈ lines, l.id < lid)
    (hs : stack_ok lines lid starting)
    (hcl : lclosed_ok lines) (hep : endptr_ok lines lid) :
    plC9 lines lid clean r := by
  simp only [pl_verbatim, pure, Except.pure] at h
  split at h
  · cases h
    exact plC9_simple hb hs hcl hep (top_fresh_of_stack_ok hs)
  · exact pl_comment_c9 h htops hb hs hcl hep

theorem pl_close_c9 {lines : List Line} {lid : Int} {clean : List Char}
    {starting : StateStack} {tops : State} {r : List Line × StateStack × StateStack}
    (h : pl_close lines lid clean starting tops = Except.ok r)
    (htops : starting.head? = some tops)
    (hn : (lines.map Line.id).Nodup)
    (hb : ∀ l ∈ lines, l.id < lid)
    (hs : stack_ok lines lid starting)
    (hcl : lclosed_ok lines) (hep : endptr_ok lines lid) :
    plC9 lines lid clean r := by
  simp only [pl_close, sealBlockEnd, bind, Except.bind, pure, Except.pure] at h
  split at h
  · -- hit
    rename_i hcond
    split at h
    · exact Except.noConfusion h
    · rename_i delim_state under hdw
      -- the delimiter comparison facts
      obtain ⟨d, htd, hdne, hcleq⟩ : ∃ d, top_delimiter starting = some d ∧
          d.isEmpty = false ∧ clean = d := by
        split at hcond
        · rename_i d htd
          simp only [Bool.and_eq_true, Bool.not_eq_true', beq_iff_eq] at hcond
          exact ⟨d, htd, hcond.1, hcond.2⟩
        · exact absurd hcond (by simp)
      have hfind : starting.find? (fun s => s.type == StateType.DELIMITED_BLOCK)
          = some delim_state := by
        rw [find?_eq_head?_dropWhile, hdw]
        rfl
      have hdd : delim_state.delimiter = some d := by
        have : top_delimiter starting = delim_state.delimiter := by
          simp only [top_delimiter, top_by_type, hfind]
        rw [this] at htd
        exact htd
      split at h
      · exact Except.noConfusion h
      · rename_i bslv hbslv
        have hbsl2 : delim_state.block_start_line = some bslv := by
          split at hbslv
          · rename_i v heqv
            cases hbslv
            exact heqv
          · exact Except.noConfusion hbslv
        split at h
        · exact Except.noConfusion h
        · rename_i i hfi
          split at h
          · exact Except.noConfusion h
          · rename_i lines2 hseal
            cases h
            split at hseal
            · exact Except.noConfusion hseal
            · rename_i tgt hget
              split at hseal
              · exact Except.noConfusion hseal
              · rename_i s1 hh
                cases hseal
                have htgtid : tgt.id = bslv := by
                  obtain ⟨k, a, hk, hgk, hpk⟩ := findIdx?_get? hfi
                  have hk0 : k = i := by omega
                  subst hk0
                  rw [hget] at hgk
                  cases hgk
                  exact eq_of_beq hpk
                exact plC9_seal hn hb hs hcl hep hdw hbsl2 hdd hcleq hget htgtid hh
  · exact pl_verbatim_c9 h htops hb hs hcl hep

theorem pl_cond_c9 {lines : List Line} {lid : Int} {content clean : List Char}
    {starting : StateStack} {tops : State} {r : List Line × StateStack × StateStack}
    (h : pl_cond lines lid content clean starting tops = Except.ok r)
    (htops : starting.head? = some tops)
    (hn : (lines.map Line.id).Nodup)
    (hb : ∀ l ∈ lines, l.id < lid)
    (hs : stack_ok lines lid starting)
    (hcl : lclosed_ok lines) (hep : endptr_ok lines lid) :
    plC9 lines lid clean r := by
  simp only [pl_cond, bind, Except.bind, pure, Except.pure] at h
  split at h
  · -- a conditional directive
    split at h
    · -- endif: seal_endif
      split at h
      · exact Except.noConfusion h
      · rename_i v hrec
        cases h
        have hrec2 : seal_endif lines lid = Except.ok (v.1, v.2) := hrec
        cases hsid : v.2 with
        | none =>
          rw [hsid] at hrec2
          have hle := seal_endif_none hrec2
          rw [hle]
          exact plC9_simple hb hs hcl hep
            (top_fresh_cons (fun hx => StateType.noConfusion hx))
        | some sid =>
          rw [hsid] at hrec2
          obtain ⟨j, l0, s0, hget, hh0, hty0, hset⟩ := seal_endif_some hrec2
          rw [hset]
          exact plC9_sealend hb hs hcl hep hget hh0 hty0
            (top_fresh_cons (fun hx => StateType.noConfusion hx))
    · split at h
      · -- single-line conditional
        cases h
        exact plC9_simple hb hs hcl hep
          (top_fresh_cons (fun hx => StateType.noConfusion hx))
      · -- span start
        cases h
        exact plC9_simple hb hs hcl hep
          (top_fresh_cons (fun hx => StateType.noConfusion hx))
  · exact pl_close_c9 h htops hn hb hs hcl hep

/-- The C9 invariant of a document and the stack carried into the next line. -/
def c9inv (doc : Parsed) (carry : StateStack) : Prop :=
  stack_ok doc.lines doc.next_line_id carry ∧ lclosed_ok doc.lines ∧
  endptr_ok doc.lines doc.next_line_id

theorem parse_line_c9 {doc : Parsed} {content : List Char} {carry : StateStack}
    {doc' : Parsed} {carry' : StateStack}
    (h : parse_line doc content carry = Except.ok (doc', carry'))
    (hids : idsOk doc) (hinv : c9inv doc carry) :
    c9inv doc' carry' ∧ ∀ l ∈ doc.lines, closedStart l → l ∈ doc'.lines := by
  obtain ⟨hso, hcl, hep⟩ := hinv
  simp only [parse_line, bind, Except.bind, pure, Except.pure] at h
  split at h
  · exact Except.noConfusion h
  · rename_i tops htops
    split at h
    · exact Except.noConfusion h
    · split at h
      · exact Except.noConfusion h
      · rename_i r hr
        cases h
        obtain ⟨hso', hcl', hep', hsurv⟩ :=
          pl_cond_c9 hr htops hids.1 hids.2 hso hcl hep
        exact ⟨⟨hso', hcl', hep'⟩,
          fun l hl hcs => List.mem_append_left _ (hsurv l hl hcs)⟩

theorem parse_go_c9 : ∀ (inputs : List (List Char)) (doc : Parsed) (st : StateStack)
    {doc' : Parsed} {st' : StateStack},
    parse_go inputs doc st = Except.ok (doc', st') → idsOk doc → c9inv doc st →
    c9inv doc' st' ∧ ∀ l ∈ doc.lines, closedStart l → l ∈ doc'.lines
  | [], doc, st, doc', st', h, hids, hinv => by
    simp only [parse_go, pure, Except.pure] at h
    cases h
    exact ⟨hinv, fun l hl _ => hl⟩
  | c :: rest, doc, st, doc', st', h, hids, hinv => by
    simp only [parse_go, bind, Except.bind] at h
    split at h
    · exact Except.noConfusion h
    · rename_i r hline
      have hline2 : parse_line doc c st = Except.ok (r.1, r.2) := by rw [hline]
      obtain ⟨hinv1, hsurv1⟩ := parse_line_c9 hline2 hids hinv
      obtain ⟨hinv2, hsurv2⟩ := parse_go_c9 rest r.1 r.2 h
        (parse_line_idsOk hline2 hids) hinv1
      exact ⟨hinv2, fun l hl hcs => hsurv2 l (hsurv1 l hl hcs) hcs⟩

theorem parse_go_append : ∀ (a b : List (List Char)) (doc : Parsed) (st : StateStack),
    parse_go (a ++ b) doc st =
      (parse_go a doc st).bind (fun r => parse_go b r.1 r.2)
  | [], b, doc, st => rfl
  | c :: rest, b, doc, st => by
    simp only [List.cons_append, parse_go, bind, Except.bind]
    cases parse_line doc c st with
    | error e => rfl
    | ok r => exact parse_go_append rest b r.1 r.2

theorem c9inv_start : c9inv Parsed.empty rootStack := by
  refine ⟨⟨?_, by simp [dbs, rootStack]⟩, ?_, ?_⟩
  · intro st hm ht
    rw [rootStack, List.mem_singleton] at hm
    subst hm
    exact absurd ht (fun hx => StateType.noConfusion hx)
  · intro ls hls
    exact absurd hls (List.not_mem_nil ls)
  · intro le hle
    exact absurd hle (List.not_mem_nil le)

theorem parse_shape_c9 {inputs : List (List Char)} {doc : Parsed}
    (hp : parse inputs = Except.ok doc) :
    ∃ docF stF, parse_go inputs Parsed.empty rootStack = Except.ok (docF, stF) ∧
      doc.lines = docF.lines := by
  simp only [parse, bind, Except.bind] at hp
  split at hp
  · exact Except.noConfusion hp
  · rename_i r hgo
    split at hp
    · exact Except.noConfusion hp
    · cases hp
      exact ⟨r.1, r.2, by rw [hgo], rfl⟩

/-- C9: for every delimited block closed during the structural parse, the
`block_end_line` parameter on the state of the block's START line equals the
id of the unique matching END line — a line whose trimmed text equals the
block's delimiter, whose top state is the block's END with a back-pointer to
the START line, and which is the only END line pointing at that START — and
once this parameter is set it is never changed afterwards: a line whose top is
a closed START in any parse prefix survives verbatim into the final document. -/
theorem C9_block_end_line (inputs : List (List Char)) (doc : Parsed)
    (hp : parse inputs = Except.ok doc) :
    (∀ ls ∈ doc.lines, ∀ s, ls.state_stack.head? = some s →
      s.type = .DELIMITED_BLOCK → s.subtype = .START →
      ∀ e, s.block_end_line = some e →
        ∃ le ∈ doc.lines, le.id = e ∧
          ∃ t, le.state_stack.head? = some t ∧ t.type = .DELIMITED_BLOCK ∧
            t.subtype = .END ∧ t.delimiter = s.delimiter ∧
            t.block_start_line = some ls.id ∧
            (∃ d, s.delimiter = some d ∧ le.content = d) ∧
            ∀ le2 ∈ doc.lines, ∀ t2, le2.state_stack.head? = some t2 →
              t2.type = .DELIMITED_BLOCK → t2.subtype = .END →
              t2.block_start_line = some ls.id → le2 = le) ∧
    (∀ k doc_k st_k, parse_go (inputs.take k) Parsed.empty rootStack
        = Except.ok (doc_k, st_k) →
      ∀ l ∈ doc_k.lines, closedStart l → l ∈ doc.lines) := by
  obtain ⟨docF, stF, hgo, hlines⟩ := parse_shape_c9 hp
  have hids0 : idsOk Parsed.empty := by
    constructor <;> simp [Parsed.empty]
  obtain ⟨⟨hso, hcl, hep⟩, -⟩ :=
    parse_go_c9 inputs Parsed.empty rootStack hgo hids0 c9inv_start
  have hidsF : idsOk docF := parse_go_idsOk inputs Parsed.empty rootStack hgo hids0
  constructor
  · intro ls hls s hsh hsty hssub e he
    rw [hlines] at hls
    obtain ⟨le, hle, hid, t, hth, htty, htsub, htd, htb, hdd⟩ :=
      hcl ls hls s hsh hsty hssub e he
    refine ⟨le, by rw [hlines]; exact hle, hid, t, hth, htty, htsub, htd, htb, hdd, ?_⟩
    intro le2 hle2 t2 hth2 htty2 htsub2 htb2
    rw [hlines] at hle2
    obtain ⟨b2, hptr2, hlt2, hpt2⟩ := hep le2 hle2 t2 hth2 htty2 htsub2
    have hb2 : b2 = ls.id := Option.some.inj (hptr2.symm.trans htb2)
    obtain ⟨s2, hsh2, hsty2, hssub2, hble2⟩ := hpt2 ls hls hb2.symm
    have hse : s2 = s := Option.some.inj (hsh2.symm.trans hsh)
    rw [hse] at hble2
    have hide : le2.id = le.id := by
      have h1 : le2.id = e := Option.some.inj (hble2.symm.trans he)
      rw [h1, hid]
    exact List.inj_on_of_nodup_map hidsF.1 hle2 hle hide
  · intro k doc_k st_k hk l hl hcs
    have hsplit := parse_go_append (inputs.take k) (inputs.drop k) Parsed.empty rootStack
    rw [List.take_append_drop, hgo, hk] at hsplit
    have hgo2 : parse_go (inputs.drop k) doc_k st_k = Except.ok (docF, stF) := hsplit.symm
    have hinvk := parse_go_c9 (inputs.take k) Parsed.empty rootStack hk hids0 c9inv_start
    have hidsk : idsOk doc_k := parse_go_idsOk (inputs.take k) Parsed.empty rootStack hk hids0
    obtain ⟨-, hsurv⟩ := parse_go_c9 (inputs.drop k) doc_k st_k hgo2 hidsk hinvk.1
    rw [hlines]
    exact hsurv l hl hcs

/-- A document with one closed verbatim block for the C9 witness. -/
def C9w_inputs : List (List Char) :=
  ["Intro.", "----", "verbatim inside", "----", "tail text"].map String.toList

def C9w_doc : Parsed :=
{ lines := [
  { id := 1, content := "Intro.".toList,
    state_stack := [{ type := .PARAGRAPH, subtype := .FIRST_LINE, first_line := some 1 },
      { type := .ROOT, subtype := .NORMAL }] },
  { id := 2, content := "----".toList,
    state_stack := [{ type := .DELIMITED_BLOCK, subtype := .START, delimiter := some "----".toList, block_start_line := some 2, block_end_line := some 4 },
      { type := .ROOT, subtype := .NORMAL }] },
  { id := 3, content := "verbatim inside".toList,
    state_stack := [{ type := .DELIMITED_BLOCK, subtype := .VERBATIM, delimiter := some "----".toList, block_start_line := some 2 },
      { type := .ROOT, subtype := .NORMAL }] },
  { id := 4, content := "----".toList,
    state_stack := [{ type := .DELIMITED_BLOCK, subtype := .END, delimiter := some "----".toList, block_start_line := some 2 },
      { type := .ROOT, subtype := .NORMAL }] },
  { id := 5, content := "tail text".toList,
    state_stack := [{ type := .PARAGRAPH, subtype := .FIRST_LINE, first_line := some 5 },
      { type := .ROOT, subtype := .NORMAL }] }],
  next_line_id := 10000, last_original_id := 5, updating_last_original_id := false }

/-- Witness for C9 on a concrete document whose `----` block closes on line 4. -/
theorem C9_witness :
    parse C9w_inputs = Except.ok C9w_doc ∧
    ((∀ ls ∈ C9w_doc.lines, ∀ s, ls.state_stack.head? = some s →
      s.type = .DELIMITED_BLOCK → s.subtype = .START →
      ∀ e, s.block_end_line = some e →
        ∃ le ∈ C9w_doc.lines, le.id = e ∧
          ∃ t, le.state_stack.head? = some t ∧ t.type = .DELIMITED_BLOCK ∧
            t.subtype = .END ∧ t.delimiter = s.delimiter ∧
            t.block_start_line = some ls.id ∧
            (∃ d, s.delimiter = some d ∧ le.content = d) ∧
            ∀ le2 ∈ C9w_doc.lines, ∀ t2, le2.state_stack.head? = some t2 →
              t2.type = .DELIMITED_BLOCK → t2.subtype = .END →
              t2.block_start_line = some ls.id → le2 = le) ∧
     (∀ k doc_k st_k, parse_go (C9w_inputs.take k) Parsed.empty rootStack
         = Except.ok (doc_k, st_k) →
       ∀ l ∈ doc_k.lines, closedStart l → l ∈ C9w_doc.lines)) :=
  ⟨rfl, C9_block_end_line C9w_inputs C9w_doc rfl⟩



/-! ## C8: rejected spans survive the pipeline verbatim -/


/-- A line whose recorded top state is a CONDITIONAL: a directive line. -/
def isCondTop (l : Line) : Prop :=
  ∃ t, l.state_stack.head? = some t ∧ t.type = .CONDITIONAL

/-- No state of the stack is a CONDITIONAL (true of every carried stack). -/
def noCondStack (stk : StateStack) : Prop :=
  ∀ st ∈ stk, ¬(st.type = .CONDITIONAL)

/-- Every directive line has non-blank content. -/
def condNonblank (lines : List Line) : Prop :=
  ∀ l ∈ lines, isCondTop l → ¬((pyStrip l.content).isEmpty = true)

theorem ncs_sublist {a b : StateStack} (hsub : a.Sublist b) (h : noCondStack b) :
    noCondStack a := fun st hm => h st (hsub.subset hm)

theorem ncs_tail {stk : StateStack} (h : noCondStack stk) : noCondStack stk.tail :=
  ncs_sublist (List.tail_sublist _) h

theorem ncs_cons {s : State} {stk : StateStack} (hs : ¬(s.type = .CONDITIONAL))
    (h : noCondStack stk) : noCondStack (s :: stk) := by
  intro st hm
  rcases List.mem_cons.mp hm with rfl | hm
  · exact hs
  · exact h st hm

theorem ncs_nil : noCondStack [] := fun st hm => absurd hm (List.not_mem_nil st)

/-- The conclusion one `_parse_line` branch must provide for the
directive-lines-are-nonblank invariant. -/
def plNB (lines : List Line) (lid : Int) (clean : List Char)
    (r : List Line × StateStack × StateStack) : Prop :=
  (∀ s, r.2.1.head? = some s → s.type = .CONDITIONAL →
    ¬((pyStrip clean).isEmpty = true)) ∧
  noCondStack r.2.2 ∧
  (condNonblank lines → condNonblank r.1)

theorem plNB_of_stack {lid : Int} {clean : List Char} {lines : List Line}
    {lstack carry : StateStack}
    (hl : noCondStack lstack) (hc : noCondStack carry) :
    plNB lines lid clean (lines, lstack, carry) :=
  ⟨fun s hh ht => absurd ht (hl s (head?_mem hh)), hc, fun h => h⟩

theorem condNonblank_set {lines : List Line} {j : Nat} {l0 : Line} {s0 s2 : State}
    (hget : lines.get? j = some l0) (hh : l0.state_stack.head? = some s0)
    (hty : s2.type = s0.type)
    (h : condNonblank lines) :
    condNonblank (lines.set j { l0 with state_stack := s2 :: l0.state_stack.tail }) := by
  intro l hl hct
  rcases List.mem_or_eq_of_mem_set hl with hl | rfl
  · exact h l hl hct
  · obtain ⟨t, hth, htty⟩ := hct
    cases hth
    exact h l0 (List.get?_mem hget) ⟨s0, hh, by rw [← hty]; exact htty⟩

theorem pl_final_nb {lines : List Line} {lid : Int} {clean : List Char}
    {starting : StateStack} {tops : State} {r : List Line × StateStack × StateStack}
    (h : pl_final lines lid starting tops = Except.ok r)
    (hs : noCondStack starting) :
    plNB lines lid clean r := by
  simp only [pl_final, newParagraph, pure, Except.pure] at h
  repeat' split at h
  all_goals first
    | exact Except.noConfusion h
    | (cases h; exact plNB_of_stack hs hs)
    | (cases h; exact plNB_of_stack
        (ncs_cons (fun hx => StateType.noConfusion hx)
          (ncs_sublist (List.dropWhile_sublist _) hs))
        (ncs_cons (fun hx => StateType.noConfusion hx)
          (ncs_sublist (List.dropWhile_sublist _) hs)))
    | (cases h; exact plNB_of_stack
        (ncs_cons (fun hx => StateType.noConfusion hx) hs)
        (ncs_cons (fun hx => StateType.noConfusion hx) hs))

theorem pl_section_nb {lines : List Line} {lid : Int} {clean : List Char}
    {starting : StateStack} {tops : State} {r : List Line × StateStack × StateStack}
    (h : pl_section lines lid clean starting tops = Except.ok r)
    (hs : noCondStack starting) :
    plNB lines lid clean r := by
  simp only [pl_section, pure, Except.pure] at h
  repeat' split at h
  all_goals first
    | exact Except.noConfusion h
    | exact pl_final_nb h hs
    | (cases h; exact plNB_of_stack
        (ncs_cons (fun hx => StateType.noConfusion hx)
          (ncs_sublist (List.dropWhile_sublist _) hs))
        (ncs_sublist (List.dropWhile_sublist _) hs))
    | (cases h; exact plNB_of_stack
        (ncs_cons (fun hx => StateType.noConfusion hx) hs) hs)

theorem pl_title_nb {lines : List Line} {lid : Int} {clean : List Char}
    {starting : StateStack} {tops : State} {r : List Line × StateStack × StateStack}
    (h : pl_title lines lid clean starting tops = Except.ok r)
    (hs : noCondStack starting) :
    plNB lines lid clean r := by
  simp only [pl_title, pure, Except.pure] at h
  split at h
  · split at h
    · cases h
      exact plNB_of_stack (ncs_cons (fun hx => StateType.noConfusion hx) hs) hs
    · split at h
      · split at h
        · exact Except.noConfusion h
        · rename_i x xs
          cases h
          have hx : ¬(x.type = StateType.CONDITIONAL) := hs x (List.mem_cons_self _ _)
          have hxs : noCondStack xs := ncs_sublist (List.sublist_cons_self x xs) hs
          exact plNB_of_stack
            (ncs_cons (fun h2 => StateType.noConfusion h2)
              (ncs_cons (fun h2 => hx h2) hxs))
            (ncs_cons (fun h2 => hx h2) hxs)
      · split at h
        · split at h
          · exact Except.noConfusion h
          · cases h
            exact plNB_of_stack
              (ncs_cons (fun h2 => StateType.noConfusion h2)
                (ncs_sublist (List.dropWhile_sublist _) hs))
              (ncs_sublist (List.dropWhile_sublist _) hs)
        · exact pl_section_nb h hs
  · exact pl_section_nb h hs

theorem pl_list_nb {lines : List Line} {lid : Int} {clean : List Char}
    {starting : StateStack} {tops : State} {r : List Line × StateStack × StateStack}
    (h : pl_list lines lid clean starting tops = Except.ok r)
    (hs : noCondStack starting) :
    plNB lines lid clean r := by
  simp only [pl_list, bind, Except.bind, pure, Except.pure] at h
  split at h
  · split at h
    · exact pl_title_nb h hs
    · split at h
      · split at h
        · exact Except.noConfusion h
        · rename_i found hfound
          split at h
          · rename_i ex base
            cases h
            obtain ⟨hexty, hexsub⟩ := findExistingList_spec hfound
            have hx : ∀ {P : Prop} {sub : StateSubtype} {isl : Option Int},
                ({ ex with subtype := sub, item_start_line := isl } : State).type
                  = StateType.CONDITIONAL → P := by
              intro P sub isl h2
              have h3 : ex.type = StateType.CONDITIONAL := h2
              rw [hexty] at h3
              exact StateType.noConfusion h3
            have hbase : noCondStack base :=
              ncs_sublist ((List.sublist_cons_self ex base).trans hexsub) hs
            exact plNB_of_stack (ncs_cons (fun h2 => hx h2) hbase)
              (ncs_cons (fun h2 => hx h2) hbase)
          · cases h
            exact plNB_of_stack (ncs_cons (fun h2 => StateType.noConfusion h2) hs)
              (ncs_cons (fun h2 => StateType.noConfusion h2) hs)
      · cases h
        exact plNB_of_stack (ncs_cons (fun h2 => StateType.noConfusion h2) hs)
          (ncs_cons (fun h2 => StateType.noConfusion h2) hs)
  · exact pl_title_nb h hs

theorem pl_blockattr_nb {lines : List Line} {lid : Int} {clean : List Char}
    {starting : StateStack} {tops : State} {r : List Line × StateStack × StateStack}
    (h : pl_blockattr lines lid clean starting tops = Except.ok r)
    (hs : noCondStack starting) :
    plNB lines lid clean r := by
  simp only [pl_blockattr, pure, Except.pure] at h
  split at h
  · split at h
    · cases h
      exact plNB_of_stack (ncs_cons (fun h2 => StateType.noConfusion h2) (ncs_tail hs))
        (ncs_tail hs)
    · split at h
      · split at h
        · rename_i x xs
          cases h
          have hx : ¬(x.type = StateType.CONDITIONAL) := hs x (List.mem_cons_self _ _)
          have hxs : noCondStack xs := ncs_sublist (List.sublist_cons_self x xs) hs
          exact plNB_of_stack
            (ncs_cons (fun h2 => StateType.noConfusion h2)
              (ncs_cons (fun h2 => hx h2) hxs))
            (ncs_cons (fun h2 => hx h2) hxs)
        · cases h
          exact plNB_of_stack (ncs_cons (fun h2 => StateType.noConfusion h2) ncs_nil)
            ncs_nil
      · cases h
        exact plNB_of_stack (ncs_cons (fun h2 => StateType.noConfusion h2) hs) hs
  · exact pl_list_nb h hs

theorem pl_plus_nb {lines : List Line} {lid : Int} {clean : List Char}
    {starting : StateStack} {tops : State} {r : List Line × StateStack × StateStack}
    (h : pl_plus lines lid clean starting tops = Except.ok r)
    (hs : noCondStack starting) :
    plNB lines lid clean r := by
  simp only [pl_plus, pure, Except.pure] at h
  split at h
  · split at h
    · split at h
      · rename_i x xs
        cases h
        have hx : ¬(x.type = StateType.CONDITIONAL) := hs x (List.mem_cons_self _ _)
        have hxs : noCondStack xs := ncs_sublist (List.sublist_cons_self x xs) hs
        exact plNB_of_stack (ncs_cons (fun h2 => hx h2) hxs)
          (ncs_cons (fun h2 => hx h2) hxs)
      · exact Except.noConfusion h
    · exact pl_blockattr_nb h hs
  · exact pl_blockattr_nb h hs

theorem pl_blank_nb {lines : List Line} {lid : Int} {clean : List Char}
    {starting : StateStack} {tops : State} {r : List Line × StateStack × StateStack}
    (h : pl_blank lines lid clean starting tops = Except.ok r)
    (hs : noCondStack starting) :
    plNB lines lid clean r := by
  simp only [pl_blank, pure, Except.pure] at h
  split at h
  · split at h
    · cases h
      exact plNB_of_stack (ncs_tail hs) (ncs_tail hs)
    · split at h
      · split at h
        · exact Except.noConfusion h
        · rename_i x xs
          have hx : ¬(x.type = StateType.CONDITIONAL) := hs x (List.mem_cons_self _ _)
          have hxs : noCondStack xs := ncs_sublist (List.sublist_cons_self x xs) hs
          split at h
          · split at h
            · exact Except.noConfusion h
            · rename_i anc rest2
              have hanc : ¬(anc.type = StateType.CONDITIONAL) :=
                hxs anc (List.mem_cons_self _ _)
              have hrest2 : noCondStack rest2 :=
                ncs_sublist (List.sublist_cons_self anc rest2) hxs
              split at h
              · cases h
                exact plNB_of_stack (ncs_cons (fun h2 => hanc h2) hrest2)
                  (ncs_cons (fun h2 => hanc h2) hrest2)
              · cases h
                exact plNB_of_stack (ncs_cons (fun h2 => hx h2) hxs)
                  (ncs_cons (fun h2 => hx h2) hxs)
          · cases h
            exact plNB_of_stack (ncs_cons (fun h2 => hx h2) hxs)
              (ncs_cons (fun h2 => hx h2) hxs)
      · cases h
        exact plNB_of_stack hs hs
  · exact pl_plus_nb h hs

theorem pl_delimopen_nb {lines : List Line} {lid : Int} {clean : List Char}
    {starting : StateStack} {tops : State} {r : List Line × StateStack × StateStack}
    (h : pl_delimopen lines lid clean starting tops = Except.ok r)
    (hs : noCondStack starting) :
    plNB lines lid clean r := by
  simp only [pl_delimopen, bind, Except.bind, pure, Except.pure] at h
  split at h
  · rename_i d hd
    generalize hst1e : (if tops.type == StateType.PARAGRAPH
      then starting.tail else starting) = st1 at h
    have hok1 : noCondStack st1 := by
      rw [← hst1e]
      split
      · exact ncs_tail hs
      · exact hs
    clear hst1e
    split at h
    · exact Except.noConfusion h
    · rename_i st2 hst2
      have hok2 : noCondStack st2 := by
        split at hst2
        · exact absurd hst2 (fun hx => Except.noConfusion hx)
        · rename_i x xs
          have hx : ¬(x.type = StateType.CONDITIONAL) := hok1 x (List.mem_cons_self _ _)
          have hxs : noCondStack xs := ncs_sublist (List.sublist_cons_self x xs) hok1
          split at hst2
          · split at hst2
            · cases hst2
              exact ncs_cons (fun h2 => hx h2) hxs
            · split at hst2
              · exact absurd hst2 (fun h2 => Except.noConfusion h2)
              · cases hst2
                exact ncs_sublist (List.dropWhile_sublist _) hok1
          · cases hst2
            exact hok1
      cases h
      exact plNB_of_stack (ncs_cons (fun h2 => StateType.noConfusion h2) hok2)
        (ncs_cons (fun h2 => StateType.noConfusion h2) hok2)
  · exact pl_blank_nb h hs

theorem pl_attrdef_nb {lines : List Line} {lid : Int} {clean : List Char}
    {starting : StateStack} {tops : State} {r : List Line × StateStack × StateStack}
    (h : pl_attrdef lines lid clean starting tops = Except.ok r)
    (hs : noCondStack starting) :
    plNB lines lid clean r := by
  simp only [pl_attrdef, pure, Except.pure] at h
  split at h
  · cases h
    exact plNB_of_stack (ncs_cons (fun h2 => StateType.noConfusion h2) hs) hs
  · exact pl_delimopen_nb h hs

theorem pl_comment_nb {lines : List Line} {lid : Int} {clean : List Char}
    {starting : StateStack} {tops : State} {r : List Line × StateStack × StateStack}
    (h : pl_comment lines lid clean starting tops = Except.ok r)
    (hs : noCondStack starting) :
    plNB lines lid clean r := by
  simp only [pl_comment, pure, Except.pure] at h
  split at h
  · cases h
    exact plNB_of_stack (ncs_cons (fun h2 => StateType.noConfusion h2) hs) hs
  · exact pl_attrdef_nb h hs

theorem pl_verbatim_nb {lines : List Line} {lid : Int} {clean : List Char}
    {starting : StateStack} {tops : State} {r : List Line × StateStack × StateStack}
    (h : pl_verbatim lines lid clean starting tops = Except.ok r)
    (hs : noCondStack starting) :
    plNB lines lid clean r := by
  simp only [pl_verbatim, pure, Except.pure] at h
  split at h
  · cases h
    exact plNB_of_stack hs hs
  · exact pl_comment_nb h hs

theorem dropWhile_append_last {α} (p : α → Bool) (x : α) (hx : p x = false) :
    ∀ l : List α, ∃ v, (l ++ [x]).dropWhile p = v ++ [x] := by
  intro l
  induction l with
  | nil =>
    refine ⟨[], ?_⟩
    simp [List.dropWhile_cons, hx]
  | cons a l2 ih =>
    rw [List.cons_append, List.dropWhile_cons]
    split
    · exact ih
    · exact ⟨a :: l2, rfl⟩

theorem rstrip_cons_nonspace {x : Char} {t : List Char} (hx : isPySpace x = false) :
    ∃ u, rstrip (x :: t) = x :: u := by
  obtain ⟨v, hv⟩ := dropWhile_append_last isPySpace x hx t.reverse
  refine ⟨v.reverse, ?_⟩
  rw [rstrip, show (x :: t).reverse = t.reverse ++ [x] from List.reverse_cons x t,
    hv, List.reverse_append]
  rfl

theorem matchOperator_head {s : List Char} {r : List Char × List Char}
    (h : matchOperator s = some r) : ∃ x t, s = x :: t ∧ isPySpace x = false := by
  simp only [matchOperator] at h
  repeat' split at h
  all_goals first
    | exact Option.noConfusion h
    | (rename_i hpre
       obtain ⟨t, ht⟩ := List.isPrefixOf_iff_prefix.mp hpre
       first
        | exact ⟨'i', _, by rw [← ht]; rfl, by decide⟩
        | exact ⟨'e', _, by rw [← ht]; rfl, by decide⟩)

/-- A CONDITIONAL match forces non-blank trimmed content: the operator is a
non-space word at the very start of the line. -/
theorem cond_content_nonblank {content : List Char} {m : CondMatch}
    (h : CONDITIONAL content = some m) :
    ¬((pyStrip (rstrip content)).isEmpty = true) := by
  have hop : ∃ r, matchOperator content = some r := by
    simp only [CONDITIONAL] at h
    split at h
    · exact Option.noConfusion h
    · rename_i op rest heq
      exact ⟨(op, rest), heq⟩
  obtain ⟨r, hr⟩ := hop
  obtain ⟨x, t, hct, hx⟩ := matchOperator_head hr
  subst hct
  obtain ⟨u, hu⟩ := rstrip_cons_nonspace hx
  rw [hu]
  obtain ⟨u2, hu2⟩ := rstrip_cons_nonspace (t := u) hx
  simp [pyStrip, hu2, lstrip, List.dropWhile_cons, hx]

theorem pl_cond_nb {lines : List Line} {lid : Int} {content clean : List Char}
    {starting : StateStack} {tops : State} {r : List Line × StateStack × StateStack}
    (h : pl_cond lines lid content clean starting tops = Except.ok r)
    (hclean : clean = rstrip content)
    (hs : noCondStack starting) :
    plNB lines lid clean r := by
  simp only [pl_cond, bind, Except.bind, pure, Except.pure] at h
  split at h
  · rename_i m hm
    have hnb : ¬((pyStrip clean).isEmpty = true) := by
      rw [hclean]
      exact cond_content_nonblank hm
    split at h
    · split at h
      · exact Except.noConfusion h
      · rename_i v hrec
        cases h
        refine ⟨fun s hh ht => hnb, hs, ?_⟩
        intro hln
        have hrec2 : seal_endif lines lid = Except.ok (v.1, v.2) := hrec
        cases hsid : v.2 with
        | none =>
          rw [hsid] at hrec2
          rw [seal_endif_none hrec2]
          exact hln
        | some sid =>
          rw [hsid] at hrec2
          obtain ⟨j, l0, s0, hget, hh0, hty0, hset⟩ := seal_endif_some hrec2
          rw [hset]
          exact condNonblank_set hget hh0 rfl hln
    · split at h
      · cases h
        exact ⟨fun s hh ht => hnb, hs, fun hl => hl⟩
      · cases h
        exact ⟨fun s hh ht => hnb, hs, fun hl => hl⟩
  · -- not a conditional line: the close chain, but its line change keeps tops
    simp only [pl_close, sealBlockEnd, bind, Except.bind, pure, Except.pure] at h
    split at h
    · split at h
      · exact Except.noConfusion h
      · rename_i delim_state under hdw
        have hsuffix : (delim_state :: under).Sublist starting := by
          rw [← hdw]
          exact List.dropWhile_sublist _
        have hds : ¬(delim_state.type = StateType.CONDITIONAL) :=
          hs delim_state (hsuffix.subset (List.mem_cons_self _ _))
        have hunder : noCondStack under :=
          ncs_sublist ((List.sublist_cons_self delim_state under).trans hsuffix) hs
        split at h
        · exact Except.noConfusion h
        · rename_i bslv hbslv
          split at h
          · exact Except.noConfusion h
          · rename_i i hfi
            split at h
            · exact Except.noConfusion h
            · rename_i lines2 hseal
              cases h
              refine ⟨fun s hh2 ht => by cases hh2; exact absurd ht hds, hunder, ?_⟩
              intro hln
              split at hseal
              · exact Except.noConfusion hseal
              · rename_i tgt hget
                split at hseal
                · exact Except.noConfusion hseal
                · rename_i s1 hh
                  cases hseal
                  exact condNonblank_set hget hh rfl hln
    · exact pl_verbatim_nb h hs

theorem parse_line_nb {doc : Parsed} {content : List Char} {carry : StateStack}
    {doc' : Parsed} {carry' : StateStack}
    (h : parse_line doc content carry = Except.ok (doc', carry'))
    (hcar : noCondStack carry) (hln : condNonblank doc.lines) :
    condNonblank doc'.lines ∧ noCondStack carry' := by
  simp only [parse_line, bind, Except.bind, pure, Except.pure] at h
  split at h
  · exact Except.noConfusion h
  · rename_i tops htops
    split at h
    · exact Except.noConfusion h
    · split at h
      · exact Except.noConfusion h
      · rename_i r hr
        cases h
        obtain ⟨htop, hc2, hl2⟩ := pl_cond_nb hr rfl hcar
        refine ⟨?_, hc2⟩
        intro l hl hct
        rcases List.mem_append.mp hl with hl | hl
        · exact hl2 hln l hl hct
        · rw [List.mem_singleton.mp hl] at hct ⊢
          obtain ⟨t, hth, htty⟩ := hct
          exact htop t hth htty

theorem parse_go_nb : ∀ (inputs : List (List Char)) (doc : Parsed) (st : StateStack)
    {doc' : Parsed} {st' : StateStack},
    parse_go inputs doc st = Except.ok (doc', st') →
    condNonblank doc.lines → noCondStack st → condNonblank doc'.lines
  | [], doc, st, doc', st', h, hln, hst => by
    simp only [parse_go, pure, Except.pure] at h
    cases h
    exact hln
  | c :: rest, doc, st, doc', st', h, hln, hst => by
    simp only [parse_go, bind, Except.bind] at h
    split at h
    · exact Except.noConfusion h
    · rename_i r hline
      have hline2 : parse_line doc c st = Except.ok (r.1, r.2) := by rw [hline]
      obtain ⟨h1, h2⟩ := parse_line_nb hline2 hst hln
      exact parse_go_nb rest r.1 r.2 h h1 h2

/-- In a parsed document every directive line (CONDITIONAL top) has non-blank
content. -/
theorem parse_nb {inputs : List (List Char)} {doc : Parsed}
    (hp : parse inputs = Except.ok doc) : condNonblank doc.lines := by
  obtain ⟨docF, stF, hgo, hlines⟩ := parse_shape_c9 hp
  rw [hlines]
  refine parse_go_nb inputs Parsed.empty rootStack hgo ?_ ?_
  · intro l hl
    exact absurd hl (List.not_mem_nil l)
  · intro st hm
    rw [rootStack, List.mem_singleton] at hm
    subst hm
    exact fun hx => StateType.noConfusion hx

/-- The classifier facts C8 needs about a recorded span: the line after the
start directive and the line before the end directive. -/
def succ_ok (p : Parsed) (c : Conditional) : Prop :=
  ∃ si sl fl ft, p.lines.get? si = some sl ∧ sl.id = c.start_id ∧
    p.lines.get? (si + 1) = some fl ∧ fl.state_stack.head? = some ft ∧
    (ft.type = .PARAGRAPH ∨ ft.type = .LIST_ITEM)

def pred_ok (p : Parsed) (c : Conditional) : Prop :=
  ∃ ei el ll, p.lines.get? ei = some el ∧ el.id = c.end_id ∧ ¬(ei = 0) ∧
    p.lines.get? (ei - 1) = some ll ∧
    ((pyStrip ll.content).isEmpty = true ∨
      ∃ lt, ll.state_stack.head? = some lt ∧
        (lt.type = .PARAGRAPH ∨ lt.type = .LIST_ITEM))

def ids_ok8 (p : Parsed) (c : Conditional) : Prop :=
  (∃ sl ∈ p.lines, sl.id = c.start_id) ∧ ∃ el ∈ p.lines, el.id = c.end_id

def q8 (p : Parsed) (c : Conditional) : Prop :=
  ids_ok8 p c ∧ (¬(c.type = .BLOCKS) → succ_ok p c ∧ pred_ok p c)

theorem q8_app {p : Parsed} {idx : Nat} {start_line : Line} {e : Int} {end_line : Line}
    {ty : ConditionalType} {cv : List (List Char)}
    (hget : p.lines.get? idx = some start_line)
    (hfind : line_by_id? p e = some end_line)
    (hrest : ¬(ty = .BLOCKS) →
      succ_ok p { type := ty, start_id := start_line.id, end_id := e, values := cv } ∧
      pred_ok p { type := ty, start_id := start_line.id, end_id := e, values := cv }) :
    q8 p { type := ty, start_id := start_line.id, end_id := e, values := cv } :=
  ⟨⟨⟨start_line, List.get?_mem hget, rfl⟩,
    ⟨end_line, List.mem_of_find?_eq_some hfind, by simpa using List.find?_some hfind⟩⟩,
   hrest⟩

theorem inv8_append {p : Parsed} {conds : List Conditional} {cond : Conditional}
    (hc : ∀ c ∈ conds, q8 p c) (hcond : q8 p cond) :
    ∀ c ∈ conds ++ [cond], q8 p c := by
  intro c hm
  rcases List.mem_append.mp hm with hm | hm
  · exact hc c hm
  · rw [List.mem_singleton.mp hm]
    exact hcond

theorem retag_group_rev_mem8 : ∀ {conds : List Conditional} {pot : Int} {c' : Conditional},
    c' ∈ (retag_group_rev conds pot).1 →
    c' ∈ conds ∨ ∃ c ∈ conds, c.type = .SINGLE_LIST_ITEM ∧
      c' = { c with type := .GROUP_START_LIST_ITEM } := by
  intro conds
  induction conds with
  | nil => intro pot c' h; simp [retag_group_rev] at h
  | cons a rest ih =>
    intro pot c' h
    simp only [retag_group_rev] at h
    split at h
    · rename_i hcond
      rcases List.mem_cons.mp h with h | h
      · subst h
        refine Or.inr ⟨a, List.mem_cons_self _ _, ?_, rfl⟩
        simp only [Bool.and_eq_true, beq_iff_eq] at hcond
        exact hcond.2
      · rcases ih h with h | ⟨c, hcm, h1, h2⟩
        · exact Or.inl (List.mem_cons_of_mem _ h)
        · exact Or.inr ⟨c, List.mem_cons_of_mem _ hcm, h1, h2⟩
    · exact Or.inl h

theorem inv8_retag {p : Parsed} {conds : List Conditional} {pot : Int}
    (hc : ∀ c ∈ conds, q8 p c) :
    ∀ c' ∈ (retag_group conds pot).1, q8 p c' := by
  intro c' h
  simp only [retag_group] at h
  rw [List.mem_reverse] at h
  rcases retag_group_rev_mem8 h with h | ⟨c, hcm, h1, h2⟩
  · exact hc c' (List.mem_reverse.mp h)
  · subst h2
    obtain ⟨hids, hrest⟩ := hc c (List.mem_reverse.mp hcm)
    refine ⟨hids, fun h2 => ?_⟩
    have := hrest (by rw [h1]; exact fun hx => ConditionalType.noConfusion hx)
    exact this

theorem last_non_blank_last {p : Parsed} {fi i : Nat} {l ll : Line}
    (h : last_non_blank p fi i = Except.ok l)
    (hll : p.lines.get? i = some ll) :
    (pyStrip ll.content).isEmpty = true ∨ l = ll := by
  cases i with
  | zero =>
    simp only [last_non_blank, hll] at h
    split at h
    · left
      assumption
    · right
      simp only [pure, Except.pure] at h
      cases h
      rfl
  | succ j =>
    simp only [last_non_blank, hll] at h
    split at h
    · left
      assumption
    · right
      simp only [pure, Except.pure] at h
      cases h
      rfl

theorem classify_core_q8 {p : Parsed}
    {k : Nat → List Int → List Conditional → Except Err (List Conditional)}
    (hk : ∀ i es cs cs', k i es cs = Except.ok cs' →
      (∀ c ∈ cs, q8 p c) → ∀ c ∈ cs', q8 p c)
    {idx : Nat} {ends : List Int} {conds : List Conditional}
    {start_line : Line} {e : Int} {end_line : Line} {end_idx : Nat}
    {cv : List (List Char)} {ft lt : State} {hp : Bool} {nx : Option Nat}
    {conds' : List Conditional} {first_line last_line end_at : Line}
    (hget : p.lines.get? idx = some start_line)
    (hfind : line_by_id? p e = some end_line)
    (hfl : p.lines.get? (idx + 1) = some first_line)
    (hft : first_line.state_stack.head? = some ft)
    (hei : p.lines.get? end_idx = some end_at)
    (heid : end_at.id = e)
    (hne0 : ¬(end_idx = 0))
    (hll : p.lines.get? (end_idx - 1) = some last_line)
    (hlt : last_line.state_stack.head? = some lt)
    (hpart : hp = true → (pyStrip last_line.content).isEmpty = true ∨
        last_line.state_stack = first_line.state_stack)
    (h : classify_core p k idx ends conds start_line e end_idx cv ft lt hp nx
      = Except.ok conds')
    (hc : ∀ c ∈ conds, q8 p c) :
    ∀ c ∈ conds', q8 p c := by
  have hpred_of : ∀ (ty : ConditionalType) (cv2 : List (List Char)),
      (∃ lt2, last_line.state_stack.head? = some lt2 ∧
        (lt2.type = .PARAGRAPH ∨ lt2.type = .LIST_ITEM)) →
      pred_ok p { type := ty, start_id := start_line.id, end_id := e, values := cv2 } :=
    fun ty cv2 hx => ⟨end_idx, end_at, last_line, hei, heid, hne0, hll, Or.inr hx⟩
  have hpred_blank : ∀ (ty : ConditionalType) (cv2 : List (List Char)),
      (pyStrip last_line.content).isEmpty = true →
      pred_ok p { type := ty, start_id := start_line.id, end_id := e, values := cv2 } :=
    fun ty cv2 hx => ⟨end_idx, end_at, last_line, hei, heid, hne0, hll, Or.inl hx⟩
  have hsucc_of : ∀ (ty : ConditionalType) (cv2 : List (List Char)),
      (ft.type = .PARAGRAPH ∨ ft.type = .LIST_ITEM) →
      succ_ok p { type := ty, start_id := start_line.id, end_id := e, values := cv2 } :=
    fun ty cv2 hx => ⟨idx, start_line, first_line, ft, hget, rfl, hfl, hft, hx⟩
  simp only [classify_core, bind, Except.bind, pure, Except.pure] at h
  split at h
  · rename_i hg1
    have hfty : ft.type = .PARAGRAPH ∨ ft.type = .LIST_ITEM := by
      simp only [Bool.or_eq_true, Bool.and_eq_true, beq_iff_eq] at hg1
      rcases hg1 with h1 | h1
      · exact Or.inl h1.1
      · exact Or.inr h1.1
    split at h
    · rename_i hhp
      split at h
      · exact Except.noConfusion h
      · refine hk _ _ _ _ h (inv8_append hc (q8_app hget hfind (fun h2 => ?_)))
        refine ⟨hsucc_of _ _ hfty, ?_⟩
        rcases hpart hhp with hb | hstk
        · exact hpred_blank _ _ hb
        · refine hpred_of _ _ ⟨ft, ?_, hfty⟩
          rw [hstk]
          exact hft
    · exact hk _ _ _ _ h hc
  · split at h
    · rename_i hg2
      have hg2' : ft.type = StateType.LIST_ITEM ∧ lt = ft := by
        simp only [Bool.and_eq_true, beq_iff_eq] at hg2
        exact ⟨hg2.1.1, hg2.2⟩
      have hsucc : ∀ (ty : ConditionalType) (cv2 : List (List Char)),
          succ_ok p { type := ty, start_id := start_line.id, end_id := e, values := cv2 } :=
        fun ty cv2 => hsucc_of ty cv2 (Or.inr hg2'.1)
      have hpred : ∀ (ty : ConditionalType) (cv2 : List (List Char)),
          pred_ok p { type := ty, start_id := start_line.id, end_id := e, values := cv2 } :=
        fun ty cv2 => hpred_of ty cv2 ⟨lt, hlt, Or.inr (by rw [hg2'.2]; exact hg2'.1)⟩
      repeat' first
        | (simp only [bind, Except.bind, pure, Except.pure] at h)
        | split at h
      all_goals first
        | exact Except.noConfusion h
        | (rename_i hcontra; exact absurd rfl hcontra)
        | exact hk _ _ _ _ h (inv8_append hc
            (q8_app hget hfind (fun h2 => ⟨hsucc _ _, hpred _ _⟩)))
        | exact hk _ _ _ _ h (inv8_append (inv8_retag hc)
            (q8_app hget hfind (fun h2 => ⟨hsucc _ _, hpred _ _⟩)))
    · repeat' first
        | (simp only [bind, Except.bind, pure, Except.pure] at h)
        | split at h
      all_goals first
        | exact Except.noConfusion h
        | (rename_i hcontra; exact absurd rfl hcontra)
        | exact hk _ _ _ _ h hc
        | exact hk _ _ _ _ h (inv8_append hc (q8_app hget hfind (fun h2 => absurd rfl h2)))
        | (refine hk _ _ _ _ h (inv8_append hc (q8_app hget hfind (fun h2 => ?_)))
           have hg3 := ‹(ft.type == StateType.PARAGRAPH && lt.type == StateType.PARAGRAPH &&
             lt.start_line == ft.start_line) = true›
           simp only [Bool.and_eq_true, beq_iff_eq] at hg3
           exact ⟨hsucc_of _ _ (Or.inl hg3.1.1), hpred_of _ _ ⟨lt, hlt, Or.inl hg3.1.2⟩⟩)

theorem classify_ctx_q8 {p : Parsed}
    {k : Nat → List Int → List Conditional → Except Err (List Conditional)}
    (hk : ∀ i es cs cs', k i es cs = Except.ok cs' →
      (∀ c ∈ cs, q8 p c) → ∀ c ∈ cs', q8 p c)
    {idx : Nat} {ends : List Int} {conds : List Conditional}
    {start_line : Line} {e : Int} {end_line : Line} {end_idx : Nat}
    {cv : List (List Char)} {conds' : List Conditional} {end_at : Line}
    (hget : p.lines.get? idx = some start_line)
    (hfind : line_by_id? p e = some end_line)
    (hei : p.lines.get? end_idx = some end_at)
    (heid : end_at.id = e)
    (h : classify_ctx p k idx ends conds start_line e end_idx cv
      = Except.ok conds')
    (hc : ∀ c ∈ conds, q8 p c) :
    ∀ c ∈ conds', q8 p c := by
  simp only [classify_ctx, bind, Except.bind, pure, Except.pure] at h
  split at h
  · exact Except.noConfusion h
  · rename_i first_line hfl
    split at h
    · exact Except.noConfusion h
    · rename_i hne0b
      split at h
      · exact Except.noConfusion h
      · rename_i last_line hll
        split at h
        · rename_i ft lt hft hlt
          split at h
          · exact Except.noConfusion h
          · rename_i lnb_line hlnb
            split at h
            · exact Except.noConfusion h
            · rename_i nxv hnx
              refine classify_core_q8 hk hget hfind hfl hft hei heid ?_ hll hlt ?_ h hc
              · intro hx
                rw [hx] at hne0b
                simp at hne0b
              · intro hhp
                rcases last_non_blank_last hlnb hll with hb | hlnbe
                · exact Or.inl hb
                · right
                  rw [← hlnbe]
                  exact (eq_of_beq hhp).symm
        · exact Except.noConfusion h

theorem classify_span_q8 {p : Parsed}
    {k : Nat → List Int → List Conditional → Except Err (List Conditional)}
    (hk : ∀ i es cs cs', k i es cs = Except.ok cs' →
      (∀ c ∈ cs, q8 p c) → ∀ c ∈ cs', q8 p c)
    {idx : Nat} {ends : List Int} {conds : List Conditional}
    {start_line : Line} {e : Int} {end_line : Line} {end_idx : Nat}
    {cv : List (List Char)} {conds' : List Conditional}
    (hget : p.lines.get? idx = some start_line)
    (hfind : line_by_id? p e = some end_line)
    (hidx : idx_by_id? p e = some end_idx)
    (h : classify_span p k idx ends conds start_line e end_line end_idx cv
      = Except.ok conds')
    (hc : ∀ c ∈ conds, q8 p c) :
    ∀ c ∈ conds', q8 p c := by
  obtain ⟨end_at, hei, heid⟩ : ∃ el, p.lines.get? end_idx = some el ∧ el.id = e := by
    obtain ⟨k0, a, hk0, hgk, hpk⟩ := findIdx?_get? hidx
    have hk0' : k0 = end_idx := by omega
    subst hk0'
    exact ⟨a, hgk, by simpa using hpk⟩
  simp only [classify_span, bind, Except.bind, pure, Except.pure] at h
  repeat' first
    | (simp only [bind, Except.bind, pure, Except.pure] at h)
    | split at h
  all_goals first
    | exact Except.noConfusion h
    | (rename_i hcontra; exact absurd rfl hcontra)
    | exact hk _ _ _ _ h hc
    | exact classify_ctx_q8 hk hget hfind hei heid h hc

theorem make_map_go_q8 (p : Parsed) (values : List (List Char)) :
    ∀ (fuel idx : Nat) (ends : List Int) (conds conds' : List Conditional),
    make_map_go p values fuel idx ends conds = Except.ok conds' →
    (∀ c ∈ conds, q8 p c) → ∀ c ∈ conds', q8 p c := by
  intro fuel
  induction fuel with
  | zero =>
    intro idx ends conds conds' h
    exact absurd h (by simp [make_map_go])
  | succ n ih =>
    intro idx ends conds conds' h hc
    simp only [make_map_go, pure, Except.pure] at h
    repeat' split at h
    all_goals first
      | exact Except.noConfusion h
      | (cases h; exact hc)
      | exact ih _ _ _ _ h hc
      | exact classify_span_q8 ih ‹_› ‹_› ‹_› h hc

/-- Every conditional the classifier records satisfies the C8 span facts. -/
theorem make_map_q8 {p : Parsed} {values : List (List Char)} {fuel : Nat}
    {conds : List Conditional}
    (hm : make_map p values fuel = Except.ok conds) :
    ∀ c ∈ conds, q8 p c :=
  make_map_go_q8 p values fuel 1 [] [] conds hm
    (fun c h => absurd h (List.not_mem_nil c))


/-! ### C8 phase 3: the transformer never touches another span's directives -/

/-- Every position holding a line with id `i` has a non-directive successor. -/
def succNC (p : Parsed) (i : Int) : Prop :=
  ∀ j sl fl, p.lines.get? j = some sl → sl.id = i →
    p.lines.get? (j + 1) = some fl → ¬isCondTop fl

/-- Every position holding a line with id `i` has a non-directive predecessor. -/
def predNC (p : Parsed) (i : Int) : Prop :=
  ∀ j el ll, p.lines.get? j = some el → el.id = i → ¬(j = 0) →
    p.lines.get? (j - 1) = some ll → ¬isCondTop ll

/-- The invariant the transformer maintains for a fixed directive line `l` of
a rejected span: the recorded ids are below the id generator, every recorded
non-BLOCKS conditional has non-directive neighbour lines, and `l` survives
with its id, its content and its stack. -/
def t8 (conds : List Conditional) (l : Line) (p : Parsed) : Prop :=
  (∀ c ∈ conds, c.start_id < p.next_line_id ∧ c.end_id < p.next_line_id) ∧
  (∀ c ∈ conds, ¬(c.type = .BLOCKS) → succNC p c.start_id ∧ predNC p c.end_id) ∧
  ∃ l' ∈ p.lines, l'.id = l.id ∧ l'.content = l.content ∧
    l'.state_stack = l.state_stack

theorem condTop_stack {a b : Line} (h : a.state_stack = b.state_stack)
    (hc : isCondTop a) : isCondTop b := by
  obtain ⟨t, ht, hty⟩ := hc
  rw [h] at ht
  exact ⟨t, ht, hty⟩

theorem get?_set_fields {lines : List Line} {k : Nat} {cur cur' : Line}
    (hk : lines.get? k = some cur) (hid : cur'.id = cur.id)
    (hst : cur'.state_stack = cur.state_stack)
    {j : Nat} {x : Line} (h : (lines.set k cur').get? j = some x) :
    ∃ y, lines.get? j = some y ∧ x.id = y.id ∧ x.state_stack = y.state_stack := by
  by_cases hj : j = k
  · subst hj
    rw [List.get?_set_eq, hk] at h
    exact ⟨cur, hk, by rw [← (Option.some.inj h)]; exact hid,
      by rw [← (Option.some.inj h)]; exact hst⟩
  · rw [List.get?_set_ne _ _ (Ne.symm hj)] at h
    exact ⟨x, h, rfl, rfl⟩

/-- Positionwise id/stack similarity of the line lists. -/
def fieldsLike (a b : Parsed) : Prop :=
  ∀ j x, a.lines.get? j = some x →
    ∃ y, b.lines.get? j = some y ∧ x.id = y.id ∧ x.state_stack = y.state_stack

theorem succNC_like {a b : Parsed} {i : Int} (h : fieldsLike a b)
    (hs : succNC b i) : succNC a i := by
  intro j sl fl hsl hid hfl hct
  obtain ⟨sl0, hsl0, hids, hsts⟩ := h j sl hsl
  obtain ⟨fl0, hfl0, hidf, hstf⟩ := h (j + 1) fl hfl
  exact hs j sl0 fl0 hsl0 (hids ▸ hid) hfl0 (condTop_stack hstf hct)

theorem predNC_like {a b : Parsed} {i : Int} (h : fieldsLike a b)
    (hs : predNC b i) : predNC a i := by
  intro j el ll hel hid hj0 hll hct
  obtain ⟨el0, hel0, hide, _⟩ := h j el hel
  obtain ⟨ll0, hll0, _, hstl⟩ := h (j - 1) ll hll
  exact hs j el0 ll0 hel0 (hide ▸ hid) hj0 hll0 (condTop_stack hstl hct)

/-- A content-only edit of a non-directive line preserves the invariant. -/
theorem t8_set {conds : List Conditional} {l : Line} {p : Parsed}
    {k : Nat} {cur cur' : Line}
    (hk : p.lines.get? k = some cur) (hnc : ¬isCondTop cur)
    (hid : cur'.id = cur.id) (hst : cur'.state_stack = cur.state_stack)
    (hl : isCondTop l) (ht : t8 conds l p) :
    t8 conds l { p with lines := p.lines.set k cur' } := by
  obtain ⟨hv, hnc8, l', hm, hid', hc', hs'⟩ := ht
  have hlk : fieldsLike { p with lines := p.lines.set k cur' } p :=
    fun j x h => get?_set_fields hk hid hst h
  refine ⟨hv, fun c hc hb => ⟨succNC_like hlk (hnc8 c hc hb).1,
    predNC_like hlk (hnc8 c hc hb).2⟩, l', ?_, hid', hc', hs'⟩
  refine mem_set_of_ne hm hk (fun he => hnc ?_)
  rw [← he]
  exact condTop_stack hs'.symm hl

theorem get?_insert {α} {l : List α} {i : Nat} (hi : i ≤ l.length) (a : α) (j : Nat) :
    (l.take i ++ a :: l.drop i).get? j =
      if j < i then l.get? j else if j = i then some a else l.get? (j - 1) := by
  have hlen : (l.take i).length = i := by
    rw [List.length_take]
    omega
  by_cases h1 : j < i
  · rw [if_pos h1, List.get?_append (by omega), List.get?_take h1]
  · rw [if_neg h1]
    by_cases h2 : j = i
    · subst h2
      rw [if_pos rfl, List.get?_append_right (by omega), hlen, Nat.sub_self]
      rfl
    · rw [if_neg h2, List.get?_append_right (by omega), hlen]
      have h3 : j - i = (j - 1 - i) + 1 := by omega
      rw [h3]
      simp only [List.get?_cons_succ]
      rw [List.get?_drop]
      congr 1
      omega

/-- Inserting a fresh line (whose stack is empty) anywhere preserves the
invariant. -/
theorem t8_insert {conds : List Conditional} {l nl : Line} {p : Parsed} {i : Nat}
    (hi : i ≤ p.lines.length) (hnlid : nl.id = p.next_line_id)
    (hnlst : nl.state_stack = [])
    (ht : t8 conds l p) :
    t8 conds l { p with lines := p.lines.take i ++ nl :: p.lines.drop i,
                        next_line_id := p.next_line_id + 1 } := by
  obtain ⟨hv, hnc8, l', hm, hid', hc', hs'⟩ := ht
  have hnlct : ¬isCondTop nl := by
    rintro ⟨t, hth, -⟩
    rw [hnlst] at hth
    exact Option.noConfusion hth
  refine ⟨fun c hc => ⟨?_, ?_⟩, fun c hc hb => ⟨?_, ?_⟩, l', ?_, hid', hc', hs'⟩
  · show c.start_id < p.next_line_id + 1
    have := (hv c hc).1
    omega
  · show c.end_id < p.next_line_id + 1
    have := (hv c hc).2
    omega
  · -- succNC
    intro j sl fl hsl hid hfl hct
    rw [get?_insert hi] at hsl hfl
    by_cases hf1 : j + 1 < i
    · rw [if_pos (by omega)] at hsl
      rw [if_pos hf1] at hfl
      exact (hnc8 c hc hb).1 j sl fl hsl hid hfl hct
    · by_cases hf2 : j + 1 = i
      · rw [if_neg (by omega), if_pos hf2] at hfl
        rw [← Option.some.inj hfl] at hct
        exact hnlct hct
      · rw [if_neg (by omega), if_neg hf2] at hfl
        by_cases hs1 : j = i
        · rw [if_neg (by omega), if_pos hs1] at hsl
          rw [← Option.some.inj hsl] at hid
          rw [hnlid] at hid
          have := (hv c hc).1
          omega
        · have hji : i < j := by omega
          rw [if_neg (by omega), if_neg hs1] at hsl
          have hfl' : p.lines.get? ((j - 1) + 1) = some fl := by
            rw [show (j - 1) + 1 = (j + 1) - 1 from by omega]
            exact hfl
          exact (hnc8 c hc hb).1 (j - 1) sl fl hsl hid hfl' hct
  · -- predNC
    intro j el ll hel hid hj0 hll hct
    rw [get?_insert hi] at hel hll
    by_cases hp1 : j < i
    · rw [if_pos hp1] at hel
      rw [if_pos (by omega)] at hll
      exact (hnc8 c hc hb).2 j el ll hel hid hj0 hll hct
    · by_cases hp2 : j = i
      · rw [if_neg (by omega), if_pos hp2] at hel
        rw [← Option.some.inj hel] at hid
        rw [hnlid] at hid
        have := (hv c hc).2
        omega
      · have hji : i < j := by omega
        rw [if_neg (by omega), if_neg hp2] at hel
        by_cases hl1 : j - 1 = i
        · rw [if_neg (by omega), if_pos hl1] at hll
          rw [← Option.some.inj hll] at hct
          exact hnlct hct
        · have hji2 : i < j - 1 := by omega
          rw [if_neg (by omega), if_neg hl1] at hll
          have hll' : p.lines.get? ((j - 1) - 1) = some ll := hll
          exact (hnc8 c hc hb).2 (j - 1) el ll hel hid (by omega) hll' hct
  · -- membership survives
    have : l' ∈ p.lines.take i ++ p.lines.drop i := by
      rw [List.take_append_drop]
      exact hm
    rcases List.mem_append.mp this with hm2 | hm2
    · exact List.mem_append.mpr (Or.inl hm2)
    · exact List.mem_append.mpr (Or.inr (List.mem_cons_of_mem _ hm2))

theorem idx_by_id_spec {p : Parsed} {i : Int} {k : Nat}
    (h : idx_by_id? p i = some k) :
    ∃ el, p.lines.get? k = some el ∧ el.id = i := by
  obtain ⟨k0, a, hk0, hgk, hpk⟩ := findIdx?_get? h
  have hk0' : k0 = k := by omega
  subst hk0'
  exact ⟨a, hgk, by simpa using hpk⟩

theorem prepend_at_t8 {p p' : Parsed} {k : Nat} {pre : List Char}
    {conds : List Conditional} {l : Line}
    (h : prepend_at p k pre = Except.ok p')
    (hsafe : ∀ cur, p.lines.get? k = some cur → ¬isCondTop cur)
    (hl : isCondTop l) (ht : t8 conds l p) : t8 conds l p' := by
  simp only [prepend_at, pure, Except.pure] at h
  split at h
  · exact Except.noConfusion h
  · rename_i cur hcur
    cases h
    exact t8_set hcur (hsafe cur hcur) rfl rfl hl ht

theorem append_at_t8 {p p' : Parsed} {k : Nat} {suf : List Char}
    {conds : List Conditional} {l : Line}
    (h : append_at p k suf = Except.ok p')
    (hsafe : ∀ cur, p.lines.get? k = some cur → ¬isCondTop cur)
    (hl : isCondTop l) (ht : t8 conds l p) : t8 conds l p' := by
  simp only [append_at, pure, Except.pure] at h
  split at h
  · exact Except.noConfusion h
  · rename_i cur hcur
    cases h
    exact t8_set hcur (hsafe cur hcur) rfl rfl hl ht

theorem splice_item_role_t8 {p p' : Parsed} {k : Nat} {vals : List (List Char)}
    {km : Bool} {conds : List Conditional} {l : Line}
    (h : splice_item_role p k vals km = Except.ok p')
    (hsafe : ∀ cur, p.lines.get? k = some cur → ¬isCondTop cur)
    (hl : isCondTop l) (ht : t8 conds l p) : t8 conds l p' := by
  simp only [splice_item_role, pure, Except.pure] at h
  split at h
  · exact Except.noConfusion h
  · rename_i fl hfl
    split at h
    · exact Except.noConfusion h
    · split at h
      · exact Except.noConfusion h
      · split at h
        · exact Except.noConfusion h
        · cases h
          exact t8_set hfl (hsafe fl hfl) rfl rfl hl ht

theorem splice_item_role_blocks_t8 {p p' : Parsed} {k : Nat}
    {vals : List (List Char)} {conds : List Conditional} {l : Line}
    (h : splice_item_role_blocks p k vals = Except.ok p')
    (hsafe : ∀ cur, p.lines.get? k = some cur → ¬isCondTop cur)
    (hl : isCondTop l) (ht : t8 conds l p) : t8 conds l p' := by
  simp only [splice_item_role_blocks, pure, Except.pure] at h
  split at h
  · exact Except.noConfusion h
  · rename_i cur hcur
    split at h
    · exact Except.noConfusion h
    · split at h
      · exact Except.noConfusion h
      · split at h
        · exact Except.noConfusion h
        · cases h
          exact t8_set hcur (hsafe cur hcur) rfl rfl hl ht

theorem create_line_before_t8 {doc p' : Parsed} {tid : Int} {content : List Char}
    {conds : List Conditional} {l : Line}
    (h : create_line_before doc tid content = Except.ok p')
    (ht : t8 conds l doc) : t8 conds l p' := by
  simp only [create_line_before, create_line, pure, Except.pure] at h
  split at h
  · exact Except.noConfusion h
  · rename_i i hfind
    cases h
    obtain ⟨el, hel, -⟩ := idx_by_id_spec hfind
    have hi : i ≤ doc.lines.length := by
      have h2 : i < doc.lines.length := (List.get?_eq_some.mp hel).1
      omega
    exact t8_insert hi rfl rfl ht

theorem notCondTop_of_head {cur : Line} {s : State}
    (hhd : cur.state_stack.head? = some s) (hty : ¬(s.type = .CONDITIONAL)) :
    ¬isCondTop cur := by
  rintro ⟨t, hth, htty⟩
  rw [hhd] at hth
  cases hth
  exact hty htty

/-- Positionwise similarity plus equal length: what a content edit preserves. -/
def setLike (a b : Parsed) : Prop :=
  fieldsLike a b ∧ a.lines.length = b.lines.length

theorem set_setLike {p : Parsed} {k : Nat} {cur cur' : Line}
    (hk : p.lines.get? k = some cur) (hid : cur'.id = cur.id)
    (hst : cur'.state_stack = cur.state_stack) :
    setLike { p with lines := p.lines.set k cur' } p :=
  ⟨fun j x h => get?_set_fields hk hid hst h, List.length_set _ _ _⟩

theorem setLike_get {a b : Parsed} (h : setLike a b) {k : Nat} {y : Line}
    (hy : b.lines.get? k = some y) :
    ∃ x, a.lines.get? k = some x ∧ x.id = y.id := by
  cases hxe : a.lines.get? k with
  | none =>
    have h1 : b.lines.length ≤ k := by
      rw [← h.2]
      exact List.get?_eq_none.mp hxe
    have h2 : k < b.lines.length := (List.get?_eq_some.mp hy).1
    omega
  | some x =>
    obtain ⟨y2, hy2, hid2, -⟩ := h.1 k x hxe
    rw [hy] at hy2
    exact ⟨x, rfl, by rw [hid2, ← Option.some.inj hy2]⟩

theorem prepend_at_setLike {p p' : Parsed} {k : Nat} {pre : List Char}
    (h : prepend_at p k pre = Except.ok p') : setLike p' p := by
  simp only [prepend_at, pure, Except.pure] at h
  split at h
  · exact Except.noConfusion h
  · rename_i cur hcur
    cases h
    exact set_setLike hcur rfl rfl

theorem splice_item_role_setLike {p p' : Parsed} {k : Nat} {vals : List (List Char)}
    {km : Bool} (h : splice_item_role p k vals km = Except.ok p') : setLike p' p := by
  simp only [splice_item_role, pure, Except.pure] at h
  split at h
  · exact Except.noConfusion h
  · rename_i fl hfl
    split at h
    · exact Except.noConfusion h
    · split at h
      · exact Except.noConfusion h
      · split at h
        · exact Except.noConfusion h
        · cases h
          exact set_setLike hfl rfl rfl

/-- The line after a recorded conditional's start directive is never itself a
directive, in any document satisfying the invariant. -/
theorem succ_safe_of {p : Parsed} {conds : List Conditional} {l : Line}
    {c : Conditional} {si : Nat}
    (ht : t8 conds l p) (hc : c ∈ conds) (hb : ¬(c.type = .BLOCKS))
    (hsl : ∃ sl, p.lines.get? si = some sl ∧ sl.id = c.start_id) :
    ∀ cur, p.lines.get? (si + 1) = some cur → ¬isCondTop cur := by
  obtain ⟨sl, hsl, hslid⟩ := hsl
  intro cur hcur
  exact (ht.2.1 c hc hb).1 si sl cur hsl hslid hcur

/-- The line before a recorded conditional's end directive is never itself a
directive, in any document satisfying the invariant. -/
theorem pred_safe_of {p : Parsed} {conds : List Conditional} {l : Line}
    {c : Conditional} {ei : Nat}
    (ht : t8 conds l p) (hc : c ∈ conds) (hb : ¬(c.type = .BLOCKS))
    (hel : ∃ el, p.lines.get? ei = some el ∧ el.id = c.end_id) (hne : ¬(ei = 0)) :
    ∀ cur, p.lines.get? (ei - 1) = some cur → ¬isCondTop cur := by
  obtain ⟨el, hel, helid⟩ := hel
  intro cur hcur
  exact (ht.2.1 c hc hb).2 ei el cur hel helid hne hcur

/-- `group_walk` edits only the first line after a member's start directive and
the line before its end directive; both are non-directive lines. -/
theorem group_walk_t8 {marker : List Char} :
    ∀ {cs : List Conditional} {p : Parsed} {k : Nat} {nid : Int}
      {r : Parsed × Nat} {conds : List Conditional} {l : Line},
    group_walk marker cs p k nid = Except.ok r →
    (∀ c ∈ cs, c ∈ conds) → isCondTop l → t8 conds l p → t8 conds l r.1 := by
  intro cs
  induction cs with
  | nil =>
    intro p k nid r conds l h hsub hl ht
    simp only [group_walk, pure, Except.pure] at h
    cases h
    exact ht
  | cons c rest ih =>
    intro p k nid r conds l h hsub hl ht
    have hcm : c ∈ conds := hsub c (List.mem_cons_self _ _)
    simp only [group_walk, bind, Except.bind, pure, Except.pure] at h
    split at h
    · rename_i hg
      have hb : ¬(c.type = .BLOCKS) := by
        simp only [Bool.and_eq_true, beq_iff_eq] at hg
        rw [hg.1]
        exact fun hx => ConditionalType.noConfusion hx
      split at h
      · rename_i si hsi
        split at h
        · rename_i ei hei
          split at h
          · exact Except.noConfusion h
          · rename_i fl hfl
            split at h
            · exact Except.noConfusion h
            · rename_i s hhd
              split at h
              · exact Except.noConfusion h
              · split at h
                · exact Except.noConfusion h
                · rename_i p2 hsp
                  split at h
                  · exact Except.noConfusion h
                  · rename_i hne0
                    split at h
                    · exact Except.noConfusion h
                    · rename_i p3 happ
                      split at h
                      · exact Except.noConfusion h
                      · rename_i nl hnl
                        have ht2 : t8 conds l p2 :=
                          splice_item_role_t8 hsp
                            (succ_safe_of ht hcm hb (idx_by_id_spec hsi)) hl ht
                        have hne : ¬(ei = 0) := by simpa using hne0
                        have ht3 : t8 conds l p3 :=
                          append_at_t8 happ
                            (pred_safe_of ht2 hcm hb
                              (setLike_get (splice_item_role_setLike hsp)
                                (idx_by_id_spec hei).choose_spec.1 |>.imp
                                  (fun x hx => ⟨hx.1, hx.2.trans
                                    (idx_by_id_spec hei).choose_spec.2⟩)) hne) hl ht2
                        exact ih h (fun c2 hm => hsub c2 (List.mem_cons_of_mem _ hm)) hl ht3
        · exact Except.noConfusion h
      · exact Except.noConfusion h
    · cases h
      exact ht

/-- The continuation hypothesis shared by the `blocks_walk` branch lemmas. -/
def bwK (conds : List Conditional) (l : Line)
    (bw : Parsed → Option Int → Bool → Except Err Parsed) : Prop :=
  ∀ p2 cur?2 flag2 p2', bw p2 cur?2 flag2 = Except.ok p2' →
    t8 conds l p2 → t8 conds l p2'

/-- The optional role-attribute insertion is a fresh insertion or a no-op. -/
theorem bw_maybe_role_t8 {conds : List Conditional} {l : Line}
    {p : Parsed} {cid : Int} {vals : List (List Char)} {flag : Bool} {p2 : Parsed}
    (h : bw_maybe_role p cid vals flag = Except.ok p2)
    (ht : t8 conds l p) : t8 conds l p2 := by
  simp only [bw_maybe_role, pure, Except.pure] at h
  split at h
  · exact create_line_before_t8 h ht
  · cases h
    exact ht

theorem bw_attrs_t8 {conds : List Conditional} {l : Line}
    {bw : Parsed → Option Int → Bool → Except Err Parsed}
    (hl : isCondTop l) (hbw : bwK conds l bw)
    {p : Parsed} {k : Nat} {cur : Line} {vals : List (List Char)} {p' : Parsed}
    (hcur : p.lines.get? k = some cur) (hnc : ¬isCondTop cur)
    (h : bw_attrs bw p k cur vals = Except.ok p')
    (ht : t8 conds l p) : t8 conds l p' := by
  simp only [bw_attrs] at h
  split at h
  · exact Except.noConfusion h
  · exact hbw _ _ _ _ h (t8_set hcur hnc rfl rfl hl ht)

theorem bw_title_t8 {conds : List Conditional} {l : Line}
    {bw : Parsed → Option Int → Bool → Except Err Parsed}
    (hl : isCondTop l) (hbw : bwK conds l bw)
    {p : Parsed} {cid : Int} {vals : List (List Char)} {flag : Bool} {p' : Parsed}
    (h : bw_title bw p cid vals flag = Except.ok p')
    (ht : t8 conds l p) : t8 conds l p' := by
  simp only [bw_title, bind, Except.bind, pure, Except.pure] at h
  repeat' first
    | (simp only [bind, Except.bind, pure, Except.pure] at h)
    | split at h
  all_goals first
    | exact Except.noConfusion h
    | exact hbw _ _ _ _ h (bw_maybe_role_t8 (by assumption) ht)

theorem bw_para_t8 {conds : List Conditional} {l : Line}
    {bw : Parsed → Option Int → Bool → Except Err Parsed}
    (hl : isCondTop l) (hbw : bwK conds l bw)
    {p : Parsed} {cid : Int} {vals : List (List Char)} {flag : Bool} {p' : Parsed}
    (h : bw_para bw p cid vals flag = Except.ok p')
    (ht : t8 conds l p) : t8 conds l p' := by
  simp only [bw_para, bind, Except.bind, pure, Except.pure] at h
  repeat' first
    | (simp only [bind, Except.bind, pure, Except.pure] at h)
    | split at h
  all_goals first
    | exact Except.noConfusion h
    | exact hbw _ _ _ _ h (bw_maybe_role_t8 (by assumption) ht)

theorem bw_delim_t8 {conds : List Conditional} {l : Line}
    {bw : Parsed → Option Int → Bool → Except Err Parsed}
    (hl : isCondTop l) (hbw : bwK conds l bw)
    {p : Parsed} {cid : Int} {s : State} {vals : List (List Char)} {flag : Bool}
    {p' : Parsed}
    (h : bw_delim bw p cid s vals flag = Except.ok p')
    (ht : t8 conds l p) : t8 conds l p' := by
  simp only [bw_delim, bind, Except.bind, pure, Except.pure] at h
  repeat' first
    | (simp only [bind, Except.bind, pure, Except.pure] at h)
    | split at h
  all_goals first
    | exact Except.noConfusion h
    | exact hbw _ _ _ _ h ht
    | exact hbw _ _ _ _ h (bw_maybe_role_t8 (by assumption) ht)

theorem bw_list_t8 {conds : List Conditional} {l : Line}
    {bw : Parsed → Option Int → Bool → Except Err Parsed}
    (hl : isCondTop l) (hbw : bwK conds l bw)
    {endId : Int} {fuel : Nat} {p : Parsed} {cid : Int} {k : Nat} {s : State}
    {vals : List (List Char)} {flag : Bool} {p' : Parsed}
    (hsafe : ∀ cur2, p.lines.get? k = some cur2 → ¬isCondTop cur2)
    (h : bw_list bw endId fuel p cid k s vals flag = Except.ok p')
    (ht : t8 conds l p) : t8 conds l p' := by
  simp only [bw_list, bind, Except.bind, pure, Except.pure] at h
  repeat' first
    | (simp only [bind, Except.bind, pure, Except.pure] at h)
    | split at h
  all_goals first
    | exact Except.noConfusion h
    | exact hbw _ _ _ _ h (bw_maybe_role_t8 (by assumption) ht)
    | exact hbw _ _ _ _ h (splice_item_role_blocks_t8 (by assumption) hsafe hl ht)

theorem bw_section_t8 {conds : List Conditional} {l : Line}
    {bw : Parsed → Option Int → Bool → Except Err Parsed}
    (hl : isCondTop l) (hbw : bwK conds l bw)
    {p : Parsed} {cid : Int} {vals : List (List Char)} {flag : Bool} {p' : Parsed}
    (h : bw_section bw p cid vals flag = Except.ok p')
    (ht : t8 conds l p) : t8 conds l p' := by
  simp only [bw_section, bind, Except.bind, pure, Except.pure] at h
  repeat' first
    | (simp only [bind, Except.bind, pure, Except.pure] at h)
    | split at h
  all_goals first
    | exact Except.noConfusion h
    | exact hbw _ _ _ _ h (create_line_before_t8 (by assumption) ht)

/-- The block-based walk edits only lines whose top state it has just checked
to be BLOCK_PFX or LIST_ITEM, and otherwise only inserts fresh lines. -/
theorem blocks_walk_t8 {endId : Int} {vals : List (List Char)} :
    ∀ (fuel : Nat) {p : Parsed} {cur? : Option Int} {flag : Bool} {p' : Parsed}
      {conds : List Conditional} {l : Line},
    blocks_walk endId vals fuel p cur? flag = Except.ok p' →
    isCondTop l → t8 conds l p → t8 conds l p' := by
  intro fuel
  induction fuel with
  | zero =>
    intro p cur? flag p' conds l h hl ht
    exact absurd h (by simp [blocks_walk])
  | succ n ih =>
    intro p cur? flag p' conds l h hl ht
    have hbw : bwK conds l (blocks_walk endId vals n) :=
      fun p2 cur?2 flag2 p2' h2 ht2 => ih h2 hl ht2
    simp only [blocks_walk] at h
    split at h
    · exact Except.noConfusion h
    · rename_i cid
      split at h
      · simp only [pure, Except.pure] at h
        cases h
        exact ht
      · split at h
        · exact Except.noConfusion h
        · rename_i k hk
          split at h
          · exact Except.noConfusion h
          · rename_i cur hcur
            split at h
            · exact Except.noConfusion h
            · rename_i s hhd
              have hsafe : ¬(s.type = .CONDITIONAL) →
                  ∀ cur2, p.lines.get? k = some cur2 → ¬isCondTop cur2 := by
                intro hns cur2 hcur2
                rw [hcur] at hcur2
                cases hcur2
                exact notCondTop_of_head hhd hns
              split at h
              · -- BLOCK_ATTRIBUTES: in-place edit of a BLOCK_PFX-topped line
                rename_i hg1
                refine bw_attrs_t8 hl hbw hcur (hsafe ?_ cur hcur) h ht
                simp only [Bool.and_eq_true, beq_iff_eq] at hg1
                rw [hg1.1]
                exact fun hx => StateType.noConfusion hx
              · split at h
                · exact bw_title_t8 hl hbw h ht
                · split at h
                  · exact bw_para_t8 hl hbw h ht
                  · split at h
                    · exact bw_delim_t8 hl hbw h ht
                    · split at h
                      · -- LIST_ITEM FIRST_LINE
                        rename_i hg5
                        refine bw_list_t8 hl hbw (hsafe ?_) h ht
                        simp only [Bool.and_eq_true, beq_iff_eq] at hg5
                        rw [hg5.1]
                        exact fun hx => StateType.noConfusion hx
                      · split at h
                        · exact bw_section_t8 hl hbw h ht
                        · -- any other line: plain advance
                          exact ih h hl ht

theorem ei_transfer {a b : Parsed} (hsl : setLike a b) {i : Int} {ei : Nat}
    (hei : idx_by_id? b i = some ei) :
    ∃ el, a.lines.get? ei = some el ∧ el.id = i := by
  obtain ⟨el, hel, helid⟩ := idx_by_id_spec hei
  obtain ⟨x, hx, hxid⟩ := setLike_get hsl hel
  exact ⟨x, hx, hxid.trans helid⟩

/-- The whole conditional-processing loop preserves the invariant: every edit
is guarded either by the recorded neighbour facts or by a top-type check. -/
theorem process_go_t8 {conds : List Conditional} :
    ∀ (fuel : Nat) {p : Parsed} {idx : Nat} {p' : Parsed} {l : Line},
    process_go conds fuel p idx = Except.ok p' →
    isCondTop l → t8 conds l p → t8 conds l p' := by
  intro fuel
  induction fuel with
  | zero =>
    intro p idx p' l h hl ht
    simp only [process_go, pure, Except.pure] at h
    split at h
    · cases h
      exact ht
    · exact Except.noConfusion h
  | succ n ih =>
    intro p idx p' l h hl ht
    simp only [process_go, bind, Except.bind, pure, Except.pure] at h
    split at h
    · cases h
      exact ht
    · rename_i cond hcond
      have hcm : cond ∈ conds := List.get?_mem hcond
      split at h
      · rename_i si hsi
        split at h
        · rename_i ei hei
          split at h
          · -- PARTIAL_SPAN: prepend after start, append before end
            rename_i hg1
            have hb : ¬(cond.type = .BLOCKS) := by
              rw [eq_of_beq hg1]
              exact fun hx => ConditionalType.noConfusion hx
            split at h
            · exact Except.noConfusion h
            · rename_i p2 hpre
              split at h
              · exact Except.noConfusion h
              · rename_i hne0
                split at h
                · exact Except.noConfusion h
                · rename_i p3 happ
                  have ht2 : t8 conds l p2 :=
                    prepend_at_t8 hpre
                      (succ_safe_of ht hcm hb (idx_by_id_spec hsi)) hl ht
                  have hne : ¬(ei = 0) := by simpa using hne0
                  have ht3 : t8 conds l p3 :=
                    append_at_t8 happ
                      (pred_safe_of ht2 hcm hb
                        (ei_transfer (prepend_at_setLike hpre) hei) hne) hl ht2
                  exact ih h hl ht3
          · split at h
            · -- PART_START_LIST_ITEM: splice after start, append before end
              rename_i hg2
              have hb : ¬(cond.type = .BLOCKS) := by
                rw [eq_of_beq hg2]
                exact fun hx => ConditionalType.noConfusion hx
              split at h
              · exact Except.noConfusion h
              · rename_i p2 hsp
                split at h
                · exact Except.noConfusion h
                · rename_i hne0
                  split at h
                  · exact Except.noConfusion h
                  · rename_i p3 happ
                    have ht2 : t8 conds l p2 :=
                      splice_item_role_t8 hsp
                        (succ_safe_of ht hcm hb (idx_by_id_spec hsi)) hl ht
                    have hne : ¬(ei = 0) := by simpa using hne0
                    have ht3 : t8 conds l p3 :=
                      append_at_t8 happ
                        (pred_safe_of ht2 hcm hb
                          (ei_transfer (splice_item_role_setLike hsp) hei) hne) hl ht2
                    exact ih h hl ht3
            · split at h
              · -- GROUP_START_LIST_ITEM: splice, append, absorb the group
                rename_i hg3
                have hb : ¬(cond.type = .BLOCKS) := by
                  rw [eq_of_beq hg3]
                  exact fun hx => ConditionalType.noConfusion hx
                split at h
                · exact Except.noConfusion h
                · rename_i fl hfl
                  split at h
                  · exact Except.noConfusion h
                  · rename_i s hhd
                    split at h
                    · exact Except.noConfusion h
                    · rename_i m hm
                      split at h
                      · exact Except.noConfusion h
                      · split at h
                        · exact Except.noConfusion h
                        · rename_i p2 hsp
                          split at h
                          · exact Except.noConfusion h
                          · rename_i hne0
                            split at h
                            · exact Except.noConfusion h
                            · rename_i p3 happ
                              split at h
                              · exact Except.noConfusion h
                              · rename_i nl hnl
                                split at h
                                · exact Except.noConfusion h
                                · rename_i r hgw
                                  have ht2 : t8 conds l p2 :=
                                    splice_item_role_t8 hsp
                                      (succ_safe_of ht hcm hb (idx_by_id_spec hsi)) hl ht
                                  have hne : ¬(ei = 0) := by simpa using hne0
                                  have ht3 : t8 conds l p3 :=
                                    append_at_t8 happ
                                      (pred_safe_of ht2 hcm hb
                                        (ei_transfer (splice_item_role_setLike hsp) hei)
                                        hne) hl ht2
                                  have ht4 : t8 conds l r.1 :=
                                    group_walk_t8 hgw
                                      (fun c2 hm2 => List.mem_of_mem_drop hm2) hl ht3
                                  exact ih h hl ht4
              · -- BLOCKS / SINGLE_LIST_ITEM: the block-based walk
                split at h
                · exact Except.noConfusion h
                · rename_i p2 hbww
                  exact ih h hl (blocks_walk_t8 n hbww hl ht)
        · exact Except.noConfusion h
      · exact Except.noConfusion h

theorem mem_eraseIdx_of_get {α} :
    ∀ {lst : List α} {j k : Nat} {x : α},
    lst.get? j = some x → ¬(j = k) → x ∈ lst.eraseIdx k
  | [], j, k, x, hj, hne => Option.noConfusion hj
  | a :: rest, j, k, x, hj, hne => by
    cases k with
    | zero =>
      cases j with
      | zero => exact absurd rfl hne
      | succ j' =>
        simp only [List.eraseIdx]
        exact List.get?_mem hj
    | succ k' =>
      cases j with
      | zero =>
        cases hj
        exact List.mem_cons_self _ _
      | succ j' =>
        simp only [List.eraseIdx]
        exact List.mem_cons_of_mem _
          (mem_eraseIdx_of_get hj (fun he => hne (by rw [he])))

/-- `remove_by_id` keeps every line whose id is different. -/
theorem remove_by_id_keep {p p' : Parsed} {i : Int} {x : Line}
    (h : remove_by_id p i = Except.ok p') (hx : x ∈ p.lines)
    (hne : ¬(x.id = i)) : x ∈ p'.lines := by
  simp only [remove_by_id, pure, Except.pure] at h
  split at h
  · exact Except.noConfusion h
  · rename_i k hk
    cases h
    obtain ⟨el, hel, helid⟩ := idx_by_id_spec hk
    obtain ⟨j, hj⟩ := List.mem_iff_get?.mp hx
    have hjk : ¬(j = k) := by
      intro he
      rw [he, hel] at hj
      cases hj
      exact hne helid
    exact mem_eraseIdx_of_get hj hjk

/-- The deletion phase removes only the recorded directive lines. -/
theorem remove_conditionals_keep :
    ∀ (cs : List Conditional) {p p' : Parsed} {x : Line},
    remove_conditionals p cs = Except.ok p' → x ∈ p.lines →
    (∀ c ∈ cs, ¬(x.id = c.start_id) ∧ ¬(x.id = c.end_id)) → x ∈ p'.lines := by
  intro cs
  induction cs with
  | nil =>
    intro p p' x h hx hids
    simp only [remove_conditionals, pure, Except.pure] at h
    cases h
    exact hx
  | cons c rest ih =>
    intro p p' x h hx hids
    have hc := hids c (List.mem_cons_self _ _)
    simp only [remove_conditionals, bind, Except.bind, pure, Except.pure] at h
    split at h
    · exact Except.noConfusion h
    · rename_i p2 h1
      split at h
      · exact Except.noConfusion h
      · rename_i p3 h2
        exact ih h
          (remove_by_id_keep h2 (remove_by_id_keep h1 hx hc.1) hc.2)
          (fun c2 hm => hids c2 (List.mem_cons_of_mem _ hm))

/-- Positions holding equal ids coincide when ids are pairwise distinct. -/
theorem get?_id_inj {doc : Parsed} (hok : idsOk doc) {j k : Nat} {a b : Line}
    (hj : doc.lines.get? j = some a) (hk : doc.lines.get? k = some b)
    (hid : a.id = b.id) : j = k := by
  have h1 : (doc.lines.map Line.id).get? j = some a.id := by
    rw [List.get?_map, hj]
    rfl
  have h2 : (doc.lines.map Line.id).get? k = some b.id := by
    rw [List.get?_map, hk]
    rfl
  have hlen : j < (doc.lines.map Line.id).length := by
    rw [List.length_map]
    exact (List.get?_eq_some.mp hj).1
  exact List.get?_inj hlen hok.1 (by rw [h1, h2, hid])

/-- The parse output satisfies the invariant for any of its directive lines:
the classifier facts give the neighbour conditions, the parser facts give
non-blank directives and fresh distinct ids. -/
theorem t8_init {doc : Parsed} {conds : List Conditional} {l : Line}
    (hq : ∀ c ∈ conds, q8 doc c) (hok : idsOk doc)
    (hnb : condNonblank doc.lines) (hl : l ∈ doc.lines) :
    t8 conds l doc := by
  refine ⟨?_, ?_, l, hl, rfl, rfl, rfl⟩
  · intro c hc
    obtain ⟨⟨sl, hslm, hslid⟩, el, helm, helid⟩ := (hq c hc).1
    exact ⟨hslid ▸ hok.2 sl hslm, helid ▸ hok.2 el helm⟩
  · intro c hc hb
    constructor
    · intro j sl fl hsl hid hfl hct
      obtain ⟨si, sl0, fl0, ft, hsl0, hsl0id, hfl0, hft, hfty⟩ := ((hq c hc).2 hb).1
      have hjsi : j = si := get?_id_inj hok hsl hsl0 (hid.trans hsl0id.symm)
      rw [hjsi, hfl0] at hfl
      cases hfl
      obtain ⟨t, hth, htty⟩ := hct
      rw [hft] at hth
      cases hth
      rcases hfty with hx | hx <;> rw [htty] at hx <;> exact StateType.noConfusion hx
    · intro j el ll hel hid hj0 hll hct
      obtain ⟨ei, el0, ll0, hei, heid, hne0, hll0, hdisj⟩ := ((hq c hc).2 hb).2
      have hjei : j = ei := get?_id_inj hok hel hei (hid.trans heid.symm)
      rw [hjei, hll0] at hll
      have hlleq : ll = ll0 := (Option.some.inj hll).symm
      rw [hlleq] at hct
      rcases hdisj with hx | ⟨lt, hlt, hx⟩
      · exact hnb ll0 (List.get?_mem hll0) hct hx
      · obtain ⟨t, hth, htty⟩ := hct
        rw [hlt] at hth
        have hteq : t = lt := (Option.some.inj hth).symm
        rw [hteq] at htty
        rcases hx with hx | hx <;> rw [htty] at hx <;> exact StateType.noConfusion hx

/-- C8: a conditional span the classifier rejected for a recoverable condition
is left untouched: its `ifdef`/`ifndef`/`ifeval` and `endif` directive lines —
the CONDITIONAL-topped lines of the parse whose ids are not among the recorded
conditionals — survive with their literal text into the pipeline's final
output, and the processing of the rest of the document runs to completion. -/
theorem C8_rejected_directives_survive (inputs values : List (List Char))
    (cfuel tfuel : Nat) (doc : Parsed) (conds : List Conditional)
    (out : List (List Char))
    (hp : parse inputs = Except.ok doc)
    (hm : make_map doc values cfuel = Except.ok conds)
    (hpipe : pipeline inputs values cfuel tfuel = Except.ok out) :
    ∀ l ∈ doc.lines, isCondTop l →
      (∀ c ∈ conds, ¬(l.id = c.start_id) ∧ ¬(l.id = c.end_id)) →
      l.content ∈ out := by
  intro l hl hct hids
  simp only [pipeline, bind, Except.bind, pure, Except.pure] at hpipe
  rw [hp] at hpipe
  simp only [hm] at hpipe
  split at hpipe
  · exact Except.noConfusion hpipe
  · rename_i doc2 hproc
    split at hpipe
    · exact Except.noConfusion hpipe
    · rename_i doc3 hrem
      cases hpipe
      have ht0 : t8 conds l doc :=
        t8_init (make_map_q8 hm) (parse_idsOk hp) (parse_nb hp) hl
      have hproc' : process_go conds tfuel doc 0 = Except.ok doc2 := hproc
      have ht2 : t8 conds l doc2 := process_go_t8 tfuel hproc' hct ht0
      obtain ⟨l', hl'm, hl'id, hl'c, hl'st⟩ := ht2.2.2
      have hmem3 : l' ∈ doc3.lines :=
        remove_conditionals_keep conds hrem hl'm
          (fun c hc => by rw [hl'id]; exact hids c hc)
      exact List.mem_map.mpr ⟨l', hmem3, hl'c⟩

/-- C8 witness input: a gcp span (unrecognized token — rejected, recoverable)
followed by a recognized azure span. -/
def C8w_inputs : List (List Char) :=
  ["ifdef::gcp[]", "gcp text", "endif::[]", "", "ifdef::azure[]",
   "azure text", "endif::[]"].map String.toList

/-- The parsed form of `C8w_inputs` (checked below against `parse`). -/
def C8w_doc : Parsed :=
{ lines := [
  { id := 1, content := "ifdef::gcp[]".toList,
    state_stack := [{ type := .CONDITIONAL, subtype := .START, end_line := some 3, expression := some "gcp".toList, operator := some "ifdef".toList },
      { type := .ROOT, subtype := .NORMAL }] },
  { id := 2, content := "gcp text".toList,
    state_stack := [{ type := .PARAGRAPH, subtype := .FIRST_LINE, first_line := some 2 },
      { type := .ROOT, subtype := .NORMAL }] },
  { id := 3, content := "endif::[]".toList,
    state_stack := [{ type := .CONDITIONAL, subtype := .END, start_line := some 1 },
      { type := .PARAGRAPH, subtype := .NORMAL, first_line := some 2 },
      { type := .ROOT, subtype := .NORMAL }] },
  { id := 4, content := "".toList,
    state_stack := [{ type := .ROOT, subtype := .NORMAL }] },
  { id := 5, content := "ifdef::azure[]".toList,
    state_stack := [{ type := .CONDITIONAL, subtype := .START, end_line := some 7, expression := some "azure".toList, operator := some "ifdef".toList },
      { type := .ROOT, subtype := .NORMAL }] },
  { id := 6, content := "azure text".toList,
    state_stack := [{ type := .PARAGRAPH, subtype := .FIRST_LINE, first_line := some 6 },
      { type := .ROOT, subtype := .NORMAL }] },
  { id := 7, content := "endif::[]".toList,
    state_stack := [{ type := .CONDITIONAL, subtype := .END, start_line := some 5 },
      { type := .PARAGRAPH, subtype := .NORMAL, first_line := some 6 },
      { type := .ROOT, subtype := .NORMAL }] }],
  next_line_id := 10000, last_original_id := 7, updating_last_original_id := false }

/-- What the classifier records on `C8w_doc`: only the azure span; the gcp
span is skipped because `gcp` is not a recognized token (condmap.py 360-365,
the recoverable rejection). -/
def C8w_conds : List Conditional :=
  [{ type := .BLOCKS, start_id := 5, end_id := 7, values := ["azure".toList] }]

/-- The pipeline output: the gcp directives survive verbatim, the azure span
is rewritten. -/
def C8w_out : List (List Char) :=
  ["ifdef::gcp[]", "gcp text", "endif::[]", "",
   "[role=\x22otherprops:azure\x22]", "azure text"].map String.toList

/-- The opening directive line of the rejected gcp span. -/
def C8w_gcp_line : Line :=
  { id := 1, content := "ifdef::gcp[]".toList,
    state_stack := [{ type := .CONDITIONAL, subtype := .START, end_line := some 3, expression := some "gcp".toList, operator := some "ifdef".toList },
      { type := .ROOT, subtype := .NORMAL }] }

/-- Witness for C8: the gcp span is rejected (not recorded), the pipeline
completes, and the gcp `ifdef` line's literal text is in the output. -/
theorem C8_witness :
    parse C8w_inputs = Except.ok C8w_doc ∧
    make_map C8w_doc azure_aws 100 = Except.ok C8w_conds ∧
    pipeline C8w_inputs azure_aws 100 100 = Except.ok C8w_out ∧
    "ifdef::gcp[]".toList ∈ C8w_out :=
  ⟨rfl, rfl, rfl,
    C8_rejected_directives_survive C8w_inputs azure_aws 100 100 C8w_doc C8w_conds
      C8w_out rfl rfl rfl C8w_gcp_line (by decide)
      ⟨{ type := .CONDITIONAL, subtype := .START, end_line := some 3, expression := some "gcp".toList, operator := some "ifdef".toList }, rfl, rfl⟩
      (by decide)⟩

end AsciidocPP


